import Mathlib

/-!
# StockMerge: verification of the XML stock-merge core

Shallow embedding of the repository's two source files:

* `src/stok.py`  — Flask front-end; core functions `parse_decimal`,
  `load_products`, `merge_xml_feeds`, CSV rendering in `download_merged_csv`.
* `src/app.py`   — FastAPI front-end; near-duplicate core `parse_decimal`,
  `load_products`, `compute_merged`, CSV rendering in
  `get_merged_products_csv`.

Modelling conventions:

* Python `decimal.Decimal` is modelled by `Dec`: either a finite value
  `Dmag` (signed coefficient `m : ℤ` together with a base-ten exponent
  `e : ℤ`, denoting `m * 10 ^ e` — exactly Decimal's internal
  coefficient/exponent pair), an infinity, or a (quiet or signaling) NaN.
  Addition rounds the exact sum to the default context precision of 28
  significant digits with half-even rounding, as CPython's default decimal
  context does.  Operations that signal `InvalidOperation` under the default
  context (ordered comparison with a NaN, any operation on a signaling NaN,
  `Inf + (-Inf)`) are modelled as errors, as is `int(±Infinity)`
  (`OverflowError`).
* `xml.etree.ElementTree` trees are modelled by `Element` (tag, attributes,
  text, children); raw request bytes are modelled at the parse boundary by
  `XmlBytes` (either not-well-formed, or a parsed root element).
  `ET.tostring`/`ET.fromstring` round-tripping of a tree is modelled as the
  identity on the tree; Python's in-place node mutation is modelled by
  rebuilding the tree, using the invariant that the node held in the key
  mapping for a key is the last product child bearing that key.
* Python `float(Decimal)` is modelled by correctly-rounded (round to
  nearest, ties to even) conversion to a 53-bit dyadic rational
  `mant * 2 ^ ex`; overflow to IEEE infinity is not modelled (all values in
  this development are far inside the double range).
* Number-to-string conversions (`str(int)`, `format(Decimal, "f")`) are
  implemented over `List Char` with fuel-based digit recursion so that every
  definition kernel-evaluates.
-/

/-! ## Decimal digits: rendering and parsing primitives -/

/-- The character for a single decimal digit value. -/
def digitChar (n : ℕ) : Char := Char.ofNat (48 + n)

/-- Is this an ASCII decimal digit? -/
def isDigitC (c : Char) : Bool := 48 ≤ c.toNat && c.toNat ≤ 57

/-- Numeric value of an ASCII digit character. -/
def dVal (c : Char) : ℕ := c.toNat - 48

/-- Value of a big-endian ASCII digit string. -/
def digitsVal (l : List Char) : ℕ := l.foldl (fun a c => 10 * a + dVal c) 0

/-- Big-endian digits of `n` (empty for `0`); structural fuel recursion. -/
def natDigsAux : ℕ → ℕ → List Char
  | 0, _ => []
  | f + 1, n => if n = 0 then [] else natDigsAux f (n / 10) ++ [digitChar (n % 10)]

/-- Big-endian decimal digit string of a natural number, as `str` renders it. -/
def natDigs (n : ℕ) : List Char := if n = 0 then ['0'] else natDigsAux n n

/-- Decimal digit string of an integer, as Python `str(int)` renders it. -/
def intRepr (z : ℤ) : List Char := (if z < 0 then ['-'] else []) ++ natDigs z.natAbs

/-! ## The Decimal model -/

/-- A finite `decimal.Decimal` value: signed coefficient and base-ten
exponent, denoting `m * 10 ^ e` (Decimal's coefficient/exponent pair). -/
structure Dmag where
  m : ℤ
  e : ℤ
deriving DecidableEq

/-- A `decimal.Decimal`: finite, infinite, or (quiet/signaling) NaN. -/
inductive Dec where
  | fin (d : Dmag)
  | inf (neg : Bool)
  | nan (signaling : Bool)
deriving DecidableEq

/-- Rational value of a finite decimal. -/
def dmagQ (d : Dmag) : ℚ := (d.m : ℚ) * 10 ^ d.e

/-- Rational value of a decimal, when finite. -/
def Dec.qval : Dec → Option ℚ
  | .fin d => some (dmagQ d)
  | _ => none

/-- Errors the Python code can raise: `ValueError` (with its message),
`decimal.InvalidOperation`, `OverflowError`. -/
inductive PyError where
  | valueError (msg : String)
  | invalidOperation
  | overflowError
deriving DecidableEq

/-- Number of decimal digits of a coefficient (`0` has one digit). -/
def nlen10 (n : ℕ) : ℕ := (natDigs n).length

/-- Round a nonnegative coefficient `n` down by `r` decimal digits with
half-even rounding (the default decimal context's `ROUND_HALF_EVEN`). -/
def roundHalfEven10 (n : ℕ) (r : ℕ) : ℕ :=
  let d := 10 ^ r
  let q := n / d
  let rem := n % d
  if 2 * rem < d then q else if d < 2 * rem then q + 1
  else if q % 2 = 0 then q else q + 1

/-- Round an exact result `m * 10 ^ e` to the default context precision of
28 significant digits, as CPython's default decimal context does after
arithmetic. -/
def roundPrec (m : ℤ) (e : ℤ) : Dmag :=
  let L := nlen10 m.natAbs
  if L ≤ 28 then ⟨m, e⟩
  else
    let r := L - 28
    let q := roundHalfEven10 m.natAbs r
    let (q2, e2) := if 28 < nlen10 q then (q / 10, e + (r : ℤ) + 1) else (q, e + (r : ℤ))
    ⟨if m < 0 then -(q2 : ℤ) else (q2 : ℤ), e2⟩

/-- Exact sum of two finite decimals (align exponents, add coefficients),
then round to the context precision — `Decimal.__add__` on finite operands. -/
def addDmag (a b : Dmag) : Dmag :=
  let e := min a.e b.e
  let ma := a.m * 10 ^ (a.e - e).toNat
  let mb := b.m * 10 ^ (b.e - e).toNat
  roundPrec (ma + mb) e

/-- `Decimal.__add__` under the default context: signaling NaNs and
`Inf + (-Inf)` raise `InvalidOperation`, quiet NaNs propagate. -/
def decAdd : Dec → Dec → Except PyError Dec
  | .nan true, _ => .error .invalidOperation
  | _, .nan true => .error .invalidOperation
  | .nan false, _ => .ok (.nan false)
  | _, .nan false => .ok (.nan false)
  | .inf s1, .inf s2 => if s1 = s2 then .ok (.inf s1) else .error .invalidOperation
  | .inf s, .fin _ => .ok (.inf s)
  | .fin _, .inf s => .ok (.inf s)
  | .fin a, .fin b => .ok (.fin (addDmag a b))

/-- The test `x < 0` on a Decimal: ordered comparison with a NaN operand
raises `InvalidOperation` under the default context. -/
def decLt0 : Dec → Except PyError Bool
  | .nan _ => .error .invalidOperation
  | .inf s => .ok s
  | .fin d => .ok (decide (d.m < 0))

/-- Does a finite decimal denote an integer?  This is the value of the test
`x == x.to_integral_value()` on a finite operand. -/
def isIntegralDmag (d : Dmag) : Bool :=
  if 0 ≤ d.e then true else decide (d.m % ((10 : ℤ) ^ (-d.e).toNat) = 0)

/-- `int(x)` for a finite decimal.  The merge only reaches `int` when the
value is integral, where Euclidean and truncating division agree (the
quotient is exact). -/
def intOfDmag (d : Dmag) : ℤ :=
  if 0 ≤ d.e then d.m * 10 ^ d.e.toNat else d.m / 10 ^ (-d.e).toNat

/-- `format(x, "f")` for a finite decimal: fixed-point text with exactly
`-e` fractional digits when `e < 0` (Decimal keeps trailing zeros). -/
def formatF (d : Dmag) : List Char :=
  if 0 ≤ d.e then intRepr (d.m * 10 ^ d.e.toNat)
  else
    let k := (-d.e).toNat
    let n := d.m.natAbs
    let fd := natDigs (n % 10 ^ k)
    (if d.m < 0 then ['-'] else []) ++ natDigs (n / 10 ^ k)
      ++ '.' :: (List.replicate (k - fd.length) '0' ++ fd)

/-- The stock text of a finite decimal: `str(int(x))` when
`x == x.to_integral_value()`, else `format(x, "f")`. -/
def finText (d : Dmag) : List Char :=
  if isIntegralDmag d then intRepr (intOfDmag d) else formatF d

/-- The stock-text writing step (src/stok.py lines 110–114, src/app.py
lines 191–195): `str(int(x))` when `x == x.to_integral_value()`, else
`format(x, "f")`.  On `±Infinity` the equality is true and `int` raises
`OverflowError`; on a quiet NaN the equality is false and `format` yields
`"NaN"`; an equality test against a signaling NaN raises
`InvalidOperation`. -/
def decText : Dec → Except PyError (List Char)
  | .fin d => .ok (finText d)
  | .inf _ => .error .overflowError
  | .nan false => .ok ['N', 'a', 'N']
  | .nan true => .error .invalidOperation

/-! ## float(Decimal): correctly rounded conversion to a binary double -/

/-- Bit length of a natural number (fuel-based). -/
def bitLenAux : ℕ → ℕ → ℕ
  | 0, _ => 0
  | f + 1, n => if n = 0 then 0 else bitLenAux f (n / 2) + 1

/-- Bit length of a natural number. -/
def bitLen (n : ℕ) : ℕ := bitLenAux n n

/-- Is `2 ^ c ≤ N / D` (for positive naturals `N`, `D`)? -/
def pow2Le (c : ℤ) (N D : ℕ) : Bool :=
  if 0 ≤ c then decide (D * 2 ^ c.toNat ≤ N) else decide (D ≤ N * 2 ^ (-c).toNat)

/-- Round the positive rational `N / D` to 53 significant bits, ties to
even; result is `(mant, ex)` denoting `mant * 2 ^ ex`. -/
def toDoubleMag (N D : ℕ) : ℤ × ℤ :=
  let c : ℤ := (bitLen N : ℤ) - (bitLen D : ℤ)
  let ee : ℤ := if pow2Le c N D then c else c - 1
  let j : ℤ := 52 - ee
  let nd := if 0 ≤ j then (N * 2 ^ j.toNat, D) else (N, D * 2 ^ (-j).toNat)
  let q := nd.1 / nd.2
  let rem := nd.1 % nd.2
  let mant := if 2 * rem < nd.2 then q else if nd.2 < 2 * rem then q + 1
    else if q % 2 = 0 then q else q + 1
  ((mant : ℤ), ee - 52)

/-- `float(x)` for a finite decimal: the nearest binary double, as a dyadic
pair `(mant, ex)` denoting `mant * 2 ^ ex` (overflow not modelled). -/
def toDouble (d : Dmag) : ℤ × ℤ :=
  if d.m = 0 then (0, 0)
  else
    let nd := if 0 ≤ d.e then (d.m.natAbs * 10 ^ d.e.toNat, 1)
      else (d.m.natAbs, 10 ^ (-d.e).toNat)
    let p := toDoubleMag nd.1 nd.2
    (if d.m < 0 then -p.1 else p.1, p.2)

/-- A numeric summary-row field: Python `int`, Python `float` (as the exact
dyadic value of the double), or a float NaN. -/
inductive NumVal where
  | int (z : ℤ)
  | float (mant : ℤ) (ex : ℤ)
  | fnan
deriving DecidableEq

/-- Exact rational value of a numeric row field, when not NaN. -/
def NumVal.qval : NumVal → Option ℚ
  | .int z => some (z : ℚ)
  | .float mant ex => some ((mant : ℚ) * 2 ^ ex)
  | .fnan => none

/-- The row-field conversion (src/stok.py lines 124–126, src/app.py lines
206–208): `int(x)` when `x == x.to_integral_value()` else `float(x)`.  On
`±Infinity` the test is true and `int` raises `OverflowError`; a quiet NaN
compares unequal and becomes a float NaN; an equality test on a signaling
NaN raises `InvalidOperation`. -/
def finNum (d : Dmag) : NumVal :=
  if isIntegralDmag d then .int (intOfDmag d)
  else .float (toDouble d).1 (toDouble d).2

/-- See `finNum`; lifted to general decimals with the special-value
behaviour described there. -/
def rowNum : Dec → Except PyError NumVal
  | .fin d => .ok (finNum d)
  | .inf _ => .error .overflowError
  | .nan false => .ok .fnan
  | .nan true => .error .invalidOperation

/-! ## The Decimal string constructor -/

/-- ASCII lower-casing, for the case-insensitive numeric-string grammar. -/
def lcase (c : Char) : Char :=
  if 65 ≤ c.toNat ∧ c.toNat ≤ 90 then Char.ofNat (c.toNat + 32) else c

/-- Strip an optional leading sign; `true` means negative. -/
def splitSign : List Char → Bool × List Char
  | [] => (false, [])
  | c :: r =>
      if c = '-' then (true, r)
      else if c = '+' then (false, r)
      else (false, c :: r)

/-- Recognize the special numeric strings `Inf`/`Infinity`, `NaN` and
`sNaN` (case-insensitive, NaN with an optional digit payload). -/
def parseSpecial (l : List Char) : Option Dec :=
  let w := l.map lcase
  if w = ['i', 'n', 'f'] ∨ w = ['i', 'n', 'f', 'i', 'n', 'i', 't', 'y'] then
    some (.inf false)
  else if w.take 3 = ['n', 'a', 'n'] ∧ (w.drop 3).all isDigitC then some (.nan false)
  else if w.take 4 = ['s', 'n', 'a', 'n'] ∧ (w.drop 4).all isDigitC then some (.nan true)
  else none

/-- Split a list at the first character satisfying `p`; the second
component is `none` when no such character occurs. -/
def splitAtFirst (p : Char → Bool) : List Char → List Char × Option (List Char)
  | [] => ([], none)
  | c :: r =>
      if p c then ([], some r)
      else
        let s := splitAtFirst p r
        (c :: s.1, s.2)

/-- Parse an exponent suffix: optional sign, then at least one digit. -/
def parseExp (l : List Char) : Option ℤ :=
  let s := splitSign l
  if s.2 ≠ [] ∧ s.2.all isDigitC then
    some (if s.1 then -(digitsVal s.2 : ℤ) else (digitsVal s.2 : ℤ))
  else none

/-- Parse the mantissa `\d*(\.\d*)?` (with the grammar's requirement of at
least one digit): returns the coefficient and the fractional length. -/
def parseMant (l : List Char) : Option (ℕ × ℕ) :=
  let s := splitAtFirst (fun c => c = '.') l
  match s.2 with
  | none => if s.1 ≠ [] ∧ s.1.all isDigitC then some (digitsVal s.1, 0) else none
  | some fp =>
      if s.1 ++ fp ≠ [] ∧ s.1.all isDigitC ∧ fp.all isDigitC then
        some (digitsVal (s.1 ++ fp), fp.length)
      else none

/-- The `Decimal(str)` constructor on an already-stripped string: remove
underscores, take an optional sign, then a special value or a numeric
mantissa with optional exponent.  Returns `none` when the string is not a
valid numeric string (the constructor would signal `InvalidOperation`).
ASCII digits only (unicode digits are outside this model). -/
def strToDec (cs0 : List Char) : Option Dec :=
  let cs := cs0.filter (fun c => c ≠ '_')
  let s := splitSign cs
  match parseSpecial s.2 with
  | some (.inf _) => some (.inf s.1)
  | some d => some d
  | none =>
      let me := splitAtFirst (fun c => c = 'e' ∨ c = 'E') s.2
      match (match me.2 with | none => some (0 : ℤ) | some ep => parseExp ep) with
      | none => none
      | some ex =>
          match parseMant me.1 with
          | none => none
          | some (co, fl) =>
              some (.fin ⟨if s.1 then -(co : ℤ) else (co : ℤ), ex - (fl : ℤ)⟩)

/-- ASCII whitespace, for `str.strip()` (unicode spaces outside the model). -/
def isSpaceC (c : Char) : Bool :=
  c = ' ' || c = '\t' || c = '\n' || c = '\r' || c = '\x0b' || c = '\x0c'

/-- `str.strip()`. -/
def trimChars (l : List Char) : List Char :=
  ((l.dropWhile isSpaceC).reverse.dropWhile isSpaceC).reverse

/-- The comma-to-dot normalization `text.replace(",", ".")`. -/
def commaDot (c : Char) : Char := if c = ',' then '.' else c

/-- `parse_decimal` (src/stok.py lines 23–34 and the identical copy at
src/app.py lines 87–98): `None` and blank text give `Decimal(0)`; otherwise
the stripped text has `,` replaced by `.` and is fed to `Decimal`; on
conversion failure the result is `Decimal(0)` and a warning naming the
stripped text is logged (returned here as the second component). -/
def parse_decimal (t : Option String) : Dec × Option String :=
  match t with
  | none => (.fin ⟨0, 0⟩, none)
  | some s =>
      let cs := trimChars s.data
      if cs = [] then (.fin ⟨0, 0⟩, none)
      else match strToDec (cs.map commaDot) with
        | some d => (d, none)
        | none => (.fin ⟨0, 0⟩, some (String.mk cs))

/-! ## The XML model -/

/-- An `xml.etree.ElementTree` element: tag, attributes, text, children. -/
inductive Element : Type where
  | mk (tag : String) (attrs : List (String × String)) (text : Option String)
      (children : List Element)

/-- Tag of an element. -/
def Element.tag : Element → String
  | .mk t _ _ _ => t

/-- Attributes of an element. -/
def Element.attrs : Element → List (String × String)
  | .mk _ a _ _ => a

/-- Text of an element. -/
def Element.text : Element → Option String
  | .mk _ _ t _ => t

/-- Children of an element. -/
def Element.children : Element → List Element
  | .mk _ _ _ c => c

/-- `root.findall(tag)`: the direct children with the given tag. -/
def findall (e : Element) (t : String) : List Element :=
  e.children.filter (fun c => c.tag == t)

/-- `el.find(tag)`: the first direct child with the given tag. -/
def findEl (e : Element) (t : String) : Option Element :=
  e.children.find? (fun c => c.tag == t)

/-- Raw input bytes at the XML-parse boundary: either bytes that are not
well-formed XML (`ET.fromstring` raises `ParseError`), or the parsed root
element. -/
inductive XmlBytes where
  | malformed
  | doc (root : Element)

/-- Serialized XML output: `ET.tostring(root, encoding="utf-8",
xml_declaration=True)` emits no byte-order mark. -/
structure XmlOut where
  bom : Bool
  root : Element

/-- The key of a product node: the text of the first `key_field` child,
stripped; `None`, a missing child, or blank text means no key
(src/stok.py lines 56–61). -/
def childKey (kf : String) (u : Element) : Option String :=
  match findEl u kf with
  | none => none
  | some kel =>
      match kel.text with
      | none => none
      | some t =>
          let s := trimChars t.data
          if s = [] then none else some (String.mk s)

/-- The raw stock text of a product node: text of its first `stok` child,
if any (src/stok.py lines 63–64). -/
def stokText (u : Element) : Option String :=
  match findEl u "stok" with
  | none => none
  | some el => el.text

/-- Overwrite the text of the first `stok` child. -/
def setFirstStok (txt : String) : List Element → List Element
  | [] => []
  | c :: rest =>
      if c.tag == "stok" then Element.mk c.tag c.attrs (some txt) c.children :: rest
      else c :: setFirstStok txt rest

/-- The `stok` mutation (src/stok.py lines 106–114): overwrite the first
`stok` child's text if one exists, else append a fresh `<stok>` child
(`ET.SubElement` appends at the end, with no attributes). -/
def updateStok (u : Element) (txt : String) : Element :=
  if (findEl u "stok").isSome then
    Element.mk u.tag u.attrs u.text (setFirstStok txt u.children)
  else
    Element.mk u.tag u.attrs u.text (u.children ++ [Element.mk "stok" [] (some txt) []])

/-! ## Product mappings (Python dict semantics) -/

/-- A product-map entry: the product node and its parsed stock. -/
structure Entry where
  urun : Element
  stok : Dec

/-- The key mapping built by `load_products`. -/
abbrev PMap := List (String × Entry)

/-- Association-list lookup (`dict.__getitem__` / `in`). -/
def alookup {α : Type} : List (String × α) → String → Option α
  | [], _ => none
  | (k, v) :: r, k' => if k' = k then some v else alookup r k'

/-- Python-dict insertion: overwriting an existing key keeps its original
position; a fresh key is appended. -/
def upsert {α : Type} (l : List (String × α)) (k : String) (v : α) :
    List (String × α) :=
  if l.any (fun p => p.1 == k) then
    l.map (fun p => if p.1 = k then (k, v) else p)
  else l ++ [(k, v)]

/-- Diagnostics emitted on the logging side channel. -/
inductive Diag where
  | badNumeric (raw : String)
  | negClamp
  | parseErrorLog
  | storeCount (n : ℕ)
  | supplierCount (n : ℕ)
deriving DecidableEq

/-- One step of the product-scanning loop (src/stok.py lines 55–69 and the
identical loop at src/app.py lines 129–143): skip a product without a valid
key; otherwise parse its stock (logging a warning for malformed stock text)
and insert last-wins into the mapping. -/
def loadFold (kf : String) (acc : PMap × List Diag) (u : Element) :
    PMap × List Diag :=
  match childKey kf u with
  | none => acc
  | some k =>
      let pr := parse_decimal (stokText u)
      (upsert acc.1 k ⟨u, pr.1⟩,
        acc.2 ++ match pr.2 with | some w => [Diag.badNumeric w] | none => [])

namespace Stok

/-- `load_products` (src/stok.py lines 37–71): `ET.ParseError` becomes
`ValueError("Geçersiz XML formatı")`; a root tagged other than `urunler`
raises `ValueError("Root elemanı 'urunler' olmalı")`; otherwise the direct
`urun` children are scanned into the key mapping. -/
def load_products (b : XmlBytes) (kf : String) :
    Except PyError (Element × PMap) × List Diag :=
  match b with
  | .malformed => (.error (.valueError "Geçersiz XML formatı"), [])
  | .doc root =>
      if root.tag = "urunler" then
        let s := (findall root "urun").foldl (loadFold kf) ([], [])
        (.ok (root, s.1), s.2)
      else (.error (.valueError "Root elemanı 'urunler' olmalı"), [])

end Stok

namespace App

/-- `load_products` (src/app.py lines 101–145): identical to the stok.py
copy except that the parse failure is additionally logged
(`logger.error("XML parse hatası: %s", e)`) before raising. -/
def load_products (b : XmlBytes) (kf : String) :
    Except PyError (Element × PMap) × List Diag :=
  match b with
  | .malformed => (.error (.valueError "Geçersiz XML formatı"), [Diag.parseErrorLog])
  | .doc root =>
      if root.tag = "urunler" then
        let s := (findall root "urun").foldl (loadFold kf) ([], [])
        (.ok (root, s.1), s.2)
      else (.error (.valueError "Root elemanı 'urunler' olmalı"), [])

end App

/-! ## The merge loop -/

/-- A summary row (src/stok.py lines 119–128, src/app.py lines 201–210). -/
structure Row where
  key : String
  barkod : String
  urunAdi : String
  stok_magaza : NumVal
  stok_tedarikci : NumVal
  stok_toplam : NumVal

/-- The display text of a sibling element (`barkod` / `urunAdi`): stripped
text when the child exists and its text is non-empty, else `""`
(src/stok.py lines 122–123). -/
def dispField (u : Element) (t : String) : String :=
  match findEl u t with
  | none => ""
  | some el =>
      match el.text with
      | none => ""
      | some s => String.mk (trimChars s.data)

/-- The supplier stock for a key: the supplier mapping's stock when the key
is present, else `Decimal(0)` (src/stok.py lines 94–97). -/
def supStok (sup : PMap) (k : String) : Dec :=
  match alookup sup k with
  | some en => en.stok
  | none => .fin ⟨0, 0⟩

/-- Per-key work of the merge loop body (src/stok.py lines 90–128,
src/app.py lines 171–210), in the source's evaluation order: sum the
stocks, test for a negative total (clamping to `Decimal(0)`), render the
new `stok` text, then build the summary row's three numeric fields.
Returns the new stock text, the row, and whether the clamp fired. -/
def processKey (sup : PMap) (k : String) (en : Entry) :
    Except PyError (List Char × Row × Bool) := do
  let t ← decAdd en.stok (supStok sup k)
  let neg ← decLt0 t
  let total := if neg then Dec.fin ⟨0, 0⟩ else t
  let txt ← decText total
  let nm ← rowNum en.stok
  let nt ← rowNum (supStok sup k)
  let ntot ← rowNum total
  return (txt, ⟨k, dispField en.urun "barkod", dispField en.urun "urunAdi", nm, nt, ntot⟩, neg)

namespace Stok

/-- The iteration over `store_products.items()` in `merge_xml_feeds`
(src/stok.py lines 90–128).  The negative-total clamp at lines 101–103 is
silent — no diagnostic is logged there. -/
def mergeRows (sup : PMap) :
    List (String × Entry) →
      Except PyError (List (String × List Char) × List Row) × List Diag
  | [] => (.ok ([], []), [])
  | (k, en) :: rest =>
      match processKey sup k en with
      | .error e => (.error e, [])
      | .ok (txt, row, _) =>
          match mergeRows sup rest with
          | (.error e, ds) => (.error e, ds)
          | (.ok (ts, rws), ds) => (.ok ((k, txt) :: ts, row :: rws), ds)

end Stok

namespace App

/-- The iteration over `store_products.items()` in `compute_merged`
(src/app.py lines 171–210).  Identical to the stok.py loop except that the
negative-total clamp at lines 182–184 logs a warning. -/
def mergeRows (sup : PMap) :
    List (String × Entry) →
      Except PyError (List (String × List Char) × List Row) × List Diag
  | [] => (.ok ([], []), [])
  | (k, en) :: rest =>
      match processKey sup k en with
      | .error e => (.error e, [])
      | .ok (txt, row, clamped) =>
          match mergeRows sup rest with
          | (.error e, ds) => (.error e, (if clamped then [Diag.negClamp] else []) ++ ds)
          | (.ok (ts, rws), ds) =>
              (.ok ((k, txt) :: ts, row :: rws),
                (if clamped then [Diag.negClamp] else []) ++ ds)

end App

/-- Is a later sibling also an `urun` child with the same key?  When so,
the mapping holds that later node and the current one is never mutated. -/
def laterHasKey (kf : String) (k : String) (rest : List Element) : Bool :=
  rest.any (fun u => u.tag == "urun" && childKey kf u == some k)

/-- The effect of the merge loop's mutation on a single store child, given
its later siblings: only the last `urun` child bearing each mapped key has
its `stok` text overwritten with the rendered total for that key. -/
def updOne (kf : String) (texts : List (String × List Char)) (c : Element)
    (rest : List Element) : Element :=
  if c.tag = "urun" then
    match childKey kf c with
    | some k =>
        if laterHasKey kf k rest then c
        else match alookup texts k with
          | some txt => updateStok c (String.mk txt)
          | none => c
    | none => c
  else c

/-- Rebuild the store tree's child list after the merge loop: Python
mutates, through the mapping, exactly the last `urun` child bearing each
key, setting its `stok` text to the rendered total for that key; every
other child object is untouched. -/
def updateChildren (kf : String) (texts : List (String × List Char)) :
    List Element → List Element
  | [] => []
  | c :: rest => updOne kf texts c rest :: updateChildren kf texts rest

/-- The merged tree: the store root with its children updated in place. -/
def mutateTree (kf : String) (texts : List (String × List Char)) (root : Element) :
    Element :=
  Element.mk root.tag root.attrs root.text (updateChildren kf texts root.children)

namespace Stok

/-- `merge_xml_feeds` (src/stok.py lines 74–133): reject a key field
outside `{barkod, stokKodu}` before any parsing; load store then supplier;
run the merge loop; serialize the mutated store tree (UTF-8 with XML
declaration, no byte-order mark). -/
def merge_xml_feeds (store supplier : XmlBytes) (kf : String) :
    Except PyError (XmlOut × List Row) × List Diag :=
  if kf = "barkod" ∨ kf = "stokKodu" then
    match load_products store kf with
    | (.error e, ds) => (.error e, ds)
    | (.ok (sroot, smap), ds1) =>
        match load_products supplier kf with
        | (.error e, ds2) => (.error e, ds1 ++ ds2)
        | (.ok (_, pmap), ds2) =>
            match mergeRows pmap smap with
            | (.error e, ds3) => (.error e, ds1 ++ ds2 ++ ds3)
            | (.ok (texts, rows), ds3) =>
                (.ok (⟨false, mutateTree kf texts sroot⟩, rows), ds1 ++ ds2 ++ ds3)
  else (.error (.valueError "key_field sadece 'barkod' veya 'stokKodu' olabilir"), [])

end Stok

namespace App

/-- `compute_merged` (src/app.py lines 148–213): the same computation as
`merge_xml_feeds`, with two extra `logger.info` product-count lines after
the loads and a warning on the negative-total clamp. -/
def compute_merged (store supplier : XmlBytes) (kf : String) :
    Except PyError (XmlOut × List Row) × List Diag :=
  if kf = "barkod" ∨ kf = "stokKodu" then
    match load_products store kf with
    | (.error e, ds) => (.error e, ds)
    | (.ok (sroot, smap), ds1) =>
        match load_products supplier kf with
        | (.error e, ds2) => (.error e, ds1 ++ ds2)
        | (.ok (_, pmap), ds2) =>
            let infos := [Diag.storeCount smap.length, Diag.supplierCount pmap.length]
            match mergeRows pmap smap with
            | (.error e, ds3) => (.error e, ds1 ++ ds2 ++ infos ++ ds3)
            | (.ok (texts, rows), ds3) =>
                (.ok (⟨false, mutateTree kf texts sroot⟩, rows), ds1 ++ ds2 ++ infos ++ ds3)
  else (.error (.valueError "key_field sadece 'barkod' veya 'stokKodu' olabilir"), [])

end App

/-! ## CSV rendering -/

/-- Serialized table bytes: `encode("utf-8-sig")` prefixes a byte-order
mark. -/
structure TableBytes where
  bom : Bool
  content : List Char

/-- Does `csv.QUOTE_MINIMAL` quote this field: it contains the delimiter,
the quote character, or a line break? -/
def needsQuote (delim : Char) (s : List Char) : Bool :=
  s.any (fun c => c == delim || c == '"' || c == '\r' || c == '\n')

/-- Double every quote character (the csv module's quote escaping). -/
def escapeQ : List Char → List Char
  | [] => []
  | c :: r => if c = '"' then '"' :: '"' :: escapeQ r else c :: escapeQ r

/-- Encode one field under `csv.QUOTE_MINIMAL`. -/
def csvFieldEnc (delim : Char) (s : List Char) : List Char :=
  if needsQuote delim s then '"' :: escapeQ s ++ ['"'] else s

/-- Join encoded fields with the delimiter. -/
def joinD (delim : Char) : List (List Char) → List Char
  | [] => []
  | [f] => f
  | f :: r => f ++ delim :: joinD delim r

/-- One `csv.writer.writerow` output line: delimiter-joined minimally
quoted fields, terminated by the writer's default `"\r\n"`. -/
def csvLine (delim : Char) (fs : List (List Char)) : List Char :=
  joinD delim (fs.map (csvFieldEnc delim)) ++ ['\r', '\n']

/-- `str(float)` stand-in for a dyadic double value: the exact value in
fixed-point decimal (Python prints the shortest round-tripping decimal
instead; the claims proved here never depend on these digits, which in
both renderings contain no delimiter, quote, or line-break character). -/
def floatRepr (mant ex : ℤ) : List Char :=
  if 0 ≤ ex then intRepr (mant * 2 ^ ex.toNat) ++ ['.', '0']
  else formatF ⟨mant * 5 ^ (-ex).toNat, ex⟩

/-- `str` of a numeric row field, as the csv module stringifies cells. -/
def numValStr : NumVal → List Char
  | .int z => intRepr z
  | .float mant ex => floatRepr mant ex
  | .fnan => ['n', 'a', 'n']

/-- The six fields of one data row, in source order
(src/stok.py lines 314–323, src/app.py lines 371–379). -/
def rowFields (r : Row) : List (List Char) :=
  [r.barkod.data, r.key.data, r.urunAdi.data,
    numValStr r.stok_magaza, numValStr r.stok_tedarikci, numValStr r.stok_toplam]

/-- The header fields
(src/stok.py line 312, src/app.py line 369 — identical). -/
def headerFields : List (List Char) :=
  ["Barkod".data, "Key".data, "Ürün Adı".data, "Mağaza Stok".data,
    "Tedarikçi Stok".data, "Toplam Stok".data]

namespace Stok

/-- The CSV payload built in `download_merged_csv` (src/stok.py lines
310–325): `csv.writer(output, delimiter=";")`, header row then one row per
merged product, encoded as UTF-8 with a byte-order mark. -/
def download_merged_csv (rows : List Row) : TableBytes :=
  ⟨true, csvLine ';' headerFields ++ (rows.map (fun r => csvLine ';' (rowFields r))).flatten⟩

end Stok

namespace App

/-- The CSV payload built in `get_merged_products_csv` (src/app.py lines
366–381): `csv.writer(output, delimiter=",", quoting=csv.QUOTE_MINIMAL)`,
header row then one row per merged product, encoded as UTF-8 with a
byte-order mark. -/
def get_merged_products_csv (rows : List Row) : TableBytes :=
  ⟨true, csvLine ',' headerFields ++ (rows.map (fun r => csvLine ',' (rowFields r))).flatten⟩

end App

/-! ## Derived notions used in the statements -/

/-- Is a decimal finite? -/
def Dec.isFin : Dec → Bool
  | .fin _ => true
  | _ => false

/-- The clamped total for two finite stocks (the loop's `stok_toplam`
after lines 99–103): the context-rounded sum, clamped to zero when
negative. -/
def totalF (a b : Dmag) : Dmag :=
  if (addDmag a b).m < 0 then ⟨0, 0⟩ else addDmag a b

/-- The clamped total of two decimal stocks with the error behaviour of
the loop's lines 99–103 (`+` then `< 0`). -/
def specTotal (a b : Dec) : Except PyError Dec := do
  let t ← decAdd a b
  let neg ← decLt0 t
  return (if neg then Dec.fin ⟨0, 0⟩ else t)

/-- Keys of an association list, in order. -/
def keysOf {α : Type} (l : List (String × α)) : List String := l.map Prod.fst

/-- Diagnostic-free form of the loader's fold step. -/
def addProd (kf : String) (m : PMap) (u : Element) : PMap :=
  match childKey kf u with
  | none => m
  | some k => upsert m k ⟨u, (parse_decimal (stokText u)).1⟩

/-- The key mapping built from a list of product elements. -/
def buildPMap (kf : String) (us : List Element) : PMap :=
  us.foldl (addProd kf) []

/-- The last product element bearing a given key. -/
def lastKeyed (kf k : String) (us : List Element) : Option Element :=
  (us.filter (fun u => childKey kf u == some k)).getLast?

/-- Do all store stocks, and the supplier stocks they are matched with,
parse to finite decimals? -/
def allFin (smap pmap : PMap) : Bool :=
  smap.all (fun p => p.2.stok.isFin && (supStok pmap p.1).isFin)

/-- Number of direct `urun` children of the root that bear the key `k` and
carry a `stok` child ("stock-bearing nodes for `k`"). -/
def countStockBearing (root : Element) (kf k : String) : ℕ :=
  (root.children.filter
    (fun c => c.tag == "urun" && childKey kf c == some k && (findEl c "stok").isSome)).length

/-- Number of direct `urun` children of the root that bear the key `k`. -/
def countKeyed (root : Element) (kf k : String) : ℕ :=
  (root.children.filter (fun c => c.tag == "urun" && childKey kf c == some k)).length

/-- The mapping obtained by re-loading a serialized merged document with
the stok.py loader, when loading succeeds. -/
def reloadMap (out : XmlOut) (kf : String) : Option PMap :=
  match Stok.load_products (.doc out.root) kf with
  | (.ok p, _) => some p.2
  | (.error _, _) => none

/-- The reloaded stock decimal for a key of a merged document. -/
def reloadStok (out : XmlOut) (kf k : String) : Option Dec :=
  match reloadMap out kf with
  | some m => (alookup m k).map (fun en => en.stok)
  | none => none

/-- "Changed only in its `stok` child, whose text is now `txt`": same tag,
attributes and element text; non-`stok` children identical; the `stok`
text reads `txt`; and either a `stok` child existed (first one's text
overwritten, child count unchanged) or none existed (a fresh
`<stok>txt</stok>` appended at the end). -/
def UpdatedOnlyStok (c c' : Element) (txt : String) : Prop :=
  c'.tag = c.tag ∧ c'.attrs = c.attrs ∧ c'.text = c.text ∧
  stokText c' = some txt ∧
  c'.children.filter (fun u => !(u.tag == "stok")) =
    c.children.filter (fun u => !(u.tag == "stok")) ∧
  (((findEl c "stok").isSome ∧ c'.children = setFirstStok txt c.children) ∨
    (findEl c "stok" = none ∧
      c'.children = c.children ++ [Element.mk "stok" [] (some txt) []]))

/-- Is this a digit or a decimal point? -/
def isDigitDot (c : Char) : Bool := isDigitC c || c == '.'

/-- A product's stock text is missing, blank, or malformed (fails Decimal
conversion) — the tolerated cases that become `Decimal(0)`. -/
def stokMissingOrMalformed (u : Element) : Bool :=
  match stokText u with
  | none => true
  | some s =>
      trimChars s.data = [] || ((strToDec ((trimChars s.data).map commaDot)).isNone)

/-- A field that minimal quoting writes verbatim. -/
def plainField (delim : Char) (s : List Char) : Bool := !needsQuote delim s

/-- All six fields of a row are written verbatim under minimal quoting. -/
def rowPlain (delim : Char) (r : Row) : Bool := (rowFields r).all (plainField delim)

/-- No carriage return or line feed. -/
def noCRLF (l : List Char) : Bool := l.all (fun c => !(c == '\r' || c == '\n'))

/-- Keys of a row list, in order. -/
def rowKeys (rows : List Row) : List String := rows.map Row.key

/-- The finite part of a decimal (zero for specials); used only to state
what the merge computes when both operands are finite. -/
def Dec.finPart : Dec → Dmag
  | .fin a => a
  | _ => ⟨0, 0⟩

/-- The `stok` text the merge writes for one store entry (finite case). -/
def keyText (sup : PMap) (p : String × Entry) : List Char :=
  finText (totalF p.2.stok.finPart (supStok sup p.1).finPart)

/-- The summary row the merge builds for one store entry (finite case). -/
def keyRow (sup : PMap) (p : String × Entry) : Row :=
  ⟨p.1, dispField p.2.urun "barkod", dispField p.2.urun "urunAdi",
    finNum p.2.stok.finPart, finNum (supStok sup p.1).finPart,
    finNum (totalF p.2.stok.finPart (supStok sup p.1).finPart)⟩

/-- Does the negative-total clamp fire for this store entry (finite case)? -/
def clampedF (sup : PMap) (p : String × Entry) : Bool :=
  (addDmag p.2.stok.finPart (supStok sup p.1).finPart).m < 0

/-- Does the exact sum of two finite decimals fit into the default
context's 28 significant digits (so that `Decimal` addition is exact)? -/
def addExactFits (a b : Dmag) : Bool :=
  nlen10 ((a.m * 10 ^ (a.e - min a.e b.e).toNat +
    b.m * 10 ^ (b.e - min a.e b.e).toNat).natAbs) ≤ 28

/-- A product element with a key value and a stock text, as in the feeds. -/
def sampleProd (kv sv : String) : Element :=
  .mk "urun" [] none [.mk "barkod" [] (some kv) [], .mk "stok" [] (some sv) []]

/-- A product element with no key child at all. -/
def keylessProd (sv : String) : Element :=
  .mk "urun" [] none [.mk "stok" [] (some sv) []]

/-- A well-formed `urunler` document with the given products. -/
def sampleDoc (ps : List Element) : XmlBytes := .doc (.mk "urunler" [] none ps)

/-! # Lemmas -/

/-! ## Digit strings -/

theorem digitsVal_foldl (l : List Char) (a : ℕ) :
    l.foldl (fun a c => 10 * a + dVal c) a = a * 10 ^ l.length + digitsVal l := by
  induction l generalizing a with
  | nil => simp [digitsVal]
  | cons c t ih =>
      have hct : digitsVal (c :: t) = dVal c * 10 ^ t.length + digitsVal t := by
        have := ih (10 * 0 + dVal c)
        simpa [digitsVal] using this
      simp only [List.foldl_cons, List.length_cons, hct]
      rw [ih]
      ring

theorem digitsVal_cons (c : Char) (t : List Char) :
    digitsVal (c :: t) = dVal c * 10 ^ t.length + digitsVal t := by
  have := digitsVal_foldl t (10 * 0 + dVal c)
  simpa [digitsVal] using this

theorem digitsVal_append (a b : List Char) :
    digitsVal (a ++ b) = digitsVal a * 10 ^ b.length + digitsVal b := by
  have h : digitsVal (a ++ b) = b.foldl (fun a c => 10 * a + dVal c) (digitsVal a) := by
    simp [digitsVal, List.foldl_append]
  rw [h, digitsVal_foldl]

theorem dVal_digitChar (r : ℕ) (h : r < 10) : dVal (digitChar r) = r := by
  interval_cases r <;> rfl

theorem isDigitC_digitChar (r : ℕ) (h : r < 10) : isDigitC (digitChar r) = true := by
  interval_cases r <;> rfl

theorem natDigsAux_val : ∀ f n, n ≤ f → digitsVal (natDigsAux f n) = n := by
  intro f
  induction f with
  | zero => intro n h; interval_cases n; rfl
  | succ f ih =>
      intro n h
      by_cases h0 : n = 0
      · subst h0; rfl
      · have hlt : n / 10 < n := Nat.div_lt_self (Nat.pos_of_ne_zero h0) (by norm_num)
        have hle : n / 10 ≤ f := by omega
        simp only [natDigsAux, if_neg h0]
        rw [digitsVal_append, ih _ hle]
        have hd : dVal (digitChar (n % 10)) = n % 10 :=
          dVal_digitChar _ (Nat.mod_lt _ (by norm_num))
        have hone : digitsVal [digitChar (n % 10)] = n % 10 := by
          simp [digitsVal, hd]
        simp only [List.length_singleton, pow_one, hone]
        omega

theorem natDigs_val (n : ℕ) : digitsVal (natDigs n) = n := by
  by_cases h : n = 0
  · subst h; rfl
  · simp only [natDigs, if_neg h]
    exact natDigsAux_val n n le_rfl

theorem natDigsAux_all : ∀ f n, (natDigsAux f n).all isDigitC = true := by
  intro f
  induction f with
  | zero => intro n; rfl
  | succ f ih =>
      intro n
      by_cases h0 : n = 0
      · subst h0; rfl
      · simp only [natDigsAux, if_neg h0, List.all_append, ih]
        simp [isDigitC_digitChar _ (Nat.mod_lt _ (by norm_num : (0:ℕ) < 10))]

theorem natDigs_all (n : ℕ) : (natDigs n).all isDigitC = true := by
  by_cases h : n = 0
  · subst h; rfl
  · simp only [natDigs, if_neg h]; exact natDigsAux_all n n

theorem natDigsAux_len : ∀ f n k, n < 10 ^ k → (natDigsAux f n).length ≤ k := by
  intro f
  induction f with
  | zero => intro n k _; simp [natDigsAux]
  | succ f ih =>
      intro n k hk
      by_cases h0 : n = 0
      · subst h0; simp [natDigsAux]
      · have hkpos : 1 ≤ k := by
          by_contra hc
          interval_cases k
          · simp at hk; omega
        have hdiv : n / 10 < 10 ^ (k - 1) := by
          rw [Nat.div_lt_iff_lt_mul (by norm_num : (0:ℕ) < 10)]
          calc n < 10 ^ k := hk
            _ = 10 ^ (k - 1) * 10 := by
                rw [← pow_succ]
                congr 1
                omega
        simp only [natDigsAux, if_neg h0, List.length_append, List.length_singleton]
        have := ih (n / 10) (k - 1) hdiv
        omega

theorem natDigs_len (n k : ℕ) (h : n < 10 ^ k) (hk : 1 ≤ k) :
    (natDigs n).length ≤ k := by
  by_cases h0 : n = 0
  · subst h0; simpa [natDigs] using hk
  · simp only [natDigs, if_neg h0]
    exact natDigsAux_len n n k h

theorem natDigs_ne_nil (n : ℕ) : natDigs n ≠ [] := by
  by_cases h : n = 0
  · subst h; simp [natDigs]
  · simp only [natDigs, if_neg h]
    match f : n, h with
    | m + 1, _ => simp [natDigsAux]

theorem digitsVal_replicate0 (z : ℕ) (l : List Char) :
    digitsVal (List.replicate z '0' ++ l) = digitsVal l := by
  induction z with
  | zero => simp
  | succ z ih =>
      rw [List.replicate_succ, List.cons_append, digitsVal_cons]
      simpa [dVal] using ih

theorem replicate0_all : ∀ z : ℕ, (List.replicate z '0').all isDigitC = true := by
  intro z
  induction z with
  | zero => rfl
  | succ z ih =>
      rw [List.replicate_succ, List.all_cons, ih]
      rfl

/-! ## The parser on rendered digit strings -/

theorem isDigitC_toNat {c : Char} (h : isDigitC c = true) :
    48 ≤ c.toNat ∧ c.toNat ≤ 57 := by
  simp only [isDigitC, Bool.and_eq_true, decide_eq_true_eq] at h
  exact h

theorem isDigitC_ne {c x : Char} (h : isDigitC c = true) (hx : isDigitC x = false) :
    c ≠ x := by
  intro he
  subst he
  rw [h] at hx
  cases hx

theorem lcase_digit {c : Char} (h : isDigitC c = true) : lcase c = c := by
  have h57 := (isDigitC_toNat h).2
  simp only [lcase]
  rw [if_neg]
  omega

theorem splitSign_digit {c : Char} (r : List Char) (h : isDigitC c = true) :
    splitSign (c :: r) = (false, c :: r) := by
  have h1 : c ≠ '-' := isDigitC_ne h (by rfl)
  have h2 : c ≠ '+' := isDigitC_ne h (by rfl)
  simp [splitSign, h1, h2]

theorem parseSpecial_headDigit {c : Char} (t : List Char) (h : isDigitC c = true) :
    parseSpecial (c :: t) = none := by
  have h57 := (isDigitC_toNat h).2
  have hlc : lcase c = c := lcase_digit h
  have hi : c ≠ 'i' := by
    intro he; subst he
    have hv : ('i' : Char).toNat = 105 := rfl
    omega
  have hn : c ≠ 'n' := by
    intro he; subst he
    have hv : ('n' : Char).toNat = 110 := rfl
    omega
  have hs : c ≠ 's' := by
    intro he; subst he
    have hv : ('s' : Char).toNat = 115 := rfl
    omega
  simp only [parseSpecial, List.map_cons, hlc]
  rw [if_neg, if_neg, if_neg]
  · simp [List.take, hs]
  · simp [List.take, hn]
  · simp [hi]

theorem filter_underscore_of_digitDot {l : List Char} (h : ∀ c ∈ l, isDigitDot c = true) :
    l.filter (fun c => c ≠ '_') = l := by
  rw [List.filter_eq_self]
  intro a ha
  have := h a ha
  simp only [isDigitDot, Bool.or_eq_true, beq_iff_eq] at this
  simp only [ne_eq, decide_eq_true_eq]
  rcases this with hd | hdot
  · exact isDigitC_ne hd (by rfl)
  · subst hdot; intro hc; cases hc

theorem splitAtFirst_none (p : Char → Bool) :
    ∀ l : List Char, (∀ c ∈ l, p c = false) → splitAtFirst p l = (l, none) := by
  intro l
  induction l with
  | nil => intro _; rfl
  | cons c t ih =>
      intro h
      have hc : p c = false := h c (List.mem_cons_self c t)
      have ht := ih (fun x hx => h x (List.mem_cons_of_mem c hx))
      simp [splitAtFirst, hc, ht]

theorem splitAtFirst_append (p : Char → Bool) :
    ∀ (a : List Char) (c : Char) (b : List Char), (∀ x ∈ a, p x = false) →
      p c = true → splitAtFirst p (a ++ c :: b) = (a, some b) := by
  intro a
  induction a with
  | nil =>
      intro c b _ hc
      simp [splitAtFirst, hc]
  | cons x t ih =>
      intro c b ha hc
      have hx : p x = false := ha x (List.mem_cons_self x t)
      have ht := ih c b (fun y hy => ha y (List.mem_cons_of_mem x hy)) hc
      simp [splitAtFirst, hx, ht]

theorem isDigitDot_not_e {c : Char} (h : isDigitDot c = true) :
    (decide (c = 'e' ∨ c = 'E')) = false := by
  simp only [isDigitDot, Bool.or_eq_true, beq_iff_eq] at h
  simp only [decide_eq_false_iff_not, not_or]
  rcases h with hd | hdot
  · exact ⟨isDigitC_ne hd (by rfl), isDigitC_ne hd (by rfl)⟩
  · subst hdot
    refine ⟨fun hc => ?_, fun hc => ?_⟩ <;> cases hc

theorem isDigitC_not_dot {c : Char} (h : isDigitC c = true) :
    (decide (c = '.')) = false := by
  simp only [decide_eq_false_iff_not]
  exact isDigitC_ne h (by rfl)

theorem all_isDigitDot_of_digits {l : List Char} (h : l.all isDigitC = true) :
    ∀ c ∈ l, isDigitDot c = true := by
  intro c hc
  rw [List.all_eq_true] at h
  simp [isDigitDot, h c hc]

/-- The `Decimal` constructor on a pure digit string. -/
theorem strToDec_digits (l : List Char) (h : l ≠ []) (hd : l.all isDigitC = true) :
    strToDec l = some (.fin ⟨(digitsVal l : ℤ), 0⟩) := by
  obtain ⟨c, t, rfl⟩ := List.exists_cons_of_ne_nil h
  have hall : ∀ x ∈ c :: t, isDigitC x = true := List.all_eq_true.mp hd
  have hc : isDigitC c = true := hall c (List.mem_cons_self c t)
  have hfilter : (c :: t).filter (fun c => c ≠ '_') = c :: t :=
    filter_underscore_of_digitDot (all_isDigitDot_of_digits hd)
  have hsign : splitSign (c :: t) = (false, c :: t) := splitSign_digit t hc
  have hspec : parseSpecial (c :: t) = none := parseSpecial_headDigit t hc
  have hnoe : splitAtFirst (fun c => decide (c = 'e' ∨ c = 'E')) (c :: t) = (c :: t, none) :=
    splitAtFirst_none _ _ (fun x hx =>
      isDigitDot_not_e (all_isDigitDot_of_digits hd x hx))
  have hnodot : splitAtFirst (fun c => decide (c = '.')) (c :: t) = (c :: t, none) :=
    splitAtFirst_none _ _ (fun x hx => isDigitC_not_dot (hall x hx))
  simp only [strToDec, hfilter, hsign, hspec, hnoe, parseMant, hnodot, hd]
  simp

/-- The `Decimal` constructor on a rendered fixed-point string. -/
theorem strToDec_fixed (ip fp : List Char) (h : ip ≠ []) (hdi : ip.all isDigitC = true)
    (hdf : fp.all isDigitC = true) :
    strToDec (ip ++ '.' :: fp) =
      some (.fin ⟨(digitsVal (ip ++ fp) : ℤ), -(fp.length : ℤ)⟩) := by
  obtain ⟨c, t, rfl⟩ := List.exists_cons_of_ne_nil h
  have halli : ∀ x ∈ c :: t, isDigitC x = true := List.all_eq_true.mp hdi
  have hallf : ∀ x ∈ fp, isDigitC x = true := List.all_eq_true.mp hdf
  have hc : isDigitC c = true := halli c (List.mem_cons_self c t)
  have halldd : ∀ x ∈ (c :: t) ++ '.' :: fp, isDigitDot x = true := by
    intro x hx
    rcases List.mem_append.mp hx with hx1 | hx2
    · exact all_isDigitDot_of_digits hdi x hx1
    · rcases List.mem_cons.mp hx2 with hdot | hx3
      · subst hdot; rfl
      · exact all_isDigitDot_of_digits hdf x hx3
  have hfilter : ((c :: t) ++ '.' :: fp).filter (fun c => c ≠ '_') = (c :: t) ++ '.' :: fp :=
    filter_underscore_of_digitDot halldd
  have hsign : splitSign ((c :: t) ++ '.' :: fp) = (false, (c :: t) ++ '.' :: fp) := by
    rw [List.cons_append]
    exact splitSign_digit _ hc
  have hspec : parseSpecial ((c :: t) ++ '.' :: fp) = none := by
    rw [List.cons_append]
    exact parseSpecial_headDigit _ hc
  have hnoe : splitAtFirst (fun c => decide (c = 'e' ∨ c = 'E')) ((c :: t) ++ '.' :: fp) =
      ((c :: t) ++ '.' :: fp, none) :=
    splitAtFirst_none _ _ (fun x hx => isDigitDot_not_e (halldd x hx))
  have hdot : splitAtFirst (fun c => decide (c = '.')) ((c :: t) ++ '.' :: fp) =
      (c :: t, some fp) :=
    splitAtFirst_append _ _ _ _ (fun x hx => isDigitC_not_dot (halli x hx)) (by simp)
  simp only [strToDec, hfilter, hsign, hspec, hnoe, parseMant, hdot, hdi, hdf]
  simp

theorem isDigitDot_toNat {c : Char} (h : isDigitDot c = true) : 46 ≤ c.toNat := by
  simp only [isDigitDot, Bool.or_eq_true, beq_iff_eq] at h
  rcases h with hd | hdot
  · have := (isDigitC_toNat hd).1
    omega
  · subst hdot
    rfl

theorem isSpaceC_false_of_digitDot {c : Char} (h : isDigitDot c = true) :
    isSpaceC c = false := by
  have h46 := isDigitDot_toNat h
  have hsp : (' ' : Char).toNat = 32 := rfl
  have hta : ('\t' : Char).toNat = 9 := rfl
  have hnl : ('\n' : Char).toNat = 10 := rfl
  have hcr : ('\r' : Char).toNat = 13 := rfl
  have hvt : ('\x0b' : Char).toNat = 11 := rfl
  have hff : ('\x0c' : Char).toNat = 12 := rfl
  simp only [isSpaceC, Bool.or_eq_false_iff, decide_eq_false_iff_not]
  refine ⟨⟨⟨⟨⟨fun he => ?_, fun he => ?_⟩, fun he => ?_⟩, fun he => ?_⟩, fun he => ?_⟩,
    fun he => ?_⟩ <;> (subst he; omega)

theorem dropWhile_eq_self_of (p : Char → Bool) (l : List Char)
    (h : ∀ c ∈ l, p c = false) : l.dropWhile p = l := by
  cases l with
  | nil => rfl
  | cons c t =>
      have := h c (List.mem_cons_self c t)
      simp [List.dropWhile_cons, this]

theorem trimChars_eq_self (l : List Char) (h : ∀ c ∈ l, isSpaceC c = false) :
    trimChars l = l := by
  unfold trimChars
  rw [dropWhile_eq_self_of _ _ h,
    dropWhile_eq_self_of _ _ (fun c hc => h c (List.mem_reverse.mp hc))]
  exact List.reverse_reverse l

theorem map_id_of (f : Char → Char) : ∀ l : List Char, (∀ c ∈ l, f c = c) → l.map f = l := by
  intro l
  induction l with
  | nil => intro _; rfl
  | cons c t ih =>
      intro h
      simp only [List.map_cons, h c (List.mem_cons_self c t),
        ih (fun x hx => h x (List.mem_cons_of_mem c hx))]

theorem commaDot_id_of_digitDot {c : Char} (h : isDigitDot c = true) : commaDot c = c := by
  have h46 := isDigitDot_toNat h
  have hcm : (',' : Char).toNat = 44 := rfl
  simp only [commaDot]
  rw [if_neg]
  intro he
  subst he
  omega

/-- Parsing back a clean rendered numeral never warns: `parse_decimal`
returns exactly what the `Decimal` constructor produces. -/
theorem parse_decimal_clean (txt : List Char) (hdd : ∀ c ∈ txt, isDigitDot c = true)
    (hne : txt ≠ []) (d : Dec) (hp : strToDec txt = some d) :
    parse_decimal (some (String.mk txt)) = (d, none) := by
  have hdata : (String.mk txt).data = txt := rfl
  have htrim : trimChars txt = txt :=
    trimChars_eq_self txt (fun c hc => isSpaceC_false_of_digitDot (hdd c hc))
  have hmap : txt.map commaDot = txt :=
    map_id_of _ txt (fun c hc => commaDot_id_of_digitDot (hdd c hc))
  simp only [parse_decimal, hdata, htrim, hmap, hp, if_neg hne]

theorem intOfDmag_nonneg {d : Dmag} (hm : 0 ≤ d.m) : 0 ≤ intOfDmag d := by
  unfold intOfDmag
  split
  · exact mul_nonneg hm (pow_nonneg (by norm_num) _)
  · exact Int.ediv_nonneg hm (pow_nonneg (by norm_num) _)

theorem intOfDmag_q {d : Dmag} (hI : isIntegralDmag d = true) :
    (intOfDmag d : ℚ) = dmagQ d := by
  unfold intOfDmag dmagQ
  by_cases he : 0 ≤ d.e
  · rw [if_pos he]
    push_cast
    have hzp : (10 : ℚ) ^ d.e = (10 : ℚ) ^ d.e.toNat := by
      conv_lhs => rw [show d.e = ((d.e.toNat : ℤ)) from (Int.toNat_of_nonneg he).symm]
      exact zpow_natCast 10 d.e.toNat
    rw [hzp]
  · rw [if_neg he]
    have hdvd : ((10 : ℤ) ^ (-d.e).toNat) ∣ d.m := by
      apply Int.dvd_of_emod_eq_zero
      have := hI
      simp only [isIntegralDmag, if_neg he, decide_eq_true_eq] at this
      exact this
    have hzy : (d.m / 10 ^ (-d.e).toNat : ℤ) * 10 ^ (-d.e).toNat = d.m :=
      Int.ediv_mul_cancel hdvd
    have hkz : ((((-d.e).toNat : ℤ))) = -d.e := Int.toNat_of_nonneg (by omega)
    have hq : ((d.m / 10 ^ (-d.e).toNat : ℤ) : ℚ) * (10 : ℚ) ^ (-d.e).toNat = (d.m : ℚ) := by
      exact_mod_cast congrArg (fun z : ℤ => (z : ℚ)) hzy
    have h10 : (10 : ℚ) ^ d.e = ((10 : ℚ) ^ (-d.e).toNat)⁻¹ := by
      conv_lhs => rw [show d.e = -(((-d.e).toNat : ℤ)) by omega]
      rw [zpow_neg, zpow_natCast]
    rw [h10]
    have hpow : ((10 : ℚ) ^ (-d.e).toNat) ≠ 0 := by positivity
    rw [eq_comm, mul_inv_eq_iff_eq_mul₀ hpow, eq_comm]
    exact hq

theorem fixed_all_digitDot (ip fp : List Char) (hdi : ip.all isDigitC = true)
    (hdf : fp.all isDigitC = true) : ∀ c ∈ ip ++ '.' :: fp, isDigitDot c = true := by
  intro x hx
  rcases List.mem_append.mp hx with hx1 | hx2
  · exact all_isDigitDot_of_digits hdi x hx1
  · rcases List.mem_cons.mp hx2 with hdot | hx3
    · subst hdot; rfl
    · exact all_isDigitDot_of_digits hdf x hx3

/-- Re-parsing the rendered stock text of a nonnegative finite decimal
recovers a decimal with exactly the same value (no warning). -/
theorem finText_reload (d : Dmag) (hm : 0 ≤ d.m) :
    ∃ d' : Dmag, parse_decimal (some (String.mk (finText d))) = (Dec.fin d', none) ∧
      dmagQ d' = dmagQ d := by
  by_cases hI : isIntegralDmag d = true
  · have hz0 : 0 ≤ intOfDmag d := intOfDmag_nonneg hm
    have htxt : finText d = natDigs (intOfDmag d).natAbs := by
      simp [finText, hI, intRepr, not_lt.mpr hz0]
    have hall : (natDigs (intOfDmag d).natAbs).all isDigitC = true := natDigs_all _
    have hsd : strToDec (natDigs (intOfDmag d).natAbs) =
        some (.fin ⟨(digitsVal (natDigs (intOfDmag d).natAbs) : ℤ), 0⟩) :=
      strToDec_digits _ (natDigs_ne_nil _) hall
    rw [natDigs_val] at hsd
    refine ⟨⟨((intOfDmag d).natAbs : ℤ), 0⟩, ?_, ?_⟩
    · rw [htxt]
      exact parse_decimal_clean _ (all_isDigitDot_of_digits hall) (natDigs_ne_nil _) _ hsd
    · rw [show (((intOfDmag d).natAbs : ℤ)) = intOfDmag d from Int.natAbs_of_nonneg hz0]
      rw [show dmagQ ⟨intOfDmag d, 0⟩ = ((intOfDmag d : ℤ) : ℚ) by simp [dmagQ]]
      exact intOfDmag_q hI
  · have he : ¬ 0 ≤ d.e := by
      intro h0e
      exact hI (by simp [isIntegralDmag, h0e])
    have hk1 : 1 ≤ (-d.e).toNat := by omega
    have hUnit : (0:ℕ) < 10 ^ (-d.e).toNat := pow_pos (by norm_num) _
    have hfd_le : (natDigs (d.m.natAbs % 10 ^ (-d.e).toNat)).length ≤ (-d.e).toNat :=
      natDigs_len _ _ (Nat.mod_lt _ hUnit) hk1
    have htxt : finText d = natDigs (d.m.natAbs / 10 ^ (-d.e).toNat) ++ '.' ::
        (List.replicate ((-d.e).toNat - (natDigs (d.m.natAbs % 10 ^ (-d.e).toNat)).length) '0'
          ++ natDigs (d.m.natAbs % 10 ^ (-d.e).toNat)) := by
      simp [finText, hI, formatF, if_neg he, not_lt.mpr hm]
    have hfp_len : (List.replicate ((-d.e).toNat -
          (natDigs (d.m.natAbs % 10 ^ (-d.e).toNat)).length) '0'
        ++ natDigs (d.m.natAbs % 10 ^ (-d.e).toNat)).length = (-d.e).toNat := by
      simp only [List.length_append, List.length_replicate]
      omega
    have hfp_all : (List.replicate ((-d.e).toNat -
          (natDigs (d.m.natAbs % 10 ^ (-d.e).toNat)).length) '0'
        ++ natDigs (d.m.natAbs % 10 ^ (-d.e).toNat)).all isDigitC = true := by
      rw [List.all_append, replicate0_all, natDigs_all]
      rfl
    have hsd := strToDec_fixed (natDigs (d.m.natAbs / 10 ^ (-d.e).toNat)) _
      (natDigs_ne_nil _) (natDigs_all _) hfp_all
    have hco : digitsVal (natDigs (d.m.natAbs / 10 ^ (-d.e).toNat) ++
        (List.replicate ((-d.e).toNat - (natDigs (d.m.natAbs % 10 ^ (-d.e).toNat)).length) '0'
          ++ natDigs (d.m.natAbs % 10 ^ (-d.e).toNat))) = d.m.natAbs := by
      rw [digitsVal_append, natDigs_val, digitsVal_replicate0, natDigs_val, hfp_len,
        Nat.mul_comm]
      exact Nat.div_add_mod _ _
    rw [hco, hfp_len] at hsd
    refine ⟨⟨(d.m.natAbs : ℤ), -(((-d.e).toNat : ℤ))⟩, ?_, ?_⟩
    · rw [htxt]
      refine parse_decimal_clean _ (fixed_all_digitDot _ _ (natDigs_all _) hfp_all)
        (by simp [natDigs_ne_nil]) _ hsd
    · have h1 : ((d.m.natAbs : ℤ)) = d.m := Int.natAbs_of_nonneg hm
      have h2 : -((((-d.e).toNat : ℤ))) = d.e := by omega
      rw [h1, h2]


/-! ## Python-dict (association list) lemmas -/

theorem any_key_iff_mem {α : Type} (l : List (String × α)) (k : String) :
    l.any (fun p => p.1 == k) = true ↔ k ∈ keysOf l := by
  simp only [List.any_eq_true, beq_iff_eq, keysOf, List.mem_map]

theorem alookup_none {α : Type} (l : List (String × α)) (k : String)
    (h : l.any (fun p => p.1 == k) = false) : alookup l k = none := by
  induction l with
  | nil => rfl
  | cons p t ih =>
      simp only [List.any_cons, Bool.or_eq_false_iff, beq_eq_false_iff_ne, ne_eq] at h
      simp only [alookup]
      rw [if_neg (fun he => h.1 he.symm)]
      exact ih h.2

theorem alookup_append {α : Type} (l1 l2 : List (String × α)) (k : String) :
    alookup (l1 ++ l2) k =
      match alookup l1 k with
      | some v => some v
      | none => alookup l2 k := by
  induction l1 with
  | nil => rfl
  | cons p t ih =>
      simp only [List.cons_append, alookup]
      by_cases hk : k = p.1
      · simp [hk]
      · simp only [if_neg hk]
        exact ih

theorem alookup_mapUp {α : Type} (k : String) (v : α) :
    ∀ l : List (String × α), l.any (fun p => p.1 == k) = true →
      alookup (l.map (fun p => if p.1 = k then (k, v) else p)) k = some v := by
  intro l
  induction l with
  | nil => intro h; cases h
  | cons p t ih =>
      intro h
      by_cases hp : p.1 = k
      · rw [List.map_cons, if_pos hp]
        simp [alookup]
      · have ht : t.any (fun p => p.1 == k) = true := by
          simp only [List.any_cons, Bool.or_eq_true, beq_iff_eq] at h
          rcases h with h1 | h2
          · exact absurd h1 hp
          · exact h2
        rw [List.map_cons, if_neg hp]
        simp only [alookup]
        rw [if_neg (fun he => hp he.symm)]
        exact ih ht

theorem alookup_mapUp_ne {α : Type} (k : String) (v : α) (k' : String) (hne : k' ≠ k) :
    ∀ l : List (String × α),
      alookup (l.map (fun p => if p.1 = k then (k, v) else p)) k' = alookup l k' := by
  intro l
  induction l with
  | nil => rfl
  | cons p t ih =>
      by_cases hp : p.1 = k
      · rw [List.map_cons, if_pos hp]
        simp only [alookup]
        rw [if_neg hne, if_neg (fun he => hne (he.trans hp))]
        exact ih
      · rw [List.map_cons, if_neg hp]
        simp only [alookup]
        by_cases hk : k' = p.1
        · rw [if_pos hk, if_pos hk]
        · rw [if_neg hk, if_neg hk]
          exact ih

theorem alookup_upsert_self {α : Type} (l : List (String × α)) (k : String) (v : α) :
    alookup (upsert l k v) k = some v := by
  unfold upsert
  by_cases h : l.any (fun p => p.1 == k) = true
  · rw [if_pos h]
    exact alookup_mapUp k v l h
  · have hf : l.any (fun p => p.1 == k) = false := by
      cases hb : l.any (fun p => p.1 == k)
      · rfl
      · exact absurd hb h
    rw [if_neg h, alookup_append, alookup_none l k hf]
    simp [alookup]

theorem alookup_upsert_ne {α : Type} (l : List (String × α)) (k : String) (v : α)
    (k' : String) (hne : k' ≠ k) : alookup (upsert l k v) k' = alookup l k' := by
  unfold upsert
  by_cases h : l.any (fun p => p.1 == k) = true
  · rw [if_pos h]
    exact alookup_mapUp_ne k v k' hne l
  · rw [if_neg h, alookup_append]
    cases hl : alookup l k' with
    | some v' => rfl
    | none => simp [alookup, hne]

theorem keysOf_upsert_mem {α : Type} (l : List (String × α)) (k : String) (v : α)
    (h : l.any (fun p => p.1 == k) = true) : keysOf (upsert l k v) = keysOf l := by
  unfold upsert
  rw [if_pos h]
  unfold keysOf
  rw [List.map_map]
  apply List.map_congr_left
  intro p _
  by_cases hp : p.1 = k
  · simp [hp]
  · simp [hp]

theorem keysOf_upsert_new {α : Type} (l : List (String × α)) (k : String) (v : α)
    (h : ¬ l.any (fun p => p.1 == k) = true) :
    keysOf (upsert l k v) = keysOf l ++ [k] := by
  unfold upsert
  rw [if_neg h]
  simp [keysOf]

theorem mem_keysOf_upsert {α : Type} (l : List (String × α)) (k : String) (v : α)
    (k' : String) : k' ∈ keysOf (upsert l k v) ↔ k' ∈ keysOf l ∨ k' = k := by
  by_cases h : l.any (fun p => p.1 == k) = true
  · rw [keysOf_upsert_mem l k v h]
    constructor
    · exact Or.inl
    · rintro (hm | rfl)
      · exact hm
      · exact (any_key_iff_mem l k').mp h
  · rw [keysOf_upsert_new l k v h]
    simp

theorem keysOf_upsert_nodup {α : Type} (l : List (String × α)) (k : String) (v : α)
    (h : (keysOf l).Nodup) : (keysOf (upsert l k v)).Nodup := by
  by_cases hm : l.any (fun p => p.1 == k) = true
  · rwa [keysOf_upsert_mem l k v hm]
  · rw [keysOf_upsert_new l k v hm]
    have hnm : k ∉ keysOf l := fun hk => hm ((any_key_iff_mem l k).mpr hk)
    simp [List.nodup_append, h, hnm]

/-! ## Loader characterization -/

theorem loadFold_fst (kf : String) :
    ∀ (us : List Element) (m : PMap) (ds : List Diag),
      (us.foldl (loadFold kf) (m, ds)).1 = us.foldl (addProd kf) m := by
  intro us
  induction us with
  | nil => intro m ds; rfl
  | cons u t ih =>
      intro m ds
      simp only [List.foldl_cons]
      cases hk : childKey kf u with
      | none =>
          rw [show loadFold kf (m, ds) u = (m, ds) by simp [loadFold, hk],
            show addProd kf m u = m by simp [addProd, hk]]
          exact ih m ds
      | some k =>
          rw [show loadFold kf (m, ds) u =
              (upsert m k ⟨u, (parse_decimal (stokText u)).1⟩,
                ds ++ match (parse_decimal (stokText u)).2 with
                  | some w => [Diag.badNumeric w] | none => []) by simp [loadFold, hk],
            show addProd kf m u = upsert m k ⟨u, (parse_decimal (stokText u)).1⟩ by
              simp [addProd, hk]]
          exact ih _ _

theorem alookup_buildFold (kf k : String) :
    ∀ (us : List Element) (m : PMap),
      alookup (us.foldl (addProd kf) m) k =
        match lastKeyed kf k us with
        | some u => some ⟨u, (parse_decimal (stokText u)).1⟩
        | none => alookup m k := by
  intro us
  induction us with
  | nil => intro m; rfl
  | cons u t ih =>
      intro m
      simp only [List.foldl_cons]
      rw [ih (addProd kf m u)]
      by_cases hu : childKey kf u = some k
      · cases hft : t.filter (fun x => childKey kf x == some k) with
        | nil =>
            have hfil : (u :: t).filter (fun x => childKey kf x == some k) = [u] := by
              rw [List.filter_cons, if_pos (by simp [hu]), hft]
            have hlt : lastKeyed kf k t = none := by
              simp [lastKeyed, hft]
            have hlc : lastKeyed kf k (u :: t) = some u := by
              unfold lastKeyed
              rw [hfil]
              rfl
            rw [hlt, hlc]
            have : addProd kf m u = upsert m k ⟨u, (parse_decimal (stokText u)).1⟩ := by
              simp [addProd, hu]
            rw [this, alookup_upsert_self]
        | cons v rest =>
            have hfil : (u :: t).filter (fun x => childKey kf x == some k) =
                u :: v :: rest := by
              rw [List.filter_cons, if_pos (by simp [hu]), hft]
            have hlt : lastKeyed kf k t = (v :: rest).getLast? := by
              simp [lastKeyed, hft]
            have hlc : lastKeyed kf k (u :: t) = (v :: rest).getLast? := by
              unfold lastKeyed
              rw [hfil, List.getLast?_cons_cons]
            rw [hlt, hlc]
            cases hgl : (v :: rest).getLast? with
            | some w => rfl
            | none =>
                rw [List.getLast?_eq_none_iff] at hgl
                cases hgl
      · have hfu : (fun x => childKey kf x == some k) u = false := by
          simp [hu]
        have hlc : lastKeyed kf k (u :: t) = lastKeyed kf k t := by
          simp [lastKeyed, List.filter_cons, hfu]
        rw [hlc]
        cases hlt : lastKeyed kf k t with
        | some w => rfl
        | none =>
            cases hcu : childKey kf u with
            | none => rw [show addProd kf m u = m by simp [addProd, hcu]]
            | some k0 =>
                have hk0 : k ≠ k0 := by
                  intro he
                  exact hu (by rw [hcu, he])
                rw [show addProd kf m u = upsert m k0 ⟨u, (parse_decimal (stokText u)).1⟩ by
                    simp [addProd, hcu]]
                exact alookup_upsert_ne _ _ _ _ hk0

theorem mem_keysOf_buildFold (kf k : String) :
    ∀ (us : List Element) (m : PMap),
      k ∈ keysOf (us.foldl (addProd kf) m) ↔
        k ∈ keysOf m ∨ ∃ u ∈ us, childKey kf u = some k := by
  intro us
  induction us with
  | nil => intro m; simp
  | cons u t ih =>
      intro m
      simp only [List.foldl_cons]
      rw [ih (addProd kf m u)]
      cases hcu : childKey kf u with
      | none =>
          rw [show addProd kf m u = m by simp [addProd, hcu]]
          constructor
          · rintro (hm | ⟨w, hw, hkw⟩)
            · exact Or.inl hm
            · exact Or.inr ⟨w, List.mem_cons_of_mem u hw, hkw⟩
          · rintro (hm | ⟨w, hw, hkw⟩)
            · exact Or.inl hm
            · rcases List.mem_cons.mp hw with rfl | hw2
              · rw [hcu] at hkw; cases hkw
              · exact Or.inr ⟨w, hw2, hkw⟩
      | some k0 =>
          rw [show addProd kf m u = upsert m k0 ⟨u, (parse_decimal (stokText u)).1⟩ by
              simp [addProd, hcu]]
          rw [mem_keysOf_upsert]
          constructor
          · rintro ((hm | rfl) | ⟨w, hw, hkw⟩)
            · exact Or.inl hm
            · exact Or.inr ⟨u, List.mem_cons_self u t, hcu⟩
            · exact Or.inr ⟨w, List.mem_cons_of_mem u hw, hkw⟩
          · rintro (hm | ⟨w, hw, hkw⟩)
            · exact Or.inl (Or.inl hm)
            · rcases List.mem_cons.mp hw with rfl | hw2
              · rw [hcu] at hkw
                exact Or.inl (Or.inr (Option.some.inj hkw).symm)
              · exact Or.inr ⟨w, hw2, hkw⟩

theorem keysOf_buildFold_nodup (kf : String) :
    ∀ (us : List Element) (m : PMap), (keysOf m).Nodup →
      (keysOf (us.foldl (addProd kf) m)).Nodup := by
  intro us
  induction us with
  | nil => intro m h; exact h
  | cons u t ih =>
      intro m h
      simp only [List.foldl_cons]
      apply ih
      cases hcu : childKey kf u with
      | none => rw [show addProd kf m u = m by simp [addProd, hcu]]; exact h
      | some k0 =>
          rw [show addProd kf m u = upsert m k0 ⟨u, (parse_decimal (stokText u)).1⟩ by
              simp [addProd, hcu]]
          exact keysOf_upsert_nodup _ _ _ h

theorem lastKeyed_isSome_iff (kf k : String) (us : List Element) :
    (lastKeyed kf k us).isSome = true ↔ ∃ u ∈ us, childKey kf u = some k := by
  unfold lastKeyed
  rw [List.getLast?_isSome]
  constructor
  · intro h
    rcases List.exists_mem_of_ne_nil _ h with ⟨u, hu⟩
    have := List.mem_filter.mp hu
    exact ⟨u, this.1, by simpa using this.2⟩
  · rintro ⟨u, hu, hk⟩
    intro hnil
    have : u ∈ us.filter (fun x => childKey kf x == some k) :=
      List.mem_filter.mpr ⟨hu, by simp [hk]⟩
    rw [hnil] at this
    cases this

theorem lastKeyed_mem (kf k : String) (us : List Element) (u : Element)
    (h : lastKeyed kf k us = some u) : u ∈ us ∧ childKey kf u = some k := by
  have hm : u ∈ us.filter (fun x => childKey kf x == some k) := by
    unfold lastKeyed at h
    rcases List.mem_getLast?_eq_getLast (x := u) (by rw [h]; rfl) with ⟨hne, rfl⟩
    exact List.getLast_mem hne
  have := List.mem_filter.mp hm
  exact ⟨this.1, by simpa using this.2⟩

theorem stok_load_fst (root : Element) (kf : String) (h : root.tag = "urunler") :
    (Stok.load_products (.doc root) kf).1 =
      .ok (root, buildPMap kf (findall root "urun")) := by
  simp only [Stok.load_products, if_pos h, buildPMap]
  rw [loadFold_fst]

theorem app_load_fst (root : Element) (kf : String) (h : root.tag = "urunler") :
    (App.load_products (.doc root) kf).1 =
      .ok (root, buildPMap kf (findall root "urun")) := by
  simp only [App.load_products, if_pos h, buildPMap]
  rw [loadFold_fst]

/-! ## The merge loop: success and failure characterization -/

theorem processKey_fin (sup : PMap) (k : String) (en : Entry) (a b : Dmag)
    (ha : en.stok = .fin a) (hb : supStok sup k = .fin b) :
    processKey sup k en =
      .ok (finText (totalF a b),
        ⟨k, dispField en.urun "barkod", dispField en.urun "urunAdi",
          finNum a, finNum b, finNum (totalF a b)⟩,
        decide ((addDmag a b).m < 0)) := by
  by_cases hneg : (addDmag a b).m < 0
  · simp [processKey, ha, hb, decAdd, decLt0, decText, rowNum, totalF, hneg,
      Except.bind, bind, pure, Except.pure]
  · simp [processKey, ha, hb, decAdd, decLt0, decText, rowNum, totalF, hneg,
      Except.bind, bind, pure, Except.pure]

theorem processKey_err (sup : PMap) (k : String) (en : Entry)
    (h : ¬(en.stok.isFin = true ∧ (supStok sup k).isFin = true)) :
    ∃ e, processKey sup k en = .error e := by
  cases ha : en.stok with
  | fin a =>
      cases hb : supStok sup k with
      | fin b =>
          exfalso
          exact h ⟨by simp [ha, Dec.isFin], by simp [hb, Dec.isFin]⟩
      | inf s =>
          cases s with
          | true =>
              refine ⟨.overflowError, ?_⟩
              simp [processKey, ha, hb, decAdd, decLt0, decText, rowNum,
                Except.bind, bind]
          | false =>
              refine ⟨.overflowError, ?_⟩
              simp [processKey, ha, hb, decAdd, decLt0, decText, rowNum,
                Except.bind, bind]
      | nan sg =>
          cases sg with
          | true =>
              refine ⟨.invalidOperation, ?_⟩
              simp [processKey, ha, hb, decAdd, Except.bind, bind]
          | false =>
              refine ⟨.invalidOperation, ?_⟩
              simp [processKey, ha, hb, decAdd, decLt0, Except.bind, bind]
  | inf s =>
      cases hb : supStok sup k with
      | fin b =>
          cases s with
          | true =>
              refine ⟨.overflowError, ?_⟩
              simp [processKey, ha, hb, decAdd, decLt0, decText, rowNum,
                Except.bind, bind]
          | false =>
              refine ⟨.overflowError, ?_⟩
              simp [processKey, ha, hb, decAdd, decLt0, decText, rowNum,
                Except.bind, bind]
      | inf s2 =>
          cases s with
          | true =>
              cases s2 with
              | true =>
                  refine ⟨.overflowError, ?_⟩
                  simp [processKey, ha, hb, decAdd, decLt0, decText, rowNum,
                    Except.bind, bind]
              | false =>
                  refine ⟨.invalidOperation, ?_⟩
                  simp [processKey, ha, hb, decAdd, Except.bind, bind]
          | false =>
              cases s2 with
              | true =>
                  refine ⟨.invalidOperation, ?_⟩
                  simp [processKey, ha, hb, decAdd, Except.bind, bind]
              | false =>
                  refine ⟨.overflowError, ?_⟩
                  simp [processKey, ha, hb, decAdd, decLt0, decText, rowNum,
                    Except.bind, bind]
      | nan sg =>
          cases sg with
          | true =>
              refine ⟨.invalidOperation, ?_⟩
              simp [processKey, ha, hb, decAdd, Except.bind, bind]
          | false =>
              refine ⟨.invalidOperation, ?_⟩
              simp [processKey, ha, hb, decAdd, decLt0, Except.bind, bind]
  | nan sg =>
      cases sg with
      | true =>
          refine ⟨.invalidOperation, ?_⟩
          simp [processKey, ha, decAdd, Except.bind, bind]
      | false =>
          cases hb : supStok sup k with
          | fin b =>
              refine ⟨.invalidOperation, ?_⟩
              simp [processKey, ha, hb, decAdd, decLt0, Except.bind, bind]
          | inf s2 =>
              refine ⟨.invalidOperation, ?_⟩
              simp [processKey, ha, hb, decAdd, decLt0, Except.bind, bind]
          | nan sg2 =>
              cases sg2 with
              | true =>
                  refine ⟨.invalidOperation, ?_⟩
                  simp [processKey, ha, hb, decAdd, Except.bind, bind]
              | false =>
                  refine ⟨.invalidOperation, ?_⟩
                  simp [processKey, ha, hb, decAdd, decLt0, Except.bind, bind]

theorem Dec.isFin_iff (d : Dec) : d.isFin = true ↔ ∃ a, d = .fin a := by
  cases d <;> simp [Dec.isFin]

theorem stok_mergeRows_snd (sup : PMap) :
    ∀ l : List (String × Entry), (Stok.mergeRows sup l).2 = [] := by
  intro l
  induction l with
  | nil => rfl
  | cons p t ih =>
      simp only [Stok.mergeRows]
      cases hpk : processKey sup p.1 p.2 with
      | error e => rfl
      | ok r =>
          obtain ⟨txt, row, cl⟩ := r
          cases hrec : Stok.mergeRows sup t with
          | mk res ds =>
              have hds : ds = [] := by
                have := ih
                rw [hrec] at this
                exact this
              subst hds
              cases res with
              | error e => rfl
              | ok pr => rfl

theorem stok_mergeRows_ok (sup : PMap) :
    ∀ l : List (String × Entry),
      (∀ p ∈ l, p.2.stok.isFin = true ∧ (supStok sup p.1).isFin = true) →
      Stok.mergeRows sup l =
        (.ok (l.map (fun p => (p.1, keyText sup p)), l.map (keyRow sup)), []) := by
  intro l
  induction l with
  | nil => intro _; rfl
  | cons p t ih =>
      intro h
      obtain ⟨ha, hb⟩ := h p (List.mem_cons_self p t)
      obtain ⟨a, hae⟩ := (Dec.isFin_iff _).mp ha
      obtain ⟨b, hbe⟩ := (Dec.isFin_iff _).mp hb
      have hpk := processKey_fin sup p.1 p.2 a b hae hbe
      have hrec := ih (fun q hq => h q (List.mem_cons_of_mem p hq))
      simp only [Stok.mergeRows, hpk, hrec, List.map_cons]
      have hkt : keyText sup p = finText (totalF a b) := by
        simp [keyText, hae, hbe, Dec.finPart]
      have hkr : keyRow sup p =
          ⟨p.1, dispField p.2.urun "barkod", dispField p.2.urun "urunAdi",
            finNum a, finNum b, finNum (totalF a b)⟩ := by
        simp [keyRow, hae, hbe, Dec.finPart]
      rw [hkt, hkr]

theorem app_mergeRows_ok (sup : PMap) :
    ∀ l : List (String × Entry),
      (∀ p ∈ l, p.2.stok.isFin = true ∧ (supStok sup p.1).isFin = true) →
      App.mergeRows sup l =
        (.ok (l.map (fun p => (p.1, keyText sup p)), l.map (keyRow sup)),
          (l.filter (clampedF sup)).map (fun _ => Diag.negClamp)) := by
  intro l
  induction l with
  | nil => intro _; rfl
  | cons p t ih =>
      intro h
      obtain ⟨ha, hb⟩ := h p (List.mem_cons_self p t)
      obtain ⟨a, hae⟩ := (Dec.isFin_iff _).mp ha
      obtain ⟨b, hbe⟩ := (Dec.isFin_iff _).mp hb
      have hpk := processKey_fin sup p.1 p.2 a b hae hbe
      have hrec := ih (fun q hq => h q (List.mem_cons_of_mem p hq))
      simp only [App.mergeRows, hpk, hrec, List.map_cons]
      have hkt : keyText sup p = finText (totalF a b) := by
        simp [keyText, hae, hbe, Dec.finPart]
      have hkr : keyRow sup p =
          ⟨p.1, dispField p.2.urun "barkod", dispField p.2.urun "urunAdi",
            finNum a, finNum b, finNum (totalF a b)⟩ := by
        simp [keyRow, hae, hbe, Dec.finPart]
      have hcl : clampedF sup p = decide ((addDmag a b).m < 0) := by
        simp [clampedF, hae, hbe, Dec.finPart]
      rw [hkt, hkr, List.filter_cons, hcl]
      by_cases hneg : (addDmag a b).m < 0
      · rw [if_pos (by simpa using hneg)]
        simp [hneg]
      · rw [if_neg (by simpa using hneg)]
        simp [hneg]

theorem stok_mergeRows_err (sup : PMap) :
    ∀ l : List (String × Entry),
      (∃ p ∈ l, ¬(p.2.stok.isFin = true ∧ (supStok sup p.1).isFin = true)) →
      ∃ e ds, Stok.mergeRows sup l = (.error e, ds) := by
  intro l
  induction l with
  | nil => rintro ⟨p, hp, _⟩; cases hp
  | cons p t ih =>
      rintro ⟨q, hq, hbad⟩
      by_cases hhead : p.2.stok.isFin = true ∧ (supStok sup p.1).isFin = true
      · have hqt : q ∈ t := by
          rcases List.mem_cons.mp hq with rfl | h2
          · exact absurd hhead hbad
          · exact h2
        obtain ⟨e, ds, hrec⟩ := ih ⟨q, hqt, hbad⟩
        obtain ⟨a, hae⟩ := (Dec.isFin_iff _).mp hhead.1
        obtain ⟨b, hbe⟩ := (Dec.isFin_iff _).mp hhead.2
        have hpk := processKey_fin sup p.1 p.2 a b hae hbe
        refine ⟨e, ds, ?_⟩
        simp only [Stok.mergeRows, hpk, hrec]
      · obtain ⟨e, hpk⟩ := processKey_err sup p.1 p.2 hhead
        refine ⟨e, [], ?_⟩
        simp only [Stok.mergeRows, hpk]

theorem mergeRows_result_eq (sup : PMap) :
    ∀ l : List (String × Entry),
      (Stok.mergeRows sup l).1 = (App.mergeRows sup l).1 := by
  intro l
  induction l with
  | nil => rfl
  | cons p t ih =>
      simp only [Stok.mergeRows, App.mergeRows]
      cases hpk : processKey sup p.1 p.2 with
      | error e => rfl
      | ok r =>
          obtain ⟨txt, row, cl⟩ := r
          cases hS : Stok.mergeRows sup t with
          | mk resS dsS =>
              cases hA : App.mergeRows sup t with
              | mk resA dsA =>
                  have hres : resS = resA := by
                    have := ih
                    rw [hS, hA] at this
                    exact this
                  subst hres
                  cases resS with
                  | error e => rfl
                  | ok pr => rfl


/-! ## Merge-level characterization -/

theorem load_fst_eq (b : XmlBytes) (kf : String) :
    (Stok.load_products b kf).1 = (App.load_products b kf).1 := by
  cases b <;> rfl

theorem allFin_iff (smap pmap : PMap) :
    allFin smap pmap = true ↔
      ∀ p ∈ smap, p.2.stok.isFin = true ∧ (supStok pmap p.1).isFin = true := by
  simp [allFin, List.all_eq_true, Bool.and_eq_true]

theorem stok_merge_eq_ok (sroot suproot : Element) (kf : String)
    (hkf : kf = "barkod" ∨ kf = "stokKodu")
    (hs : sroot.tag = "urunler") (hp : suproot.tag = "urunler")
    (hfin : allFin (buildPMap kf (findall sroot "urun"))
      (buildPMap kf (findall suproot "urun")) = true) :
    (Stok.merge_xml_feeds (.doc sroot) (.doc suproot) kf).1 =
      .ok (⟨false, mutateTree kf
          ((buildPMap kf (findall sroot "urun")).map
            (fun p => (p.1, keyText (buildPMap kf (findall suproot "urun")) p))) sroot⟩,
        (buildPMap kf (findall sroot "urun")).map
          (keyRow (buildPMap kf (findall suproot "urun")))) := by
  have hmr := stok_mergeRows_ok (buildPMap kf (findall suproot "urun"))
    (buildPMap kf (findall sroot "urun")) ((allFin_iff _ _).mp hfin)
  simp only [Stok.merge_xml_feeds, if_pos hkf, Stok.load_products, if_pos hs, if_pos hp]
  rw [show ((findall sroot "urun").foldl (loadFold kf) ([], [])).1 =
      buildPMap kf (findall sroot "urun") from loadFold_fst kf _ [] [],
    show ((findall suproot "urun").foldl (loadFold kf) ([], [])).1 =
      buildPMap kf (findall suproot "urun") from loadFold_fst kf _ [] []]
  rw [hmr]

theorem app_merge_eq_ok (sroot suproot : Element) (kf : String)
    (hkf : kf = "barkod" ∨ kf = "stokKodu")
    (hs : sroot.tag = "urunler") (hp : suproot.tag = "urunler")
    (hfin : allFin (buildPMap kf (findall sroot "urun"))
      (buildPMap kf (findall suproot "urun")) = true) :
    (App.compute_merged (.doc sroot) (.doc suproot) kf).1 =
      .ok (⟨false, mutateTree kf
          ((buildPMap kf (findall sroot "urun")).map
            (fun p => (p.1, keyText (buildPMap kf (findall suproot "urun")) p))) sroot⟩,
        (buildPMap kf (findall sroot "urun")).map
          (keyRow (buildPMap kf (findall suproot "urun")))) := by
  have hmr := app_mergeRows_ok (buildPMap kf (findall suproot "urun"))
    (buildPMap kf (findall sroot "urun")) ((allFin_iff _ _).mp hfin)
  simp only [App.compute_merged, if_pos hkf, App.load_products, if_pos hs, if_pos hp]
  rw [show ((findall sroot "urun").foldl (loadFold kf) ([], [])).1 =
      buildPMap kf (findall sroot "urun") from loadFold_fst kf _ [] [],
    show ((findall suproot "urun").foldl (loadFold kf) ([], [])).1 =
      buildPMap kf (findall suproot "urun") from loadFold_fst kf _ [] []]
  rw [hmr]

theorem stok_merge_badkf (store sup : XmlBytes) (kf : String)
    (h : ¬(kf = "barkod" ∨ kf = "stokKodu")) :
    Stok.merge_xml_feeds store sup kf =
      (.error (.valueError "key_field sadece 'barkod' veya 'stokKodu' olabilir"), []) := by
  simp [Stok.merge_xml_feeds, if_neg h]

theorem stok_merge_malformed_store (sup : XmlBytes) (kf : String)
    (hkf : kf = "barkod" ∨ kf = "stokKodu") :
    Stok.merge_xml_feeds .malformed sup kf =
      (.error (.valueError "Geçersiz XML formatı"), []) := by
  simp [Stok.merge_xml_feeds, if_pos hkf, Stok.load_products]

theorem stok_merge_badroot_store (sroot : Element) (sup : XmlBytes) (kf : String)
    (hkf : kf = "barkod" ∨ kf = "stokKodu") (hs : ¬ sroot.tag = "urunler") :
    Stok.merge_xml_feeds (.doc sroot) sup kf =
      (.error (.valueError "Root elemanı 'urunler' olmalı"), []) := by
  simp [Stok.merge_xml_feeds, if_pos hkf, Stok.load_products, if_neg hs]

theorem stok_merge_malformed_sup (sroot : Element) (kf : String)
    (hkf : kf = "barkod" ∨ kf = "stokKodu") (hs : sroot.tag = "urunler") :
    (Stok.merge_xml_feeds (.doc sroot) .malformed kf).1 =
      .error (.valueError "Geçersiz XML formatı") := by
  simp [Stok.merge_xml_feeds, if_pos hkf, Stok.load_products, if_pos hs]

theorem stok_merge_badroot_sup (sroot suproot : Element) (kf : String)
    (hkf : kf = "barkod" ∨ kf = "stokKodu") (hs : sroot.tag = "urunler")
    (hq : ¬ suproot.tag = "urunler") :
    (Stok.merge_xml_feeds (.doc sroot) (.doc suproot) kf).1 =
      .error (.valueError "Root elemanı 'urunler' olmalı") := by
  simp [Stok.merge_xml_feeds, if_pos hkf, Stok.load_products, if_pos hs, if_neg hq]

theorem stok_merge_ok_iff (store sup : XmlBytes) (kf : String) :
    (∃ res, (Stok.merge_xml_feeds store sup kf).1 = .ok res) ↔
      ((kf = "barkod" ∨ kf = "stokKodu") ∧
        ∃ sroot suproot, store = .doc sroot ∧ sup = .doc suproot ∧
          sroot.tag = "urunler" ∧ suproot.tag = "urunler" ∧
          allFin (buildPMap kf (findall sroot "urun"))
            (buildPMap kf (findall suproot "urun")) = true) := by
  constructor
  · rintro ⟨res, hok⟩
    by_cases hkf : kf = "barkod" ∨ kf = "stokKodu"
    · cases store with
      | malformed =>
          rw [stok_merge_malformed_store sup kf hkf] at hok
          simp at hok
      | doc sroot =>
          by_cases hs : sroot.tag = "urunler"
          · cases sup with
            | malformed =>
                rw [stok_merge_malformed_sup sroot kf hkf hs] at hok
                simp at hok
            | doc suproot =>
                by_cases hq : suproot.tag = "urunler"
                · refine ⟨hkf, sroot, suproot, rfl, rfl, hs, hq, ?_⟩
                  by_contra hfin
                  have hbad : ∃ p ∈ buildPMap kf (findall sroot "urun"),
                      ¬(p.2.stok.isFin = true ∧
                        (supStok (buildPMap kf (findall suproot "urun")) p.1).isFin = true) := by
                    by_contra hall
                    push_neg at hall
                    exact hfin ((allFin_iff _ _).mpr (fun p hp => hall p hp))
                  obtain ⟨e, ds2, herr⟩ := stok_mergeRows_err _ _ hbad
                  have hthis : (Stok.merge_xml_feeds (.doc sroot) (.doc suproot) kf).1 =
                      .error e := by
                    simp only [Stok.merge_xml_feeds, if_pos hkf, Stok.load_products,
                      if_pos hs, if_pos hq]
                    rw [show ((findall sroot "urun").foldl (loadFold kf) ([], [])).1 =
                        buildPMap kf (findall sroot "urun") from loadFold_fst kf _ [] [],
                      show ((findall suproot "urun").foldl (loadFold kf) ([], [])).1 =
                        buildPMap kf (findall suproot "urun") from loadFold_fst kf _ [] []]
                    rw [herr]
                  rw [hok] at hthis
                  simp at hthis
                · rw [stok_merge_badroot_sup sroot suproot kf hkf hs hq] at hok
                  simp at hok
          · rw [stok_merge_badroot_store sroot sup kf hkf hs] at hok
            simp at hok
    · rw [stok_merge_badkf store sup kf hkf] at hok
      simp at hok
  · rintro ⟨hkf, sroot, suproot, rfl, rfl, hs, hq, hfin⟩
    exact ⟨_, stok_merge_eq_ok sroot suproot kf hkf hs hq hfin⟩

/-! ## Tree-mutation lemmas -/

theorem updateStok_tag (u : Element) (txt : String) : (updateStok u txt).tag = u.tag := by
  unfold updateStok
  split <;> rfl

theorem updateStok_attrs (u : Element) (txt : String) :
    (updateStok u txt).attrs = u.attrs := by
  unfold updateStok
  split <;> rfl

theorem updateStok_text (u : Element) (txt : String) :
    (updateStok u txt).text = u.text := by
  unfold updateStok
  split <;> rfl

theorem find?_cons_eq (p : Element → Bool) (c : Element) (l : List Element) :
    (c :: l).find? p = if p c then some c else l.find? p := by
  cases hp : p c with
  | true => simp [List.find?_cons, hp]
  | false => simp [List.find?_cons, hp]

theorem setFirstStok_find_other (txt : String) (t : String) (ht : t ≠ "stok") :
    ∀ cs : List Element,
      (setFirstStok txt cs).find? (fun c => c.tag == t) = cs.find? (fun c => c.tag == t) := by
  intro cs
  induction cs with
  | nil => rfl
  | cons c rest ih =>
      by_cases hc : (c.tag == "stok") = true
      · have hct : c.tag = "stok" := by simpa using hc
        have hnt : ((c.tag == t) = false) := by
          simp only [beq_eq_false_iff_ne, ne_eq, hct]
          exact fun he => ht he.symm
        simp only [setFirstStok, if_pos hc, find?_cons_eq]
        rw [if_neg (by
            rw [show (Element.mk c.tag c.attrs (some txt) c.children).tag = c.tag from rfl,
              hnt]
            exact Bool.false_ne_true),
          if_neg (by simp [hnt])]
      · simp only [setFirstStok, if_neg hc, find?_cons_eq]
        by_cases hct : (c.tag == t) = true
        · rw [if_pos hct, if_pos hct]
        · rw [if_neg hct, if_neg hct]
          exact ih

theorem setFirstStok_stokText (txt : String) :
    ∀ (cs : List Element) (x : Element), cs.find? (fun c => c.tag == "stok") = some x →
      (setFirstStok txt cs).find? (fun c => c.tag == "stok") =
        some (Element.mk x.tag x.attrs (some txt) x.children) := by
  intro cs
  induction cs with
  | nil => intro x hx; cases hx
  | cons c rest ih =>
      intro x hx
      rw [find?_cons_eq] at hx
      by_cases hc : (c.tag == "stok") = true
      · rw [if_pos hc] at hx
        have hcx : c = x := by injection hx
        subst hcx
        simp only [setFirstStok, if_pos hc, find?_cons_eq]
        rw [if_pos (by
          show ((Element.mk c.tag c.attrs (some txt) c.children).tag == "stok") = true
          simpa [Element.tag] using hc)]
      · rw [if_neg hc] at hx
        simp only [setFirstStok, if_neg hc, find?_cons_eq]
        exact ih x hx

theorem stokText_updateStok (u : Element) (txt : String) :
    stokText (updateStok u txt) = some txt := by
  obtain ⟨tg, ats, tx, cs⟩ := u
  unfold updateStok stokText findEl
  simp only [Element.children]
  by_cases h : (cs.find? (fun c => c.tag == "stok")).isSome = true
  · obtain ⟨x, hx⟩ := Option.isSome_iff_exists.mp h
    rw [if_pos (by simp [findEl, Element.children, h])]
    simp only [Element.children]
    rw [setFirstStok_stokText txt cs x hx]
    simp [Element.text]
  · rw [if_neg (by simp [findEl, Element.children, h])]
    simp only [Element.children]
    rw [List.find?_append]
    have hnone : cs.find? (fun c => c.tag == "stok") = none := by
      cases hf : cs.find? (fun c => c.tag == "stok") with
      | none => rfl
      | some x => rw [hf] at h; simp at h
    rw [hnone]
    simp only [Option.none_or, find?_cons_eq]
    rw [if_pos (by simp [Element.tag])]
    simp [Element.text]

theorem childKey_updateStok (kf : String) (hk : kf ≠ "stok") (u : Element) (txt : String) :
    childKey kf (updateStok u txt) = childKey kf u := by
  obtain ⟨tg, ats, tx, cs⟩ := u
  unfold childKey findEl updateStok
  simp only [Element.children]
  by_cases h : (cs.find? (fun c => c.tag == "stok")).isSome = true
  · rw [if_pos (by simp [findEl, Element.children, h])]
    simp only [Element.children]
    rw [setFirstStok_find_other txt kf hk]
  · rw [if_neg (by simp [findEl, Element.children, h])]
    simp only [Element.children]
    rw [List.find?_append]
    rw [show ([Element.mk "stok" [] (some txt) []].find? (fun c => c.tag == kf)) = none by
      rw [find?_cons_eq, if_neg (by
        show ¬ ((Element.mk "stok" [] (some txt) []).tag == kf) = true
        simp only [Element.tag, beq_iff_eq]
        exact fun he => hk he.symm)]
      rfl]
    rw [Option.or_none]

theorem updOne_cases (kf : String) (texts : List (String × List Char)) (c : Element)
    (rest : List Element) :
    updOne kf texts c rest = c ∨
      ∃ txt, updOne kf texts c rest = updateStok c (String.mk txt) := by
  by_cases h1 : c.tag = "urun"
  · cases hk : childKey kf c with
    | none => exact Or.inl (by simp [updOne, h1, hk])
    | some k =>
        by_cases h2 : laterHasKey kf k rest = true
        · exact Or.inl (by simp [updOne, h1, hk, h2])
        · cases ht : alookup texts k with
          | none => exact Or.inl (by simp [updOne, h1, hk, h2, ht])
          | some txt => exact Or.inr ⟨txt, by simp [updOne, h1, hk, h2, ht]⟩
  · exact Or.inl (by simp [updOne, h1])

theorem updOne_tag (kf : String) (texts : List (String × List Char)) (c : Element)
    (rest : List Element) : (updOne kf texts c rest).tag = c.tag := by
  rcases updOne_cases kf texts c rest with h | ⟨txt, h⟩
  · rw [h]
  · rw [h, updateStok_tag]

theorem childKey_updOne (kf : String) (hk : kf ≠ "stok")
    (texts : List (String × List Char)) (c : Element) (rest : List Element) :
    childKey kf (updOne kf texts c rest) = childKey kf c := by
  rcases updOne_cases kf texts c rest with h | ⟨txt, h⟩
  · rw [h]
  · rw [h, childKey_updateStok kf hk]

theorem updateChildren_length (kf : String) (texts : List (String × List Char)) :
    ∀ cs : List Element, (updateChildren kf texts cs).length = cs.length := by
  intro cs
  induction cs with
  | nil => rfl
  | cons c rest ih => simp [updateChildren, ih]

theorem updateChildren_get (kf : String) (texts : List (String × List Char)) :
    ∀ (cs : List Element) (i : ℕ),
      (updateChildren kf texts cs).get? i =
        (cs.get? i).map (fun c => updOne kf texts c (cs.drop (i + 1))) := by
  intro cs
  induction cs with
  | nil => intro i; rfl
  | cons c rest ih =>
      intro i
      cases i with
      | zero => rfl
      | succ j =>
          simp only [updateChildren, List.get?_cons_succ, List.drop_succ_cons]
          exact ih j

theorem laterHasKey_updateChildren (kf k : String) (hk : kf ≠ "stok")
    (texts : List (String × List Char)) :
    ∀ cs : List Element,
      laterHasKey kf k (updateChildren kf texts cs) = laterHasKey kf k cs := by
  intro cs
  induction cs with
  | nil => rfl
  | cons c rest ih =>
      have ih' : ((updateChildren kf texts rest).any
          (fun u => u.tag == "urun" && childKey kf u == some k)) =
          rest.any (fun u => u.tag == "urun" && childKey kf u == some k) := by
        simpa [laterHasKey] using ih
      simp only [updateChildren, laterHasKey, List.any_cons, updOne_tag,
        childKey_updOne kf hk, ih']

theorem any_ck_updateChildren (kf k : String) (hk : kf ≠ "stok")
    (texts : List (String × List Char)) :
    ∀ cs : List Element,
      (updateChildren kf texts cs).any (fun x => childKey kf x == some k) =
        cs.any (fun x => childKey kf x == some k) := by
  intro cs
  induction cs with
  | nil => rfl
  | cons c rest ih =>
      simp only [updateChildren, List.any_cons, ih, childKey_updOne kf hk]

theorem updOne_rest_filter (kf : String) (texts : List (String × List Char))
    (c : Element) (rest : List Element) :
    updOne kf texts c rest =
      updOne kf texts c (rest.filter (fun x => x.tag == "urun")) := by
  by_cases h1 : c.tag = "urun"
  · cases hk : childKey kf c with
    | none => simp [updOne, h1, hk]
    | some k =>
        have hlk : laterHasKey kf k (rest.filter (fun x => x.tag == "urun")) =
            laterHasKey kf k rest := by
          unfold laterHasKey
          rw [List.any_filter]
          congr 1
          funext x
          cases hx : (x.tag == "urun") <;> simp [hx]
        simp [updOne, h1, hk, hlk]
  · simp [updOne, h1]

theorem updateChildren_filter_urun (kf : String) (texts : List (String × List Char)) :
    ∀ cs : List Element,
      (updateChildren kf texts cs).filter (fun c => c.tag == "urun") =
        updateChildren kf texts (cs.filter (fun c => c.tag == "urun")) := by
  intro cs
  induction cs with
  | nil => rfl
  | cons c rest ih =>
      simp only [updateChildren, List.filter_cons]
      by_cases hc : (c.tag == "urun") = true
      · rw [if_pos (by rw [updOne_tag]; exact hc), if_pos hc]
        simp only [updateChildren]
        rw [ih, ← updOne_rest_filter]
      · rw [if_neg (by rw [updOne_tag]; exact hc), if_neg hc]
        exact ih

theorem filter_ne_nil_iff_any (l : List Element) (p : Element → Bool) :
    l.filter p ≠ [] ↔ l.any p = true := by
  rw [ne_eq, List.filter_eq_nil_iff, List.any_eq_true]
  push_neg
  constructor
  · rintro ⟨a, ha, hp⟩
    exact ⟨a, ha, by simpa using hp⟩
  · rintro ⟨a, ha, hp⟩
    exact ⟨a, ha, by simpa using hp⟩

theorem getLast?_cons_ne (a : Element) (l : List Element) (h : l ≠ []) :
    (a :: l).getLast? = l.getLast? := by
  cases l with
  | nil => exact absurd rfl h
  | cons b t => exact List.getLast?_cons_cons

theorem laterHasKey_eq_any (kf k : String) :
    ∀ us : List Element, (∀ u ∈ us, u.tag = "urun") →
      laterHasKey kf k us = us.any (fun x => childKey kf x == some k) := by
  intro us
  induction us with
  | nil => intro _; rfl
  | cons u t ih =>
      intro hall
      simp only [laterHasKey, List.any_cons] at *
      rw [hall u (List.mem_cons_self u t)]
      rw [ih (fun x hx => hall x (List.mem_cons_of_mem u hx))]
      simp

theorem lastKeyed_updateChildren (kf k : String) (hk : kf ≠ "stok")
    (texts : List (String × List Char)) :
    ∀ us : List Element, (∀ u ∈ us, u.tag = "urun") →
      lastKeyed kf k (updateChildren kf texts us) =
        (lastKeyed kf k us).map (fun u =>
          match alookup texts k with
          | some txt => updateStok u (String.mk txt)
          | none => u) := by
  intro us
  induction us with
  | nil => intro _; rfl
  | cons u rest ih =>
      intro hall
      have hu : u.tag = "urun" := hall u (List.mem_cons_self u rest)
      have hrest : ∀ x ∈ rest, x.tag = "urun" :=
        fun x hx => hall x (List.mem_cons_of_mem u hx)
      have hckeq : (childKey kf (updOne kf texts u rest) == some k) =
          (childKey kf u == some k) := by
        rw [childKey_updOne kf hk]
      by_cases hcku : (childKey kf u == some k) = true
      · have hkey : childKey kf u = some k := by simpa using hcku
        have hLfil : (updateChildren kf texts (u :: rest)).filter
            (fun x => childKey kf x == some k) =
            updOne kf texts u rest ::
              (updateChildren kf texts rest).filter (fun x => childKey kf x == some k) := by
          simp only [updateChildren, List.filter_cons]
          rw [if_pos (by rw [hckeq]; exact hcku)]
        have hRfil : (u :: rest).filter (fun x => childKey kf x == some k) =
            u :: rest.filter (fun x => childKey kf x == some k) := by
          simp only [List.filter_cons]
          rw [if_pos hcku]
        by_cases hl : laterHasKey kf k rest = true
        · have hany : rest.any (fun x => childKey kf x == some k) = true := by
            rw [← laterHasKey_eq_any kf k rest hrest]
            exact hl
          have hRne : rest.filter (fun x => childKey kf x == some k) ≠ [] :=
            (filter_ne_nil_iff_any _ _).mpr hany
          have hLne : (updateChildren kf texts rest).filter
              (fun x => childKey kf x == some k) ≠ [] := by
            rw [filter_ne_nil_iff_any]
            rw [any_ck_updateChildren kf k hk]
            exact hany
          unfold lastKeyed
          rw [hLfil, hRfil, getLast?_cons_ne _ _ hLne, getLast?_cons_ne _ _ hRne]
          exact ih hrest
        · have hany : rest.any (fun x => childKey kf x == some k) = false := by
            rw [← laterHasKey_eq_any kf k rest hrest]
            simpa using hl
          have hRnil : rest.filter (fun x => childKey kf x == some k) = [] := by
            rw [List.filter_eq_nil_iff]
            intro a ha hpa
            have hcontr : rest.any (fun x => childKey kf x == some k) = true :=
              List.any_eq_true.mpr ⟨a, ha, hpa⟩
            rw [hany] at hcontr
            cases hcontr
          have hLnil : (updateChildren kf texts rest).filter
              (fun x => childKey kf x == some k) = [] := by
            rw [List.filter_eq_nil_iff]
            intro a ha hpa
            have hcontr : (updateChildren kf texts rest).any
                (fun x => childKey kf x == some k) = true :=
              List.any_eq_true.mpr ⟨a, ha, hpa⟩
            rw [any_ck_updateChildren kf k hk, hany] at hcontr
            cases hcontr
          unfold lastKeyed
          rw [hLfil, hRfil, hLnil, hRnil]
          have hupd : updOne kf texts u rest =
              match alookup texts k with
              | some txt => updateStok u (String.mk txt)
              | none => u := by
            cases ht : alookup texts k with
            | none => simp [updOne, hu, hkey, hl, ht]
            | some txt => simp [updOne, hu, hkey, hl, ht]
          rw [hupd]
          rfl
      · have hLfil : (updateChildren kf texts (u :: rest)).filter
            (fun x => childKey kf x == some k) =
            (updateChildren kf texts rest).filter (fun x => childKey kf x == some k) := by
          simp only [updateChildren, List.filter_cons]
          rw [if_neg (by rw [hckeq]; exact hcku)]
        have hRfil : (u :: rest).filter (fun x => childKey kf x == some k) =
            rest.filter (fun x => childKey kf x == some k) := by
          simp only [List.filter_cons]
          rw [if_neg hcku]
        unfold lastKeyed
        rw [hLfil, hRfil]
        exact ih hrest

theorem alookup_map_pair {α β : Type} (g : String × α → β) :
    ∀ (l : List (String × α)) (k : String),
      alookup (l.map (fun p => (p.1, g p))) k = (alookup l k).map (fun v => g (k, v)) := by
  intro l
  induction l with
  | nil => intro k; rfl
  | cons p t ih =>
      intro k
      simp only [List.map_cons, alookup]
      by_cases hk : k = p.1
      · rw [if_pos hk, if_pos hk]
        subst hk
        rfl
      · rw [if_neg hk, if_neg hk]
        exact ih k

theorem kf_ne_stok {kf : String} (hkf : kf = "barkod" ∨ kf = "stokKodu") : kf ≠ "stok" := by
  rcases hkf with rfl | rfl <;> decide

theorem findall_all_urun (root : Element) : ∀ u ∈ findall root "urun", u.tag = "urun" := by
  intro u hu
  have := List.mem_filter.mp hu
  simpa using this.2

theorem findall_mutateTree (kf : String) (texts : List (String × List Char))
    (root : Element) :
    findall (mutateTree kf texts root) "urun" =
      updateChildren kf texts (findall root "urun") := by
  unfold findall mutateTree
  simp only [Element.children]
  exact updateChildren_filter_urun kf texts root.children

theorem buildPMap_alookup (kf k : String) (us : List Element) :
    alookup (buildPMap kf us) k =
      match lastKeyed kf k us with
      | some u => some ⟨u, (parse_decimal (stokText u)).1⟩
      | none => none := by
  unfold buildPMap
  rw [alookup_buildFold]
  cases lastKeyed kf k us <;> rfl

theorem buildPMap_alookup_inv (kf k : String) (us : List Element) (en : Entry)
    (h : alookup (buildPMap kf us) k = some en) :
    lastKeyed kf k us = some en.urun ∧
      en.stok = (parse_decimal (stokText en.urun)).1 := by
  rw [buildPMap_alookup] at h
  cases hl : lastKeyed kf k us with
  | none => rw [hl] at h; cases h
  | some u =>
      rw [hl] at h
      have : (⟨u, (parse_decimal (stokText u)).1⟩ : Entry) = en := by
        injection h
      subst this
      exact ⟨rfl, rfl⟩

theorem mem_keysOf_buildPMap (kf k : String) (us : List Element) :
    k ∈ keysOf (buildPMap kf us) ↔ ∃ u ∈ us, childKey kf u = some k := by
  unfold buildPMap
  rw [mem_keysOf_buildFold]
  simp [keysOf]

theorem totalF_nonneg (a b : Dmag) : 0 ≤ (totalF a b).m := by
  unfold totalF
  by_cases h : (addDmag a b).m < 0
  · rw [if_pos h]
  · rw [if_neg h]
    omega

/-- Re-loading the merged tree built from a store root and the rendered
per-key totals: the key set is unchanged, and each key's reloaded stock is
exactly the value of its clamped total. -/
theorem reload_of_mutate (sroot : Element) (kf : String) (pmap : PMap)
    (hkf : kf = "barkod" ∨ kf = "stokKodu") :
    (∀ k, k ∈ keysOf (buildPMap kf (findall (mutateTree kf
        ((buildPMap kf (findall sroot "urun")).map
          (fun p => (p.1, keyText pmap p))) sroot) "urun")) ↔
      k ∈ keysOf (buildPMap kf (findall sroot "urun"))) ∧
    (∀ k en, alookup (buildPMap kf (findall sroot "urun")) k = some en →
      ∃ en', alookup (buildPMap kf (findall (mutateTree kf
          ((buildPMap kf (findall sroot "urun")).map
            (fun p => (p.1, keyText pmap p))) sroot) "urun")) k = some en' ∧
        en'.urun = updateStok en.urun (String.mk (keyText pmap (k, en))) ∧
        ∃ d', en'.stok = .fin d' ∧
          dmagQ d' = dmagQ (totalF en.stok.finPart (supStok pmap k).finPart)) := by
  have hns : kf ≠ "stok" := kf_ne_stok hkf
  have hall := findall_all_urun sroot
  have hfm := findall_mutateTree kf
    ((buildPMap kf (findall sroot "urun")).map (fun p => (p.1, keyText pmap p))) sroot
  constructor
  · intro k
    rw [hfm, mem_keysOf_buildPMap, mem_keysOf_buildPMap]
    constructor
    · rintro ⟨u, hu, hck⟩
      have hany : (updateChildren kf ((buildPMap kf (findall sroot "urun")).map
          (fun p => (p.1, keyText pmap p))) (findall sroot "urun")).any
          (fun x => childKey kf x == some k) = true :=
        List.any_eq_true.mpr ⟨u, hu, by simp [hck]⟩
      rw [any_ck_updateChildren kf k hns] at hany
      obtain ⟨w, hw, hwk⟩ := List.any_eq_true.mp hany
      exact ⟨w, hw, by simpa using hwk⟩
    · rintro ⟨u, hu, hck⟩
      have hany : (findall sroot "urun").any (fun x => childKey kf x == some k) = true :=
        List.any_eq_true.mpr ⟨u, hu, by simp [hck]⟩
      rw [← any_ck_updateChildren kf k hns ((buildPMap kf (findall sroot "urun")).map
        (fun p => (p.1, keyText pmap p)))] at hany
      obtain ⟨w, hw, hwk⟩ := List.any_eq_true.mp hany
      exact ⟨w, hw, by simpa using hwk⟩
  · intro k en hen
    obtain ⟨hlk, hstok⟩ := buildPMap_alookup_inv kf k _ en hen
    have htx : alookup ((buildPMap kf (findall sroot "urun")).map
        (fun p => (p.1, keyText pmap p))) k = some (keyText pmap (k, en)) := by
      rw [alookup_map_pair]
      rw [hen]
      rfl
    have hlk' := lastKeyed_updateChildren kf k hns
      ((buildPMap kf (findall sroot "urun")).map (fun p => (p.1, keyText pmap p)))
      (findall sroot "urun") hall
    rw [hlk, htx] at hlk'
    refine ⟨⟨updateStok en.urun (String.mk (keyText pmap (k, en))),
      (parse_decimal (stokText (updateStok en.urun
        (String.mk (keyText pmap (k, en)))))).1⟩, ?_, rfl, ?_⟩
    · rw [hfm, buildPMap_alookup, hlk']
      rfl
    · rw [stokText_updateStok]
      have hmn : 0 ≤ (totalF en.stok.finPart (supStok pmap k).finPart).m :=
        totalF_nonneg _ _
      obtain ⟨d', hp, hv⟩ := finText_reload (totalF en.stok.finPart
        (supStok pmap k).finPart) hmn
      refine ⟨d', ?_, hv⟩
      simp only [keyText] at hp ⊢
      rw [hp]

theorem mutateTree_tag (kf : String) (texts : List (String × List Char)) (root : Element) :
    (mutateTree kf texts root).tag = root.tag := rfl

theorem findEl_stok_isSome_of_stokText {u : Element} {txt : String}
    (h : stokText u = some txt) : (findEl u "stok").isSome = true := by
  unfold stokText at h
  cases hf : findEl u "stok" with
  | none => rw [hf] at h; cases h
  | some el => rfl

theorem mem_upsert {α : Type} (l : List (String × α)) (k : String) (v : α)
    (p : String × α) (hp : p ∈ upsert l k v) : p ∈ l ∨ p = (k, v) := by
  unfold upsert at hp
  by_cases h : l.any (fun q => q.1 == k) = true
  · rw [if_pos h] at hp
    obtain ⟨q, hq, he⟩ := List.mem_map.mp hp
    by_cases hqk : q.1 = k
    · rw [if_pos hqk] at he
      exact Or.inr he.symm
    · rw [if_neg hqk] at he
      exact Or.inl (he ▸ hq)
  · rw [if_neg h] at hp
    rcases List.mem_append.mp hp with h1 | h2
    · exact Or.inl h1
    · exact Or.inr (List.mem_singleton.mp h2)

theorem mem_buildFold (kf : String) :
    ∀ (us : List Element) (m : PMap) (p : String × Entry),
      p ∈ us.foldl (addProd kf) m →
      p ∈ m ∨ ∃ u ∈ us, childKey kf u = some p.1 ∧
        p.2 = ⟨u, (parse_decimal (stokText u)).1⟩ := by
  intro us
  induction us with
  | nil => intro m p hp; exact Or.inl hp
  | cons u t ih =>
      intro m p hp
      simp only [List.foldl_cons] at hp
      rcases ih (addProd kf m u) p hp with h1 | ⟨w, hw, hck, hv⟩
      · cases hcu : childKey kf u with
        | none =>
            rw [show addProd kf m u = m by simp [addProd, hcu]] at h1
            exact Or.inl h1
        | some k0 =>
            rw [show addProd kf m u = upsert m k0 ⟨u, (parse_decimal (stokText u)).1⟩ by
              simp [addProd, hcu]] at h1
            rcases mem_upsert _ _ _ _ h1 with h2 | h2
            · exact Or.inl h2
            · refine Or.inr ⟨u, List.mem_cons_self u t, ?_, ?_⟩
              · rw [hcu, h2]
              · rw [h2]
      · exact Or.inr ⟨w, List.mem_cons_of_mem u hw, hck, hv⟩

theorem mem_buildPMap (kf : String) (us : List Element) (p : String × Entry)
    (hp : p ∈ buildPMap kf us) :
    ∃ u ∈ us, childKey kf u = some p.1 ∧ p.2 = ⟨u, (parse_decimal (stokText u)).1⟩ := by
  rcases mem_buildFold kf us [] p hp with h | h
  · cases h
  · exact h

theorem parse_zero_of_missingOrMalformed (u : Element)
    (h : stokMissingOrMalformed u = true) :
    (parse_decimal (stokText u)).1 = .fin ⟨0, 0⟩ := by
  unfold stokMissingOrMalformed at h
  cases ht : stokText u with
  | none => simp [parse_decimal]
  | some s =>
      rw [ht] at h
      simp only [Bool.or_eq_true, decide_eq_true_eq, Option.isNone_iff_eq_none] at h
      simp only [parse_decimal]
      by_cases hb : trimChars s.data = []
      · rw [if_pos hb]
      · rw [if_neg hb]
        rcases h with h1 | h2
        · exact absurd h1 hb
        · rw [h2]

theorem setFirstStok_filter_nonstok (txt : String) :
    ∀ cs : List Element,
      (setFirstStok txt cs).filter (fun u => !(u.tag == "stok")) =
        cs.filter (fun u => !(u.tag == "stok")) := by
  intro cs
  induction cs with
  | nil => rfl
  | cons c rest ih =>
      by_cases hc : (c.tag == "stok") = true
      · simp only [setFirstStok, if_pos hc, List.filter_cons]
        rw [if_neg (by
            rw [show (Element.mk c.tag c.attrs (some txt) c.children).tag = c.tag from rfl]
            simp [hc]),
          if_neg (by simp [hc])]
      · simp only [setFirstStok, if_neg hc, List.filter_cons]
        by_cases hck : (!(c.tag == "stok")) = true
        · rw [if_pos hck, if_pos hck, ih]
        · rw [if_neg hck, if_neg hck]
          exact ih

theorem updateStok_spec (u : Element) (txt : String) :
    UpdatedOnlyStok u (updateStok u txt) txt := by
  refine ⟨updateStok_tag u txt, updateStok_attrs u txt, updateStok_text u txt,
    stokText_updateStok u txt, ?_, ?_⟩
  · unfold updateStok
    by_cases h : (findEl u "stok").isSome = true
    · rw [if_pos h]
      simp only [Element.children]
      exact setFirstStok_filter_nonstok txt u.children
    · rw [if_neg h]
      simp only [Element.children]
      rw [List.filter_append]
      rw [show ([Element.mk "stok" [] (some txt) []].filter
          (fun u => !(u.tag == "stok"))) = [] by rfl]
      simp
  · unfold updateStok
    by_cases h : (findEl u "stok").isSome = true
    · rw [if_pos h]
      exact Or.inl ⟨h, rfl⟩
    · rw [if_neg h]
      refine Or.inr ⟨?_, rfl⟩
      cases hf : findEl u "stok" with
      | none => rfl
      | some x => rw [hf] at h; simp at h

theorem countP_updateChildren (kf k : String) (hk : kf ≠ "stok")
    (texts : List (String × List Char)) :
    ∀ cs : List Element,
      ((updateChildren kf texts cs).filter
        (fun c => c.tag == "urun" && childKey kf c == some k)).length =
      (cs.filter (fun c => c.tag == "urun" && childKey kf c == some k)).length := by
  intro cs
  induction cs with
  | nil => rfl
  | cons c rest ih =>
      simp only [updateChildren, List.filter_cons]
      have hpred : ((updOne kf texts c rest).tag == "urun" &&
          childKey kf (updOne kf texts c rest) == some k) =
          (c.tag == "urun" && childKey kf c == some k) := by
        rw [updOne_tag, childKey_updOne kf hk]
      rw [hpred]
      by_cases hc : (c.tag == "urun" && childKey kf c == some k) = true
      · rw [if_pos hc, if_pos hc]
        simp [ih]
      · rw [if_neg hc, if_neg hc]
        exact ih

theorem nodup_filterMap_le_one (kf : String) :
    ∀ us : List Element, (us.filterMap (childKey kf)).Nodup →
      ∀ k, (us.filter (fun x => childKey kf x == some k)).length ≤ 1 := by
  intro us
  induction us with
  | nil => intro _ k; simp
  | cons u t ih =>
      intro hn k
      cases hcu : childKey kf u with
      | none =>
          rw [List.filterMap_cons_none hcu] at hn
          simp only [List.filter_cons]
          rw [if_neg (by simp [hcu])]
          exact ih hn k
      | some k0 =>
          rw [List.filterMap_cons_some hcu] at hn
          have hn2 := List.Nodup.of_cons hn
          by_cases hkk : (childKey kf u == some k) = true
          · have hk0 : k0 = k := by
              have := beq_iff_eq.mp hkk
              rw [hcu] at this
              injection this
            subst hk0
            simp only [List.filter_cons]
            rw [if_pos hkk]
            have hnot : k0 ∉ t.filterMap (childKey kf) := (List.nodup_cons.mp hn).1
            have hzero : t.filter (fun x => childKey kf x == some k0) = [] := by
              rw [List.filter_eq_nil_iff]
              intro a ha hpa
              exact hnot (List.mem_filterMap.mpr ⟨a, ha, by simpa using hpa⟩)
            rw [hzero]
            simp
          · simp only [List.filter_cons]
            rw [if_neg hkk]
            exact ih hn2 k

theorem rowKeys_map_keyRow (sup : PMap) (l : PMap) :
    rowKeys (l.map (keyRow sup)) = keysOf l := by
  unfold rowKeys keysOf
  rw [List.map_map]
  rfl

theorem loadFold_snd_shape (kf : String) :
    ∀ (us : List Element) (m : PMap) (ds : List Diag) (d : Diag),
      d ∈ (us.foldl (loadFold kf) (m, ds)).2 →
      d ∈ ds ∨ ∃ w, d = Diag.badNumeric w := by
  intro us
  induction us with
  | nil => intro m ds d hd; exact Or.inl hd
  | cons u t ih =>
      intro m ds d hd
      simp only [List.foldl_cons] at hd
      cases hcu : childKey kf u with
      | none =>
          rw [show loadFold kf (m, ds) u = (m, ds) by simp [loadFold, hcu]] at hd
          exact ih m ds d hd
      | some k =>
          rw [show loadFold kf (m, ds) u =
              (upsert m k ⟨u, (parse_decimal (stokText u)).1⟩,
                ds ++ match (parse_decimal (stokText u)).2 with
                  | some w => [Diag.badNumeric w] | none => []) by
            simp [loadFold, hcu]] at hd
          rcases ih _ _ d hd with h1 | h2
          · rcases List.mem_append.mp h1 with h3 | h4
            · exact Or.inl h3
            · cases hw : (parse_decimal (stokText u)).2 with
              | none => rw [hw] at h4; cases h4
              | some w =>
                  rw [hw] at h4
                  exact Or.inr ⟨w, List.mem_singleton.mp h4⟩
          · exact Or.inr h2

theorem stok_load_snd (b : XmlBytes) (kf : String) :
    ∀ d ∈ (Stok.load_products b kf).2, ∃ w, d = Diag.badNumeric w := by
  intro d hd
  cases b with
  | malformed => cases hd
  | doc root =>
      by_cases h : root.tag = "urunler"
      · rw [show Stok.load_products (.doc root) kf =
            (.ok (root, ((findall root "urun").foldl (loadFold kf) ([], [])).1),
              ((findall root "urun").foldl (loadFold kf) ([], [])).2) from by
          simp [Stok.load_products, h]] at hd
        rcases loadFold_snd_shape kf (findall root "urun") [] [] d hd with h1 | h2
        · cases h1
        · exact h2
      · rw [show Stok.load_products (.doc root) kf =
            (.error (.valueError "Root elemanı 'urunler' olmalı"), []) from by
          simp [Stok.load_products, h]] at hd
        cases hd

theorem stok_merge_noclamp (store sup : XmlBytes) (kf : String) :
    Diag.negClamp ∉ (Stok.merge_xml_feeds store sup kf).2 := by
  have hshape : ∀ d ∈ (Stok.merge_xml_feeds store sup kf).2,
      ∃ w, d = Diag.badNumeric w := by
    by_cases hkf : kf = "barkod" ∨ kf = "stokKodu"
    · cases hL : Stok.load_products store kf with
      | mk res1 ds1 =>
          have hds1 : ∀ d ∈ ds1, ∃ w, d = Diag.badNumeric w := fun d hd =>
            stok_load_snd store kf d (by rw [hL]; exact hd)
          cases res1 with
          | error e =>
              have hsnd : (Stok.merge_xml_feeds store sup kf).2 = ds1 := by
                simp only [Stok.merge_xml_feeds, if_pos hkf, hL]
              rw [hsnd]
              exact hds1
          | ok pr1 =>
              obtain ⟨sroot, smap⟩ := pr1
              cases hL2 : Stok.load_products sup kf with
              | mk res2 ds2 =>
                  have hds2 : ∀ d ∈ ds2, ∃ w, d = Diag.badNumeric w := fun d hd =>
                    stok_load_snd sup kf d (by rw [hL2]; exact hd)
                  cases res2 with
                  | error e =>
                      have hsnd : (Stok.merge_xml_feeds store sup kf).2 = ds1 ++ ds2 := by
                        simp only [Stok.merge_xml_feeds, if_pos hkf, hL, hL2]
                      rw [hsnd]
                      intro d hd
                      rcases List.mem_append.mp hd with h1 | h2
                      · exact hds1 d h1
                      · exact hds2 d h2
                  | ok pr2 =>
                      obtain ⟨xroot, pmap⟩ := pr2
                      cases hmr : Stok.mergeRows pmap smap with
                      | mk res3 ds3 =>
                          have hds3 : ds3 = [] := by
                            have hx := stok_mergeRows_snd pmap smap
                            rw [hmr] at hx
                            exact hx
                          subst hds3
                          have hmemlem : ∀ d ∈ ds1 ++ ds2 ++ ([] : List Diag),
                              ∃ w, d = Diag.badNumeric w := by
                            intro d hd
                            rcases List.mem_append.mp hd with h1 | h2
                            · rcases List.mem_append.mp h1 with h3 | h4
                              · exact hds1 d h3
                              · exact hds2 d h4
                            · cases h2
                          cases res3 with
                          | error e =>
                              have hsnd : (Stok.merge_xml_feeds store sup kf).2 =
                                  ds1 ++ ds2 ++ [] := by
                                simp only [Stok.merge_xml_feeds, if_pos hkf, hL, hL2, hmr]
                              rw [hsnd]
                              exact hmemlem
                          | ok pr3 =>
                              obtain ⟨texts, rows⟩ := pr3
                              have hsnd : (Stok.merge_xml_feeds store sup kf).2 =
                                  ds1 ++ ds2 ++ [] := by
                                simp only [Stok.merge_xml_feeds, if_pos hkf, hL, hL2, hmr]
                              rw [hsnd]
                              exact hmemlem
    · have hsnd : (Stok.merge_xml_feeds store sup kf).2 = [] := by
        simp only [Stok.merge_xml_feeds, if_neg hkf]
      rw [hsnd]
      intro d hd
      cases hd
  intro hmem
  obtain ⟨w, hw⟩ := hshape Diag.negClamp hmem
  cases hw

theorem app_merge_snd (sroot suproot : Element) (kf : String)
    (hkf : kf = "barkod" ∨ kf = "stokKodu")
    (hs : sroot.tag = "urunler") (hp : suproot.tag = "urunler")
    (hfin : allFin (buildPMap kf (findall sroot "urun"))
      (buildPMap kf (findall suproot "urun")) = true) :
    (App.compute_merged (.doc sroot) (.doc suproot) kf).2 =
      ((findall sroot "urun").foldl (loadFold kf) ([], [])).2 ++
      ((findall suproot "urun").foldl (loadFold kf) ([], [])).2 ++
      [Diag.storeCount (buildPMap kf (findall sroot "urun")).length,
        Diag.supplierCount (buildPMap kf (findall suproot "urun")).length] ++
      ((buildPMap kf (findall sroot "urun")).filter
        (clampedF (buildPMap kf (findall suproot "urun")))).map
          (fun _ => Diag.negClamp) := by
  have hmr := app_mergeRows_ok (buildPMap kf (findall suproot "urun"))
    (buildPMap kf (findall sroot "urun")) ((allFin_iff _ _).mp hfin)
  simp only [App.compute_merged, if_pos hkf, App.load_products, if_pos hs, if_pos hp]
  rw [show ((findall sroot "urun").foldl (loadFold kf) ([], [])).1 =
      buildPMap kf (findall sroot "urun") from loadFold_fst kf _ [] [],
    show ((findall suproot "urun").foldl (loadFold kf) ([], [])).1 =
      buildPMap kf (findall suproot "urun") from loadFold_fst kf _ [] []]
  rw [hmr]

theorem app_merge_hasclamp (sroot suproot : Element) (kf : String)
    (hkf : kf = "barkod" ∨ kf = "stokKodu")
    (hs : sroot.tag = "urunler") (hp : suproot.tag = "urunler")
    (hfin : allFin (buildPMap kf (findall sroot "urun"))
      (buildPMap kf (findall suproot "urun")) = true)
    (p : String × Entry) (hpm : p ∈ buildPMap kf (findall sroot "urun"))
    (hcl : clampedF (buildPMap kf (findall suproot "urun")) p = true) :
    Diag.negClamp ∈ (App.compute_merged (.doc sroot) (.doc suproot) kf).2 := by
  rw [app_merge_snd sroot suproot kf hkf hs hp hfin]
  apply List.mem_append_right
  apply List.mem_map.mpr
  exact ⟨p, List.mem_filter.mpr ⟨hpm, hcl⟩, rfl⟩

theorem alookup_of_mem_nodup {α : Type} :
    ∀ l : List (String × α), (keysOf l).Nodup → ∀ p ∈ l, alookup l p.1 = some p.2 := by
  intro l
  induction l with
  | nil => intro _ p hp; cases hp
  | cons q t ih =>
      intro hn p hp
      have hn' : (q.1 :: keysOf t).Nodup := by
        simpa [keysOf] using hn
      rcases List.mem_cons.mp hp with rfl | hp2
      · simp [alookup]
      · have hq : p.1 ≠ q.1 := by
          intro he
          have hmem : p.1 ∈ keysOf t := List.mem_map.mpr ⟨p, hp2, rfl⟩
          rw [he] at hmem
          exact (List.nodup_cons.mp hn').1 hmem
        simp only [alookup]
        rw [if_neg hq]
        exact ih (List.nodup_cons.mp hn').2 p hp2

theorem buildPMap_keys_nodup (kf : String) (us : List Element) :
    (keysOf (buildPMap kf us)).Nodup :=
  keysOf_buildFold_nodup kf us [] List.nodup_nil

theorem updOne_id (kf : String) (texts : List (String × List Char)) (c : Element)
    (rest : List Element) (h : ¬ c.tag = "urun" ∨ childKey kf c = none) :
    updOne kf texts c rest = c := by
  rcases h with h1 | h2
  · simp [updOne, h1]
  · by_cases ht : c.tag = "urun"
    · simp [updOne, ht, h2]
    · simp [updOne, ht]

theorem buildFold_filter_keyed (kf : String) :
    ∀ (us : List Element) (m : PMap),
      us.foldl (addProd kf) m =
        (us.filter (fun u => (childKey kf u).isSome)).foldl (addProd kf) m := by
  intro us
  induction us with
  | nil => intro m; rfl
  | cons u t ih =>
      intro m
      simp only [List.foldl_cons, List.filter_cons]
      cases hcu : childKey kf u with
      | none =>
          rw [if_neg (by simp [hcu])]
          rw [show addProd kf m u = m by simp [addProd, hcu]]
          exact ih m
      | some k =>
          rw [if_pos (by simp [hcu])]
          simp only [List.foldl_cons]
          exact ih _

/-! ## CSV lemmas -/

theorem csvFieldEnc_plain (delim : Char) (s : List Char)
    (h : plainField delim s = true) : csvFieldEnc delim s = s := by
  unfold plainField at h
  unfold csvFieldEnc
  rw [if_neg]
  simp only [Bool.not_eq_true'] at h
  rw [h]
  exact Bool.false_ne_true

theorem csvFieldEnc_quoted (delim : Char) (s : List Char)
    (h : needsQuote delim s = true) :
    csvFieldEnc delim s = '"' :: escapeQ s ++ ['"'] := by
  unfold csvFieldEnc
  rw [if_pos h]

theorem noCRLF_append (a b : List Char) :
    noCRLF (a ++ b) = (noCRLF a && noCRLF b) := by
  unfold noCRLF
  rw [List.all_append]

theorem noCRLF_of_plain (delim : Char) (s : List Char)
    (h : plainField delim s = true) : noCRLF s = true := by
  unfold plainField at h
  rw [Bool.not_eq_true'] at h
  unfold needsQuote at h
  rw [List.any_eq_false] at h
  unfold noCRLF
  rw [List.all_eq_true]
  intro c hc
  cases hb : (c == delim || c == '"' || c == '\r' || c == '\n') with
  | true => exact absurd hb (h c hc)
  | false =>
      have hr : (c == '\r') = false := by
        cases hr : (c == '\r') with
        | false => rfl
        | true => rw [hr] at hb; simp at hb
      have hn : (c == '\n') = false := by
        cases hn : (c == '\n') with
        | false => rfl
        | true => rw [hn] at hb; simp at hb
      simp [hr, hn]

theorem noCRLF_joinD (delim : Char) (hd : (delim == '\r' || delim == '\n') = false) :
    ∀ fs : List (List Char), (∀ f ∈ fs, noCRLF f = true) →
      noCRLF (joinD delim fs) = true := by
  intro fs
  induction fs with
  | nil => intro _; rfl
  | cons f rest ih =>
      intro hall
      cases rest with
      | nil => exact hall f (List.mem_cons_self f [])
      | cons g rest2 =>
          have hjoin : joinD delim (f :: g :: rest2) =
              f ++ delim :: joinD delim (g :: rest2) := rfl
          have htail : noCRLF (joinD delim (g :: rest2)) = true :=
            ih (fun x hx => hall x (List.mem_cons_of_mem f hx))
          rw [hjoin, noCRLF_append, hall f (List.mem_cons_self f _)]
          have hcons : noCRLF (delim :: joinD delim (g :: rest2)) = true := by
            unfold noCRLF at htail ⊢
            rw [List.all_cons]
            rw [show (!(delim == '\r' || delim == '\n')) = true by rw [hd]; rfl,
              Bool.true_and]
            exact htail
          rw [hcons]
          rfl

/-! ## Supporting lemmas for the claim theorems -/

theorem mem_of_alookup {α : Type} :
    ∀ (l : List (String × α)) (k : String) (v : α),
      alookup l k = some v → (k, v) ∈ l := by
  intro l
  induction l with
  | nil => intro k v h; cases h
  | cons p t ih =>
      intro k v h
      obtain ⟨pk, pv⟩ := p
      simp only [alookup] at h
      by_cases hk : k = pk
      · rw [if_pos hk] at h
        injection h with h2
        subst hk
        subst h2
        exact List.mem_cons_self _ _
      · rw [if_neg hk] at h
        exact List.mem_cons_of_mem _ (ih k v h)

theorem alookup_of_mem_keys {α : Type} (l : List (String × α)) (k : String)
    (hn : (keysOf l).Nodup) (hk : k ∈ keysOf l) : ∃ v, alookup l k = some v := by
  simp only [keysOf] at hk
  obtain ⟨p, hp, hpk⟩ := List.mem_map.mp hk
  refine ⟨p.2, ?_⟩
  have h2 := alookup_of_mem_nodup l hn p hp
  rw [hpk] at h2
  exact h2

theorem reloadMap_eq (out : XmlOut) (kf : String) (h : out.root.tag = "urunler") :
    reloadMap out kf = some (buildPMap kf (findall out.root "urun")) := by
  unfold reloadMap
  cases hL : Stok.load_products (XmlBytes.doc out.root) kf with
  | mk res ds =>
      have hfst : res = .ok (out.root, buildPMap kf (findall out.root "urun")) := by
        have hx := stok_load_fst out.root kf h
        rw [hL] at hx
        exact hx
      subst hfst
      rfl

theorem reloadStok_eq (out : XmlOut) (kf k : String) (h : out.root.tag = "urunler") :
    reloadStok out kf k =
      (alookup (buildPMap kf (findall out.root "urun")) k).map (fun en => en.stok) := by
  unfold reloadStok
  rw [reloadMap_eq out kf h]

theorem addDmag_exact (a b : Dmag) (h : addExactFits a b = true) :
    dmagQ (addDmag a b) = dmagQ a + dmagQ b := by
  have h' : nlen10 ((a.m * 10 ^ (a.e - min a.e b.e).toNat +
      b.m * 10 ^ (b.e - min a.e b.e).toNat).natAbs) ≤ 28 := by
    unfold addExactFits at h
    exact of_decide_eq_true h
  have hadd : addDmag a b = ⟨a.m * 10 ^ (a.e - min a.e b.e).toNat +
      b.m * 10 ^ (b.e - min a.e b.e).toNat, min a.e b.e⟩ := by
    simp only [addDmag, roundPrec]
    rw [if_pos h']
  rw [show dmagQ (addDmag a b) = ((a.m * 10 ^ (a.e - min a.e b.e).toNat +
      b.m * 10 ^ (b.e - min a.e b.e).toNat : ℤ) : ℚ) * (10 : ℚ) ^ (min a.e b.e) from by
    rw [hadd]
    rfl]
  have hea : (((a.e - min a.e b.e).toNat : ℤ)) = a.e - min a.e b.e :=
    Int.toNat_of_nonneg (by omega)
  have heb : (((b.e - min a.e b.e).toNat : ℤ)) = b.e - min a.e b.e :=
    Int.toNat_of_nonneg (by omega)
  have h10 : (10 : ℚ) ≠ 0 := by norm_num
  have hqa : ((10 : ℚ)) ^ (a.e - min a.e b.e).toNat = (10 : ℚ) ^ (a.e - min a.e b.e) := by
    rw [← zpow_natCast (10 : ℚ) (a.e - min a.e b.e).toNat, hea]
  have hqb : ((10 : ℚ)) ^ (b.e - min a.e b.e).toNat = (10 : ℚ) ^ (b.e - min a.e b.e) := by
    rw [← zpow_natCast (10 : ℚ) (b.e - min a.e b.e).toNat, heb]
  unfold dmagQ
  push_cast
  rw [hqa, hqb, add_mul, mul_assoc, mul_assoc, ← zpow_add₀ h10, ← zpow_add₀ h10]
  have hxa : a.e - min a.e b.e + min a.e b.e = a.e := by omega
  have hxb : b.e - min a.e b.e + min a.e b.e = b.e := by omega
  rw [hxa, hxb]

theorem supStok_congr (pmap pmap2 : PMap)
    (h : ∀ k, (alookup pmap k).map (fun en => en.stok) =
      (alookup pmap2 k).map (fun en => en.stok)) (k : String) :
    supStok pmap k = supStok pmap2 k := by
  have hk := h k
  unfold supStok
  cases h1 : alookup pmap k with
  | none =>
      cases h2 : alookup pmap2 k with
      | none => rfl
      | some en2 => rw [h1, h2] at hk; cases hk
  | some en =>
      cases h2 : alookup pmap2 k with
      | none => rw [h1, h2] at hk; cases hk
      | some en2 =>
          rw [h1, h2] at hk
          have hk2 : some en.stok = some en2.stok := hk
          exact Option.some.inj hk2

theorem countSB_le_countKeyed (root : Element) (kf k : String) :
    countStockBearing root kf k ≤ countKeyed root kf k := by
  unfold countStockBearing countKeyed
  induction root.children with
  | nil => simp
  | cons c rest ih =>
      simp only [List.filter_cons]
      by_cases h1 : (c.tag == "urun" && childKey kf c == some k &&
          (findEl c "stok").isSome) = true
      · have h2 : (c.tag == "urun" && childKey kf c == some k) = true :=
          ((Bool.and_eq_true _ _).mp h1).1
        rw [if_pos h1, if_pos h2]
        simpa using ih
      · rw [if_neg h1]
        by_cases h2 : (c.tag == "urun" && childKey kf c == some k) = true
        · rw [if_pos h2]
          exact Nat.le_succ_of_le ih
        · rw [if_neg h2]
          exact ih

theorem countKeyed_eq_filter (root : Element) (kf k : String) :
    countKeyed root kf k =
      ((findall root "urun").filter (fun u => childKey kf u == some k)).length := by
  unfold countKeyed findall
  have hcomm : root.children.filter
      (fun c => c.tag == "urun" && childKey kf c == some k) =
      root.children.filter (fun c => (childKey kf c == some k) && (c.tag == "urun")) := by
    apply List.filter_congr
    intro a _
    exact Bool.and_comm _ _
  rw [hcomm, ← List.filter_filter]

theorem stockBearing_of_mapped (sroot : Element) (kf k : String) (pmap : PMap)
    (hkf : kf = "barkod" ∨ kf = "stokKodu") (en : Entry)
    (hen : alookup (buildPMap kf (findall sroot "urun")) k = some en) :
    1 ≤ countStockBearing (mutateTree kf
      ((buildPMap kf (findall sroot "urun")).map
        (fun p => (p.1, keyText pmap p))) sroot) kf k := by
  have hns : kf ≠ "stok" := kf_ne_stok hkf
  have hall := findall_all_urun sroot
  have htx : alookup ((buildPMap kf (findall sroot "urun")).map
      (fun p => (p.1, keyText pmap p))) k = some (keyText pmap (k, en)) := by
    rw [alookup_map_pair, hen]
    rfl
  obtain ⟨hlk, _⟩ := buildPMap_alookup_inv kf k _ en hen
  have hlk' := lastKeyed_updateChildren kf k hns
    ((buildPMap kf (findall sroot "urun")).map (fun p => (p.1, keyText pmap p)))
    (findall sroot "urun") hall
  rw [hlk, htx] at hlk'
  have hlk2 : lastKeyed kf k (updateChildren kf
      ((buildPMap kf (findall sroot "urun")).map (fun p => (p.1, keyText pmap p)))
      (findall sroot "urun")) =
      some (updateStok en.urun (String.mk (keyText pmap (k, en)))) := hlk'
  obtain ⟨hmem, hck⟩ := lastKeyed_mem kf k _ _ hlk2
  have hfu : updateChildren kf
      ((buildPMap kf (findall sroot "urun")).map (fun p => (p.1, keyText pmap p)))
      (findall sroot "urun") =
      ((updateChildren kf ((buildPMap kf (findall sroot "urun")).map
        (fun p => (p.1, keyText pmap p))) sroot.children).filter
          (fun c => c.tag == "urun")) := by
    rw [updateChildren_filter_urun]
    rfl
  rw [hfu] at hmem
  have hmem2 := List.mem_filter.mp hmem
  have hst : (findEl (updateStok en.urun (String.mk (keyText pmap (k, en)))) "stok").isSome
      = true :=
    findEl_stok_isSome_of_stokText (stokText_updateStok en.urun _)
  have hmem3 : updateStok en.urun (String.mk (keyText pmap (k, en))) ∈
      (mutateTree kf ((buildPMap kf (findall sroot "urun")).map
        (fun p => (p.1, keyText pmap p))) sroot).children.filter
      (fun c => c.tag == "urun" && childKey kf c == some k && (findEl c "stok").isSome) := by
    refine List.mem_filter.mpr ⟨hmem2.1, ?_⟩
    rw [hmem2.2, hst]
    rw [show (childKey kf (updateStok en.urun (String.mk (keyText pmap (k, en))))
        == some k) = true from by rw [hck]; exact beq_self_eq_true _]
    rfl
  unfold countStockBearing
  have hpos := List.length_pos.mpr (List.ne_nil_of_mem hmem3)
  omega

/-! # The claims -/

/-- C10: the two duplicated cores — `merge_xml_feeds` in src/stok.py and
`compute_merged` in src/app.py — are extensionally equal: for every pair of
input byte buffers and every key-field selector they either raise an error
for the same reason with the same message, or return an identical merged
document and an identical row list; they differ only in the logging side
channel (the second component). -/
theorem c10_equivalence :
    ∀ (store supplier : XmlBytes) (kf : String),
      (Stok.merge_xml_feeds store supplier kf).1 =
        (App.compute_merged store supplier kf).1 := by
  intro store supplier kf
  by_cases hkf : kf = "barkod" ∨ kf = "stokKodu"
  · cases hS : Stok.load_products store kf with
    | mk res1 ds1 =>
        cases hA : App.load_products store kf with
        | mk res1A ds1A =>
            have hL : res1 = res1A := by
              have h0 := load_fst_eq store kf
              rw [hS, hA] at h0
              exact h0
            subst hL
            cases res1 with
            | error e =>
                simp only [Stok.merge_xml_feeds, App.compute_merged, if_pos hkf, hS, hA]
            | ok pr1 =>
                obtain ⟨sroot, smap⟩ := pr1
                cases hS2 : Stok.load_products supplier kf with
                | mk res2 ds2 =>
                    cases hA2 : App.load_products supplier kf with
                    | mk res2A ds2A =>
                        have hL2 : res2 = res2A := by
                          have h0 := load_fst_eq supplier kf
                          rw [hS2, hA2] at h0
                          exact h0
                        subst hL2
                        cases res2 with
                        | error e =>
                            simp only [Stok.merge_xml_feeds, App.compute_merged,
                              if_pos hkf, hS, hA, hS2, hA2]
                        | ok pr2 =>
                            obtain ⟨xroot, pmap⟩ := pr2
                            cases hM : Stok.mergeRows pmap smap with
                            | mk res3 ds3 =>
                                cases hM2 : App.mergeRows pmap smap with
                                | mk res3A ds3A =>
                                    have hL3 : res3 = res3A := by
                                      have h0 := mergeRows_result_eq pmap smap
                                      rw [hM, hM2] at h0
                                      exact h0
                                    subst hL3
                                    cases res3 with
                                    | error e =>
                                        simp only [Stok.merge_xml_feeds,
                                          App.compute_merged, if_pos hkf, hS, hA,
                                          hS2, hA2, hM, hM2]
                                    | ok pr3 =>
                                        obtain ⟨texts, rows⟩ := pr3
                                        simp only [Stok.merge_xml_feeds,
                                          App.compute_merged, if_pos hkf, hS, hA,
                                          hS2, hA2, hM, hM2]
  · simp only [Stok.merge_xml_feeds, App.compute_merged, if_neg hkf]

/-- C7 counterexample: a run of `merge_xml_feeds` on a valid key-field
selector and two well-formed documents whose roots are both `urunler` still
fails — the store stock text `"NaN"` parses to a quiet NaN and the loop's
`stok_toplam < 0` comparison raises `decimal.InvalidOperation` — refuting
the claim that the merge fails only on a bad selector, malformed XML, or a
wrong root tag. -/
theorem c7_counterexample :
    Stok.merge_xml_feeds (.doc (.mk "urunler" [] none [sampleProd "A" "NaN"]))
        (.doc (.mk "urunler" [] none [])) "barkod" =
      (.error .invalidOperation, []) ∧
    ("barkod" = "barkod" ∨ "barkod" = "stokKodu") ∧
    (Element.mk "urunler" [] none [sampleProd "A" "NaN"]).tag = "urunler" ∧
    (Element.mk "urunler" [] none ([] : List Element)).tag = "urunler" :=
  ⟨rfl, Or.inl rfl, rfl, rfl⟩

/-- C7 (amended): the merge fails if and only if the key-field selector is
outside `{barkod, stokKodu}` (an invalid-argument `ValueError`, raised
before any parsing), a document's bytes are not well-formed XML (a
`ValueError` with the invalid-format message), a well-formed document's
root is not tagged `urunler` (a `ValueError` with the distinct
structural-mismatch message), or — beyond the spec's three-way taxonomy —
some matched store/supplier stock parses to a non-finite decimal (`NaN` or
`Infinity` text), in which case the merge loop itself raises.  Each failure
is fatal and yields no partial output. -/
theorem c7_amended (store sup : XmlBytes) (kf : String) :
    ((∃ res, (Stok.merge_xml_feeds store sup kf).1 = .ok res) ↔
      ((kf = "barkod" ∨ kf = "stokKodu") ∧
        ∃ sroot suproot, store = .doc sroot ∧ sup = .doc suproot ∧
          sroot.tag = "urunler" ∧ suproot.tag = "urunler" ∧
          allFin (buildPMap kf (findall sroot "urun"))
            (buildPMap kf (findall suproot "urun")) = true)) ∧
    (¬(kf = "barkod" ∨ kf = "stokKodu") →
      Stok.merge_xml_feeds store sup kf =
        (.error (.valueError "key_field sadece 'barkod' veya 'stokKodu' olabilir"), [])) ∧
    ((kf = "barkod" ∨ kf = "stokKodu") → store = .malformed →
      Stok.merge_xml_feeds store sup kf =
        (.error (.valueError "Geçersiz XML formatı"), [])) ∧
    (∀ sroot : Element, (kf = "barkod" ∨ kf = "stokKodu") → store = .doc sroot →
      ¬ sroot.tag = "urunler" →
      Stok.merge_xml_feeds store sup kf =
        (.error (.valueError "Root elemanı 'urunler' olmalı"), [])) ∧
    (∀ sroot : Element, (kf = "barkod" ∨ kf = "stokKodu") → store = .doc sroot →
      sroot.tag = "urunler" → sup = .malformed →
      (Stok.merge_xml_feeds store sup kf).1 =
        .error (.valueError "Geçersiz XML formatı")) ∧
    (∀ sroot suproot : Element, (kf = "barkod" ∨ kf = "stokKodu") → store = .doc sroot →
      sup = .doc suproot → sroot.tag = "urunler" → ¬ suproot.tag = "urunler" →
      (Stok.merge_xml_feeds store sup kf).1 =
        .error (.valueError "Root elemanı 'urunler' olmalı")) := by
  refine ⟨stok_merge_ok_iff store sup kf, ?_, ?_, ?_, ?_, ?_⟩
  · intro h
    exact stok_merge_badkf store sup kf h
  · intro hkf hst
    subst hst
    exact stok_merge_malformed_store sup kf hkf
  · intro sroot hkf hst hr
    subst hst
    exact stok_merge_badroot_store sroot sup kf hkf hr
  · intro sroot hkf hst hs hsup
    subst hst
    subst hsup
    exact stok_merge_malformed_sup sroot kf hkf hs
  · intro sroot suproot hkf hst hsup hs hq
    subst hst
    subst hsup
    exact stok_merge_badroot_sup sroot suproot kf hkf hs hq

/-- C7 witness: the amended failure characterization evaluated at concrete
inputs — a bad selector, a malformed store document, and a store root tagged
other than `urunler`. -/
theorem c7_amended_witness :
    (Stok.merge_xml_feeds .malformed .malformed "x" =
      (.error (.valueError "key_field sadece 'barkod' veya 'stokKodu' olabilir"), [])) ∧
    (Stok.merge_xml_feeds .malformed (.doc (.mk "urunler" [] none [])) "barkod" =
      (.error (.valueError "Geçersiz XML formatı"), [])) ∧
    (Stok.merge_xml_feeds (.doc (.mk "kok" [] none [])) .malformed "barkod" =
      (.error (.valueError "Root elemanı 'urunler' olmalı"), [])) :=
  ⟨(c7_amended .malformed .malformed "x").2.1 (by decide),
    (c7_amended .malformed (.doc (.mk "urunler" [] none [])) "barkod").2.2.1
      (Or.inl rfl) rfl,
    (c7_amended (.doc (.mk "kok" [] none [])) .malformed "barkod").2.2.2.1
      (.mk "kok" [] none []) (Or.inl rfl) rfl (by decide)⟩

/-- C5: numeric stock parsing never raises.  A missing `stok` sub-element
(`None` text) and blank text both give `Decimal(0)` with no warning; text
whose comma-normalized, stripped form fails `Decimal` conversion gives
`Decimal(0)` with a warning naming the stripped text; text that converts
has each `,` replaced by `.` and parses to its decimal value; every mapping
entry whose product has a missing, blank or malformed stock text carries
stock `Decimal(0)`; and a merge over documents all of whose stocks are
missing or malformed still succeeds — malformed stock never aborts loading
or merging. -/
theorem c5_tolerant_parsing :
    (parse_decimal none = (.fin ⟨0, 0⟩, none)) ∧
    (∀ s : String, trimChars s.data = [] → parse_decimal (some s) = (.fin ⟨0, 0⟩, none)) ∧
    (∀ s : String, trimChars s.data ≠ [] →
      strToDec ((trimChars s.data).map commaDot) = none →
      parse_decimal (some s) = (.fin ⟨0, 0⟩, some (String.mk (trimChars s.data)))) ∧
    (∀ (s : String) (d : Dec), trimChars s.data ≠ [] →
      strToDec ((trimChars s.data).map commaDot) = some d →
      parse_decimal (some s) = (d, none)) ∧
    (∀ (kf k : String) (us : List Element) (en : Entry),
      alookup (buildPMap kf us) k = some en →
      stokMissingOrMalformed en.urun = true → en.stok = .fin ⟨0, 0⟩) ∧
    (∀ (sroot suproot : Element) (kf : String),
      (kf = "barkod" ∨ kf = "stokKodu") → sroot.tag = "urunler" →
      suproot.tag = "urunler" →
      (∀ u ∈ findall sroot "urun", stokMissingOrMalformed u = true) →
      (∀ u ∈ findall suproot "urun", stokMissingOrMalformed u = true) →
      ∃ res, (Stok.merge_xml_feeds (.doc sroot) (.doc suproot) kf).1 = .ok res) := by
  refine ⟨rfl, ?_, ?_, ?_, ?_, ?_⟩
  · intro s hb
    simp only [parse_decimal]
    rw [if_pos hb]
  · intro s hnb hsd
    simp only [parse_decimal, hsd]
    rw [if_neg hnb]
  · intro s d hnb hsd
    simp only [parse_decimal, hsd]
    rw [if_neg hnb]
  · intro kf k us en hen hmal
    obtain ⟨_, hstok⟩ := buildPMap_alookup_inv kf k us en hen
    rw [hstok]
    exact parse_zero_of_missingOrMalformed en.urun hmal
  · intro sroot suproot kf hkf hs hq hms hmq
    apply (stok_merge_ok_iff _ _ _).mpr
    refine ⟨hkf, sroot, suproot, rfl, rfl, hs, hq, ?_⟩
    rw [allFin_iff]
    intro p hp
    constructor
    · obtain ⟨u, hu, _, hstok⟩ := mem_buildPMap kf _ p hp
      have h5 : p.2 = Entry.mk u (parse_decimal (stokText u)).1 := hstok
      rw [h5]
      show ((parse_decimal (stokText u)).1).isFin = true
      rw [parse_zero_of_missingOrMalformed u (hms u hu)]
      rfl
    · unfold supStok
      cases hpq : alookup (buildPMap kf (findall suproot "urun")) p.1 with
      | none => rfl
      | some en2 =>
          obtain ⟨u2, hu2, _, hstok2⟩ := mem_buildPMap kf _ (p.1, en2)
            (mem_of_alookup _ _ _ hpq)
          have h5 : en2 = Entry.mk u2 (parse_decimal (stokText u2)).1 := hstok2
          rw [h5]
          show ((parse_decimal (stokText u2)).1).isFin = true
          rw [parse_zero_of_missingOrMalformed u2 (hmq u2 hu2)]
          rfl

/-- C5 witness: the tolerant-parsing contract evaluated on concrete texts —
unparseable `"N/A"` becomes zero with a warning, blank text becomes zero
silently, and `"12,5"` comma-normalizes and parses to 12.5. -/
theorem c5_witness :
    parse_decimal (some "N/A") = (.fin ⟨0, 0⟩, some "N/A") ∧
    parse_decimal (some "  ") = (.fin ⟨0, 0⟩, none) ∧
    parse_decimal (some "12,5") = (.fin ⟨125, -1⟩, none) :=
  ⟨c5_tolerant_parsing.2.2.1 "N/A" (by decide) (by rfl),
    c5_tolerant_parsing.2.1 "  " (by rfl),
    c5_tolerant_parsing.2.2.2.1 "12,5" (.fin ⟨125, -1⟩) (by decide) (by rfl)⟩

/-- C9 counterexample: the stok.py table rendering is not comma-separated —
`download_merged_csv` constructs its writer with `delimiter=";"`, so even
the header line joins its six fields with `;` and contains no comma at
all. -/
theorem c9_counterexample :
    (Stok.download_merged_csv []).content =
      "Barkod;Key;Ürün Adı;Mağaza Stok;Tedarikçi Stok;Toplam Stok\r\n".data ∧
    ',' ∉ (Stok.download_merged_csv []).content := by
  constructor
  · rfl
  · decide

/-- C9 (amended): both table renderings emit one header row followed by one
`"\r\n"`-terminated line per merged row under minimal quoting (a field is
quoted exactly when it contains the delimiter, the quote character, or a
line break), and both are UTF-8 with a byte-order mark, while the XML
output of a successful merge carries none; the delimiter is `;` in
stok.py's `download_merged_csv` and `,` in app.py's
`get_merged_products_csv`. -/
theorem c9_amended (rows : List Row)
    (hp : ∀ r ∈ rows, rowPlain ';' r = true ∧ rowPlain ',' r = true) :
    (Stok.download_merged_csv rows).bom = true ∧
    (App.get_merged_products_csv rows).bom = true ∧
    (Stok.download_merged_csv rows).content =
      csvLine ';' headerFields ++
        (rows.map (fun r => joinD ';' (rowFields r) ++ ['\r', '\n'])).flatten ∧
    (App.get_merged_products_csv rows).content =
      csvLine ',' headerFields ++
        (rows.map (fun r => joinD ',' (rowFields r) ++ ['\r', '\n'])).flatten ∧
    (∀ r ∈ rows, noCRLF (joinD ';' (rowFields r)) = true ∧
      noCRLF (joinD ',' (rowFields r)) = true) ∧
    (∀ delim : Char, ∀ f : List Char,
      (needsQuote delim f = false → csvFieldEnc delim f = f) ∧
      (needsQuote delim f = true → csvFieldEnc delim f = '"' :: escapeQ f ++ ['"'])) ∧
    (∀ (store sup : XmlBytes) (kf : String) (out : XmlOut) (rws : List Row)
      (ds : List Diag), Stok.merge_xml_feeds store sup kf = (.ok (out, rws), ds) →
      out.bom = false) := by
  have hmap : ∀ (delim : Char) (r : Row), rowPlain delim r = true →
      csvLine delim (rowFields r) = joinD delim (rowFields r) ++ ['\r', '\n'] := by
    intro delim r hpr
    unfold rowPlain at hpr
    have hf : (rowFields r).map (csvFieldEnc delim) = rowFields r := by
      have h1 : (rowFields r).map (csvFieldEnc delim) = (rowFields r).map id := by
        apply List.map_congr_left
        intro f hfm
        exact csvFieldEnc_plain delim f (List.all_eq_true.mp hpr f hfm)
      rw [h1, List.map_id]
    unfold csvLine
    rw [hf]
  refine ⟨rfl, rfl, ?_, ?_, ?_, ?_, ?_⟩
  · show csvLine ';' headerFields ++
        (rows.map (fun r => csvLine ';' (rowFields r))).flatten = _
    have hc : rows.map (fun r => csvLine ';' (rowFields r)) =
        rows.map (fun r => joinD ';' (rowFields r) ++ ['\r', '\n']) := by
      apply List.map_congr_left
      intro r hr
      exact hmap ';' r (hp r hr).1
    rw [hc]
  · show csvLine ',' headerFields ++
        (rows.map (fun r => csvLine ',' (rowFields r))).flatten = _
    have hc : rows.map (fun r => csvLine ',' (rowFields r)) =
        rows.map (fun r => joinD ',' (rowFields r) ++ ['\r', '\n']) := by
      apply List.map_congr_left
      intro r hr
      exact hmap ',' r (hp r hr).2
    rw [hc]
  · intro r hr
    constructor
    · apply noCRLF_joinD ';' (by decide)
      intro f hfm
      apply noCRLF_of_plain ';'
      unfold rowPlain at hp
      exact List.all_eq_true.mp (hp r hr).1 f hfm
    · apply noCRLF_joinD ',' (by decide)
      intro f hfm
      apply noCRLF_of_plain ','
      unfold rowPlain at hp
      exact List.all_eq_true.mp (hp r hr).2 f hfm
  · intro delim f
    constructor
    · intro hq
      apply csvFieldEnc_plain
      unfold plainField
      rw [hq]
      rfl
    · intro hq
      exact csvFieldEnc_quoted delim f hq
  · intro store sup kf out rws ds hok
    have hfst : (Stok.merge_xml_feeds store sup kf).1 = .ok (out, rws) := by
      rw [hok]
    obtain ⟨hkf, sroot, suproot, rfl, rfl, hs, hq, hfin⟩ :=
      (stok_merge_ok_iff store sup kf).mp ⟨(out, rws), hfst⟩
    have hcan := stok_merge_eq_ok sroot suproot kf hkf hs hq hfin
    rw [hfst] at hcan
    injection hcan with h2
    have hb := congrArg (fun p => p.1.bom) h2
    exact hb

/-- C9 witness: the amended table-shape statement evaluated on a single
concrete merged row with plain fields. -/
theorem c9_amended_witness :
    (Stok.download_merged_csv [⟨"123", "123", "Urun", .int 5, .int 3, .int 8⟩]).bom
      = true ∧
    (App.get_merged_products_csv
      [⟨"123", "123", "Urun", .int 5, .int 3, .int 8⟩]).bom = true ∧
    (Stok.download_merged_csv [⟨"123", "123", "Urun", .int 5, .int 3, .int 8⟩]).content =
      csvLine ';' headerFields ++
        ([⟨"123", "123", "Urun", .int 5, .int 3, .int 8⟩].map
          (fun r => joinD ';' (rowFields r) ++ ['\r', '\n'])).flatten ∧
    (App.get_merged_products_csv
        [⟨"123", "123", "Urun", .int 5, .int 3, .int 8⟩]).content =
      csvLine ',' headerFields ++
        ([⟨"123", "123", "Urun", .int 5, .int 3, .int 8⟩].map
          (fun r => joinD ',' (rowFields r) ++ ['\r', '\n'])).flatten ∧
    (∀ r ∈ [(⟨"123", "123", "Urun", .int 5, .int 3, .int 8⟩ : Row)],
      noCRLF (joinD ';' (rowFields r)) = true ∧
      noCRLF (joinD ',' (rowFields r)) = true) ∧
    (∀ delim : Char, ∀ f : List Char,
      (needsQuote delim f = false → csvFieldEnc delim f = f) ∧
      (needsQuote delim f = true → csvFieldEnc delim f = '"' :: escapeQ f ++ ['"'])) ∧
    (∀ (store sup : XmlBytes) (kf : String) (out : XmlOut) (rws : List Row)
      (ds : List Diag), Stok.merge_xml_feeds store sup kf = (.ok (out, rws), ds) →
      out.bom = false) :=
  c9_amended [⟨"123", "123", "Urun", .int 5, .int 3, .int 8⟩] (by decide)

/-- C2 counterexample: for a store stock `-5` and supplier stock `2`
(total `-3 < 0`) the stok.py merge clamps — the row total and the re-loaded
stock text are both `0` — but records no diagnostic at all on the logging
side channel: the clamp at src/stok.py lines 101–103 is silent, refuting
the claim that a diagnostic is recorded. -/
theorem c2_counterexample :
    (∃ out rows ds, Stok.merge_xml_feeds (sampleDoc [sampleProd "K" "-5"])
        (sampleDoc [sampleProd "K" "2"]) "barkod" = (.ok (out, rows), ds) ∧
      rows.map Row.stok_toplam = [.int 0] ∧
      reloadStok out "barkod" "K" = some (.fin ⟨0, 0⟩)) ∧
    Diag.negClamp ∉ (Stok.merge_xml_feeds (sampleDoc [sampleProd "K" "-5"])
        (sampleDoc [sampleProd "K" "2"]) "barkod").2 := by
  constructor
  · exact ⟨_, _, _, rfl, rfl, rfl⟩
  · decide

/-- C2 (amended): a negative total never fails the merge and is clamped to
zero both in the summary row's total field and in the stock text written to
the merged document; app.py's `compute_merged` records a `negClamp` warning
on its logging side channel for it, while stok.py's `merge_xml_feeds`
records none (its clamp is silent). -/
theorem c2_amended (sroot suproot : Element) (kf k : String) (en : Entry) (a b : Dmag)
    (hkf : kf = "barkod" ∨ kf = "stokKodu")
    (hs : sroot.tag = "urunler") (hq : suproot.tag = "urunler")
    (hfin : allFin (buildPMap kf (findall sroot "urun"))
      (buildPMap kf (findall suproot "urun")) = true)
    (hen : alookup (buildPMap kf (findall sroot "urun")) k = some en)
    (ha : en.stok = .fin a)
    (hb : supStok (buildPMap kf (findall suproot "urun")) k = .fin b)
    (hneg : (addDmag a b).m < 0) :
    ∃ out rows,
      (Stok.merge_xml_feeds (.doc sroot) (.doc suproot) kf).1 = .ok (out, rows) ∧
      (∃ r ∈ rows, r.key = k ∧ r.stok_toplam = .int 0 ∧
        r.stok_magaza = finNum a ∧ r.stok_tedarikci = finNum b) ∧
      (∃ d, reloadStok out kf k = some (.fin d) ∧ dmagQ d = 0) ∧
      Diag.negClamp ∉ (Stok.merge_xml_feeds (.doc sroot) (.doc suproot) kf).2 ∧
      Diag.negClamp ∈ (App.compute_merged (.doc sroot) (.doc suproot) kf).2 := by
  have hcan := stok_merge_eq_ok sroot suproot kf hkf hs hq hfin
  refine ⟨_, _, hcan, ?_, ?_, stok_merge_noclamp _ _ _, ?_⟩
  · refine ⟨keyRow (buildPMap kf (findall suproot "urun")) (k, en),
      List.mem_map_of_mem _ (mem_of_alookup _ _ _ hen), rfl, ?_, ?_, ?_⟩
    · show finNum (totalF en.stok.finPart
        (supStok (buildPMap kf (findall suproot "urun")) k).finPart) = .int 0
      rw [ha, hb]
      show finNum (totalF a b) = .int 0
      unfold totalF
      rw [if_pos hneg]
      rfl
    · show finNum en.stok.finPart = finNum a
      rw [ha]
      rfl
    · show finNum (supStok (buildPMap kf (findall suproot "urun")) k).finPart = finNum b
      rw [hb]
      rfl
  · obtain ⟨en', halk, _, d', hstok', hval⟩ :=
      (reload_of_mutate sroot kf (buildPMap kf (findall suproot "urun")) hkf).2 k en hen
    refine ⟨d', ?_, ?_⟩
    · rw [reloadStok_eq _ _ _ (by
        show (mutateTree kf ((buildPMap kf (findall sroot "urun")).map
          (fun p => (p.1, keyText (buildPMap kf (findall suproot "urun")) p)))
            sroot).tag = "urunler"
        rw [mutateTree_tag]
        exact hs)]
      show (alookup (buildPMap kf (findall (mutateTree kf
          ((buildPMap kf (findall sroot "urun")).map
            (fun p => (p.1, keyText (buildPMap kf (findall suproot "urun")) p)))
          sroot) "urun")) k).map (fun en => en.stok) = some (.fin d')
      rw [halk]
      show some en'.stok = some (.fin d')
      rw [hstok']
    · have hval2 : dmagQ d' = dmagQ (totalF a b) := by
        rw [ha, hb] at hval
        exact hval
      rw [hval2]
      unfold totalF
      rw [if_pos hneg]
      norm_num [dmagQ]
  · have hcl : clampedF (buildPMap kf (findall suproot "urun")) (k, en) = true := by
      unfold clampedF
      show decide ((addDmag en.stok.finPart
        (supStok (buildPMap kf (findall suproot "urun")) k).finPart).m < 0) = true
      rw [ha, hb]
      exact decide_eq_true hneg
    exact app_merge_hasclamp sroot suproot kf hkf hs hq hfin (k, en)
      (mem_of_alookup _ _ _ hen) hcl

/-- C2 witness: the amended clamp statement evaluated on the concrete
store stock `-5` and supplier stock `2`. -/
theorem c2_amended_witness :
    ∃ out rows,
      (Stok.merge_xml_feeds (.doc (.mk "urunler" [] none [sampleProd "K" "-5"]))
        (.doc (.mk "urunler" [] none [sampleProd "K" "2"])) "barkod").1 =
          .ok (out, rows) ∧
      (∃ r ∈ rows, r.key = "K" ∧ r.stok_toplam = .int 0 ∧
        r.stok_magaza = finNum ⟨-5, 0⟩ ∧ r.stok_tedarikci = finNum ⟨2, 0⟩) ∧
      (∃ d, reloadStok out "barkod" "K" = some (.fin d) ∧ dmagQ d = 0) ∧
      Diag.negClamp ∉ (Stok.merge_xml_feeds
        (.doc (.mk "urunler" [] none [sampleProd "K" "-5"]))
        (.doc (.mk "urunler" [] none [sampleProd "K" "2"])) "barkod").2 ∧
      Diag.negClamp ∈ (App.compute_merged
        (.doc (.mk "urunler" [] none [sampleProd "K" "-5"]))
        (.doc (.mk "urunler" [] none [sampleProd "K" "2"])) "barkod").2 :=
  c2_amended (.mk "urunler" [] none [sampleProd "K" "-5"])
    (.mk "urunler" [] none [sampleProd "K" "2"]) "barkod" "K"
    ⟨sampleProd "K" "-5", .fin ⟨-5, 0⟩⟩ ⟨-5, 0⟩ ⟨2, 0⟩
    (Or.inl rfl) rfl rfl (by rfl) (by rfl) rfl (by rfl) (by decide)

/-- C8: round-trip — re-loading the serialized merged document of a
successful merge with the same key field succeeds and yields a mapping with
exactly the store mapping's keys, each key's reloaded stock being a finite
decimal whose value equals the clamped merged total computed for that
key. -/
theorem c8_roundtrip (sroot suproot : Element) (kf : String)
    (hkf : kf = "barkod" ∨ kf = "stokKodu")
    (hs : sroot.tag = "urunler") (hq : suproot.tag = "urunler")
    (hfin : allFin (buildPMap kf (findall sroot "urun"))
      (buildPMap kf (findall suproot "urun")) = true) :
    ∃ out rows,
      (Stok.merge_xml_feeds (.doc sroot) (.doc suproot) kf).1 = .ok (out, rows) ∧
      ∃ m, reloadMap out kf = some m ∧
        (∀ k, k ∈ keysOf m ↔ k ∈ keysOf (buildPMap kf (findall sroot "urun"))) ∧
        (∀ k en, alookup (buildPMap kf (findall sroot "urun")) k = some en →
          ∃ d, (alookup m k).map (fun e => e.stok) = some (.fin d) ∧
            dmagQ d = dmagQ (totalF en.stok.finPart
              (supStok (buildPMap kf (findall suproot "urun")) k).finPart)) := by
  have hcan := stok_merge_eq_ok sroot suproot kf hkf hs hq hfin
  refine ⟨_, _, hcan, ?_⟩
  refine ⟨buildPMap kf (findall (mutateTree kf
      ((buildPMap kf (findall sroot "urun")).map
        (fun p => (p.1, keyText (buildPMap kf (findall suproot "urun")) p))) sroot)
      "urun"), ?_, ?_, ?_⟩
  · apply reloadMap_eq
    show (mutateTree kf ((buildPMap kf (findall sroot "urun")).map
      (fun p => (p.1, keyText (buildPMap kf (findall suproot "urun")) p)))
        sroot).tag = "urunler"
    rw [mutateTree_tag]
    exact hs
  · exact (reload_of_mutate sroot kf (buildPMap kf (findall suproot "urun")) hkf).1
  · intro k en hen
    obtain ⟨en', halk, _, d', hstok', hval⟩ :=
      (reload_of_mutate sroot kf (buildPMap kf (findall suproot "urun")) hkf).2 k en hen
    refine ⟨d', ?_, hval⟩
    rw [halk]
    show some en'.stok = some (.fin d')
    rw [hstok']

/-- C8 witness: the round-trip statement evaluated on the concrete
scenario — store key `"123"` stock `"5"`, supplier `"123"` stock `"3"`. -/
theorem c8_roundtrip_witness :
    ∃ out rows,
      (Stok.merge_xml_feeds (.doc (.mk "urunler" [] none [sampleProd "123" "5"]))
        (.doc (.mk "urunler" [] none [sampleProd "123" "3"])) "barkod").1 =
          .ok (out, rows) ∧
      ∃ m, reloadMap out "barkod" = some m ∧
        (∀ k, k ∈ keysOf m ↔ k ∈ keysOf (buildPMap "barkod"
          (findall (.mk "urunler" [] none [sampleProd "123" "5"]) "urun"))) ∧
        (∀ k en, alookup (buildPMap "barkod"
            (findall (.mk "urunler" [] none [sampleProd "123" "5"]) "urun")) k =
              some en →
          ∃ d, (alookup m k).map (fun e => e.stok) = some (.fin d) ∧
            dmagQ d = dmagQ (totalF en.stok.finPart
              (supStok (buildPMap "barkod"
                (findall (.mk "urunler" [] none [sampleProd "123" "3"]) "urun"))
                k).finPart)) :=
  c8_roundtrip (.mk "urunler" [] none [sampleProd "123" "5"])
    (.mk "urunler" [] none [sampleProd "123" "3"]) "barkod"
    (Or.inl rfl) rfl rfl (by rfl)

/-- C6: a product whose key-field child is absent, or whose key text is
missing or blank after trimming, is silently skipped by the loader: it
contributes no key to the mapping (the mapping equals the one built from
the keyed products alone), every summary row's key comes from some keyed
product (so the skipped product yields no row; there is one row per mapping
entry), and the skipped product's node passes through the merge
unmodified. -/
theorem c6_keyless_skipped (sroot suproot : Element) (kf : String)
    (hkf : kf = "barkod" ∨ kf = "stokKodu")
    (hs : sroot.tag = "urunler") (hq : suproot.tag = "urunler")
    (hfin : allFin (buildPMap kf (findall sroot "urun"))
      (buildPMap kf (findall suproot "urun")) = true) :
    (∀ k, k ∈ keysOf (buildPMap kf (findall sroot "urun")) ↔
      ∃ u ∈ findall sroot "urun", childKey kf u = some k) ∧
    buildPMap kf (findall sroot "urun") =
      buildPMap kf ((findall sroot "urun").filter (fun u => (childKey kf u).isSome)) ∧
    ∃ out rows,
      (Stok.merge_xml_feeds (.doc sroot) (.doc suproot) kf).1 = .ok (out, rows) ∧
      (∀ r ∈ rows, ∃ u ∈ findall sroot "urun", childKey kf u = some r.key) ∧
      rows.length = (buildPMap kf (findall sroot "urun")).length ∧
      (∀ i c, sroot.children.get? i = some c →
        (¬ c.tag = "urun" ∨ childKey kf c = none) →
        out.root.children.get? i = some c) := by
  refine ⟨fun k => mem_keysOf_buildPMap kf k _, ?_, ?_⟩
  · unfold buildPMap
    exact buildFold_filter_keyed kf (findall sroot "urun") []
  · have hcan := stok_merge_eq_ok sroot suproot kf hkf hs hq hfin
    refine ⟨_, _, hcan, ?_, ?_, ?_⟩
    · intro r hr
      obtain ⟨p, hp, hrp⟩ := List.mem_map.mp hr
      have hkmem : p.1 ∈ keysOf (buildPMap kf (findall sroot "urun")) :=
        List.mem_map_of_mem Prod.fst hp
      obtain ⟨u, hu, hck⟩ := (mem_keysOf_buildPMap kf p.1 _).mp hkmem
      refine ⟨u, hu, ?_⟩
      rw [← hrp]
      exact hck
    · show (List.map (keyRow (buildPMap kf (findall suproot "urun")))
        (buildPMap kf (findall sroot "urun"))).length = _
      rw [List.length_map]
    · intro i c hc hnk
      show (updateChildren kf ((buildPMap kf (findall sroot "urun")).map
        (fun p => (p.1, keyText (buildPMap kf (findall suproot "urun")) p)))
          sroot.children).get? i = some c
      rw [updateChildren_get, hc]
      show some (updOne kf ((buildPMap kf (findall sroot "urun")).map
        (fun p => (p.1, keyText (buildPMap kf (findall suproot "urun")) p))) c
          (sroot.children.drop (i + 1))) = some c
      rw [updOne_id _ _ _ _ hnk]

/-- C6 witness: the loader-skip statement evaluated on a concrete store
document whose first product has no key child at all. -/
theorem c6_keyless_witness :
    (∀ k, k ∈ keysOf (buildPMap "barkod"
        (findall (.mk "urunler" [] none [keylessProd "7", sampleProd "A" "1"]) "urun")) ↔
      ∃ u ∈ findall (.mk "urunler" [] none [keylessProd "7", sampleProd "A" "1"]) "urun",
        childKey "barkod" u = some k) ∧
    buildPMap "barkod"
        (findall (.mk "urunler" [] none [keylessProd "7", sampleProd "A" "1"]) "urun") =
      buildPMap "barkod"
        ((findall (.mk "urunler" [] none [keylessProd "7", sampleProd "A" "1"])
          "urun").filter (fun u => (childKey "barkod" u).isSome)) ∧
    ∃ out rows,
      (Stok.merge_xml_feeds
        (.doc (.mk "urunler" [] none [keylessProd "7", sampleProd "A" "1"]))
        (.doc (.mk "urunler" [] none [])) "barkod").1 = .ok (out, rows) ∧
      (∀ r ∈ rows, ∃ u ∈ findall
          (.mk "urunler" [] none [keylessProd "7", sampleProd "A" "1"]) "urun",
        childKey "barkod" u = some r.key) ∧
      rows.length = (buildPMap "barkod" (findall
        (.mk "urunler" [] none [keylessProd "7", sampleProd "A" "1"]) "urun")).length ∧
      (∀ i c, (Element.mk "urunler" [] none
          [keylessProd "7", sampleProd "A" "1"]).children.get? i = some c →
        (¬ c.tag = "urun" ∨ childKey "barkod" c = none) →
        out.root.children.get? i = some c) :=
  c6_keyless_skipped (.mk "urunler" [] none [keylessProd "7", sampleProd "A" "1"])
    (.mk "urunler" [] none []) "barkod" (Or.inl rfl) rfl rfl (by rfl)

/-- C4: frame property of a successful merge — the output tree is the
store tree with tag, attributes, text and child count (and ordering)
preserved; each child is either passed through unchanged or changed only in
its `stok` child, which is overwritten in place when present and appended
when absent; and the supplier document is read only through the stock
values of its key mapping: any supplier document with the same per-key
stock values yields the identical result. -/
theorem c4_frame (sroot suproot : Element) (kf : String)
    (hkf : kf = "barkod" ∨ kf = "stokKodu")
    (hs : sroot.tag = "urunler") (hq : suproot.tag = "urunler")
    (hfin : allFin (buildPMap kf (findall sroot "urun"))
      (buildPMap kf (findall suproot "urun")) = true) :
    ∃ out rows,
      (Stok.merge_xml_feeds (.doc sroot) (.doc suproot) kf).1 = .ok (out, rows) ∧
      out.root.tag = sroot.tag ∧ out.root.attrs = sroot.attrs ∧
      out.root.text = sroot.text ∧
      out.root.children.length = sroot.children.length ∧
      (∀ i c, sroot.children.get? i = some c →
        ∃ c', out.root.children.get? i = some c' ∧
          (c' = c ∨ ∃ txt, UpdatedOnlyStok c c' txt)) ∧
      (∀ suproot2 : Element, suproot2.tag = "urunler" →
        (∀ k, (alookup (buildPMap kf (findall suproot "urun")) k).map
            (fun en => en.stok) =
          (alookup (buildPMap kf (findall suproot2 "urun")) k).map
            (fun en => en.stok)) →
        (Stok.merge_xml_feeds (.doc sroot) (.doc suproot2) kf).1 =
          (Stok.merge_xml_feeds (.doc sroot) (.doc suproot) kf).1) := by
  have hcan := stok_merge_eq_ok sroot suproot kf hkf hs hq hfin
  refine ⟨_, _, hcan, rfl, rfl, rfl, ?_, ?_, ?_⟩
  · show (updateChildren kf ((buildPMap kf (findall sroot "urun")).map
      (fun p => (p.1, keyText (buildPMap kf (findall suproot "urun")) p)))
        sroot.children).length = sroot.children.length
    exact updateChildren_length kf _ sroot.children
  · intro i c hc
    refine ⟨updOne kf ((buildPMap kf (findall sroot "urun")).map
      (fun p => (p.1, keyText (buildPMap kf (findall suproot "urun")) p))) c
        (sroot.children.drop (i + 1)), ?_, ?_⟩
    · show (updateChildren kf ((buildPMap kf (findall sroot "urun")).map
        (fun p => (p.1, keyText (buildPMap kf (findall suproot "urun")) p)))
          sroot.children).get? i = _
      rw [updateChildren_get, hc]
      rfl
    · rcases updOne_cases kf ((buildPMap kf (findall sroot "urun")).map
        (fun p => (p.1, keyText (buildPMap kf (findall suproot "urun")) p))) c
          (sroot.children.drop (i + 1)) with h1 | ⟨txt, h2⟩
      · exact Or.inl h1
      · refine Or.inr ⟨String.mk txt, ?_⟩
        rw [h2]
        exact updateStok_spec c (String.mk txt)
  · intro sup2 h2tag hagree
    have hsup : ∀ k0, supStok (buildPMap kf (findall suproot "urun")) k0 =
        supStok (buildPMap kf (findall sup2 "urun")) k0 :=
      supStok_congr _ _ hagree
    have hfin2 : allFin (buildPMap kf (findall sroot "urun"))
        (buildPMap kf (findall sup2 "urun")) = true := by
      rw [allFin_iff] at hfin ⊢
      intro p hp
      obtain ⟨h1, h2⟩ := hfin p hp
      refine ⟨h1, ?_⟩
      rw [← hsup p.1]
      exact h2
    rw [stok_merge_eq_ok sroot sup2 kf hkf hs h2tag hfin2, hcan]
    have hkt : keyText (buildPMap kf (findall sup2 "urun")) =
        keyText (buildPMap kf (findall suproot "urun")) := by
      funext p
      unfold keyText
      rw [hsup p.1]
    have hkr : keyRow (buildPMap kf (findall sup2 "urun")) =
        keyRow (buildPMap kf (findall suproot "urun")) := by
      funext p
      unfold keyRow
      rw [hsup p.1]
    rw [hkt, hkr]

/-- C4 witness: the frame statement evaluated on the concrete scenario —
store key `"123"` stock `"5"`, supplier `"123"` stock `"3"`. -/
theorem c4_frame_witness :
    ∃ out rows,
      (Stok.merge_xml_feeds (.doc (.mk "urunler" [] none [sampleProd "123" "5"]))
        (.doc (.mk "urunler" [] none [sampleProd "123" "3"])) "barkod").1 =
          .ok (out, rows) ∧
      out.root.tag = (Element.mk "urunler" [] none [sampleProd "123" "5"]).tag ∧
      out.root.attrs = (Element.mk "urunler" [] none [sampleProd "123" "5"]).attrs ∧
      out.root.text = (Element.mk "urunler" [] none [sampleProd "123" "5"]).text ∧
      out.root.children.length =
        (Element.mk "urunler" [] none [sampleProd "123" "5"]).children.length ∧
      (∀ i c, (Element.mk "urunler" [] none
          [sampleProd "123" "5"]).children.get? i = some c →
        ∃ c', out.root.children.get? i = some c' ∧
          (c' = c ∨ ∃ txt, UpdatedOnlyStok c c' txt)) ∧
      (∀ suproot2 : Element, suproot2.tag = "urunler" →
        (∀ k, (alookup (buildPMap "barkod"
            (findall (.mk "urunler" [] none [sampleProd "123" "3"]) "urun")) k).map
              (fun en => en.stok) =
          (alookup (buildPMap "barkod" (findall suproot2 "urun")) k).map
            (fun en => en.stok)) →
        (Stok.merge_xml_feeds (.doc (.mk "urunler" [] none [sampleProd "123" "5"]))
          (.doc suproot2) "barkod").1 =
        (Stok.merge_xml_feeds (.doc (.mk "urunler" [] none [sampleProd "123" "5"]))
          (.doc (.mk "urunler" [] none [sampleProd "123" "3"])) "barkod").1) :=
  c4_frame (.mk "urunler" [] none [sampleProd "123" "5"])
    (.mk "urunler" [] none [sampleProd "123" "3"]) "barkod"
    (Or.inl rfl) rfl rfl (by rfl)

/-- C3 counterexample: a store document with two products bearing the same
key `"A"` merges successfully, the key appears exactly once in the row list
(the mapping is last-wins), but TWO stock-bearing `urun` nodes for `"A"`
remain in the merged document — only the last is updated, the earlier
duplicate keeps its stale `stok` child — refuting "exactly once as a
stock-bearing node in the output document". -/
theorem c3_counterexample :
    ∃ out rows ds,
      Stok.merge_xml_feeds (sampleDoc [sampleProd "A" "1", sampleProd "A" "2"])
        (sampleDoc []) "barkod" = (.ok (out, rows), ds) ∧
      rowKeys rows = ["A"] ∧
      countStockBearing out.root "barkod" "A" = 2 :=
  ⟨_, _, _, rfl, rfl, rfl⟩

/-- C3 (amended): for a successful merge, the row list's keys are exactly
the store mapping's keys, each exactly once; each mapped key has at least
one stock-bearing node in the output, at most as many as the store document
has `urun` children bearing it, and exactly one when the store's keyed
products carry pairwise distinct keys; a key absent from the store mapping
(in particular every supplier-only key) appears in no row and on no `urun`
node of the output document. -/
theorem c3_amended (sroot suproot : Element) (kf : String)
    (hkf : kf = "barkod" ∨ kf = "stokKodu")
    (hs : sroot.tag = "urunler") (hq : suproot.tag = "urunler")
    (hfin : allFin (buildPMap kf (findall sroot "urun"))
      (buildPMap kf (findall suproot "urun")) = true) :
    ∃ out rows,
      (Stok.merge_xml_feeds (.doc sroot) (.doc suproot) kf).1 = .ok (out, rows) ∧
      rowKeys rows = keysOf (buildPMap kf (findall sroot "urun")) ∧
      (rowKeys rows).Nodup ∧
      (∀ k, k ∈ keysOf (buildPMap kf (findall sroot "urun")) →
        1 ≤ countStockBearing out.root kf k ∧
        countStockBearing out.root kf k ≤ countKeyed sroot kf k ∧
        (((findall sroot "urun").filterMap (childKey kf)).Nodup →
          countStockBearing out.root kf k = 1)) ∧
      (∀ k, k ∉ keysOf (buildPMap kf (findall sroot "urun")) →
        k ∉ rowKeys rows ∧ countKeyed out.root kf k = 0 ∧
        countStockBearing out.root kf k = 0) := by
  have hns : kf ≠ "stok" := kf_ne_stok hkf
  have hcan := stok_merge_eq_ok sroot suproot kf hkf hs hq hfin
  have hckEq : ∀ k0, countKeyed (mutateTree kf
      ((buildPMap kf (findall sroot "urun")).map
        (fun p => (p.1, keyText (buildPMap kf (findall suproot "urun")) p))) sroot)
        kf k0 = countKeyed sroot kf k0 := by
    intro k0
    show ((updateChildren kf ((buildPMap kf (findall sroot "urun")).map
        (fun p => (p.1, keyText (buildPMap kf (findall suproot "urun")) p)))
          sroot.children).filter
        (fun c => c.tag == "urun" && childKey kf c == some k0)).length =
      ((sroot.children).filter
        (fun c => c.tag == "urun" && childKey kf c == some k0)).length
    exact countP_updateChildren kf k0 hns _ sroot.children
  refine ⟨_, _, hcan, rowKeys_map_keyRow _ _, ?_, ?_, ?_⟩
  · rw [rowKeys_map_keyRow]
    exact buildPMap_keys_nodup kf _
  · intro k hk
    obtain ⟨en, hen⟩ := alookup_of_mem_keys _ k (buildPMap_keys_nodup kf _) hk
    have h1 := stockBearing_of_mapped sroot kf k
      (buildPMap kf (findall suproot "urun")) hkf en hen
    have hsb := countSB_le_countKeyed (mutateTree kf
      ((buildPMap kf (findall sroot "urun")).map
        (fun p => (p.1, keyText (buildPMap kf (findall suproot "urun")) p))) sroot) kf k
    refine ⟨h1, ?_, ?_⟩
    · rw [hckEq k] at hsb
      exact hsb
    · intro hnd
      have hle : countKeyed sroot kf k ≤ 1 := by
        rw [countKeyed_eq_filter]
        exact nodup_filterMap_le_one kf (findall sroot "urun") hnd k
      rw [hckEq k] at hsb
      show countStockBearing (mutateTree kf
        ((buildPMap kf (findall sroot "urun")).map
          (fun p => (p.1, keyText (buildPMap kf (findall suproot "urun")) p))) sroot)
          kf k = 1
      omega
  · intro k hk
    have hck0 : countKeyed sroot kf k = 0 := by
      have hfil : (findall sroot "urun").filter
          (fun u => childKey kf u == some k) = [] := by
        rw [List.filter_eq_nil_iff]
        intro u hu hb
        exact hk ((mem_keysOf_buildPMap kf k _).mpr ⟨u, hu, by simpa using hb⟩)
      rw [countKeyed_eq_filter, hfil]
      rfl
    have hsb := countSB_le_countKeyed (mutateTree kf
      ((buildPMap kf (findall sroot "urun")).map
        (fun p => (p.1, keyText (buildPMap kf (findall suproot "urun")) p))) sroot) kf k
    rw [hckEq k, hck0] at hsb
    refine ⟨?_, ?_, ?_⟩
    · rw [rowKeys_map_keyRow]
      exact hk
    · rw [hckEq k]
      exact hck0
    · show countStockBearing (mutateTree kf
        ((buildPMap kf (findall sroot "urun")).map
          (fun p => (p.1, keyText (buildPMap kf (findall suproot "urun")) p))) sroot)
          kf k = 0
      omega

/-- C3 witness: the amended uniqueness statement evaluated on the concrete
single-product scenario — store key `"B"` stock `"4"`, supplier `"B"`
stock `"6"`. -/
theorem c3_amended_witness :
    ∃ out rows,
      (Stok.merge_xml_feeds (.doc (.mk "urunler" [] none [sampleProd "B" "4"]))
        (.doc (.mk "urunler" [] none [sampleProd "B" "6"])) "barkod").1 =
          .ok (out, rows) ∧
      rowKeys rows = keysOf (buildPMap "barkod"
        (findall (.mk "urunler" [] none [sampleProd "B" "4"]) "urun")) ∧
      (rowKeys rows).Nodup ∧
      (∀ k, k ∈ keysOf (buildPMap "barkod"
          (findall (.mk "urunler" [] none [sampleProd "B" "4"]) "urun")) →
        1 ≤ countStockBearing out.root "barkod" k ∧
        countStockBearing out.root "barkod" k ≤
          countKeyed (.mk "urunler" [] none [sampleProd "B" "4"]) "barkod" k ∧
        (((findall (.mk "urunler" [] none [sampleProd "B" "4"]) "urun").filterMap
            (childKey "barkod")).Nodup →
          countStockBearing out.root "barkod" k = 1)) ∧
      (∀ k, k ∉ keysOf (buildPMap "barkod"
          (findall (.mk "urunler" [] none [sampleProd "B" "4"]) "urun")) →
        k ∉ rowKeys rows ∧
        countKeyed out.root "barkod" k = 0 ∧
        countStockBearing out.root "barkod" k = 0) :=
  c3_amended (.mk "urunler" [] none [sampleProd "B" "4"])
    (.mk "urunler" [] none [sampleProd "B" "6"]) "barkod"
    (Or.inl rfl) rfl rfl (by rfl)

/-- C1 counterexample: the exactness claim fails in the summary-row fields
and, separately, in the XML text.  (1) Store stock `"0.1"` plus supplier
`"0.2"` merges to the exact decimal 0.3, but the row's total field goes
through `float(Decimal("0.3"))` and holds the double 5404319552844595·2⁻⁵⁴,
which is not 3/10 — floating-point drift for a value exactly expressible in
decimal.  (2) Store stock `"1E+28"` plus supplier `"1"` has the exact
nonnegative sum 10²⁸+1, but `Decimal` addition under the default 28-digit
context rounds it: the stock text written to (and re-loaded from) the
merged XML denotes 10²⁸, not 10²⁸+1. -/
theorem c1_counterexample :
    (∃ out rows ds,
      Stok.merge_xml_feeds (sampleDoc [sampleProd "A" "0.1"])
        (sampleDoc [sampleProd "A" "0.2"]) "barkod" = (.ok (out, rows), ds) ∧
      rows.map Row.stok_toplam = [.float 5404319552844595 (-54)] ∧
      NumVal.qval (.float 5404319552844595 (-54)) ≠ some (3 / 10 : ℚ)) ∧
    (∃ out rows ds,
      Stok.merge_xml_feeds (sampleDoc [sampleProd "B" "1E+28"])
        (sampleDoc [sampleProd "B" "1"]) "barkod" = (.ok (out, rows), ds) ∧
      ∃ d, reloadStok out "barkod" "B" = some (.fin d) ∧
        dmagQ d = (10 : ℚ) ^ (28 : ℕ) ∧ dmagQ d ≠ (10 : ℚ) ^ (28 : ℕ) + 1) := by
  constructor
  · refine ⟨_, _, _, rfl, rfl, ?_⟩
    intro hq
    simp only [NumVal.qval, Option.some_inj] at hq
    have h54 : (2 : ℚ) ^ (-54 : ℤ) = ((2 : ℚ) ^ (54 : ℕ))⁻¹ := by
      rw [show ((-54 : ℤ)) = -((54 : ℕ) : ℤ) by norm_num, zpow_neg, zpow_natCast]
    rw [h54] at hq
    norm_num at hq
  · refine ⟨_, _, _, rfl, ?_⟩
    refine ⟨⟨(10 : ℤ) ^ (28 : ℕ), 0⟩, rfl, ?_, ?_⟩
    · show ((((10 : ℤ) ^ (28 : ℕ)) : ℚ)) * (10 : ℚ) ^ (0 : ℤ) = (10 : ℚ) ^ (28 : ℕ)
      norm_num
    · show ((((10 : ℤ) ^ (28 : ℕ)) : ℚ)) * (10 : ℚ) ^ (0 : ℤ) ≠
        (10 : ℚ) ^ (28 : ℕ) + 1
      norm_num

/-- C1 (amended): supplier stock defaults to decimal zero for keys absent
from the supplier mapping, and `total = store + supplier` is computed with
`Decimal` arithmetic.  When both matched stocks are finite, the exact sum
fits the default context's 28 significant digits, and the total is
nonnegative, the stock value re-loaded from the merged XML text equals
a + b exactly.  In the summary row the three numeric fields are the
int-or-float conversions of a, b and the context-rounded total; the total
field equals a + b exactly as a Python int whenever the total is integral
(the float branch may drift, as the counterexample shows). -/
theorem c1_amended (sroot suproot : Element) (kf k : String) (en : Entry) (a b : Dmag)
    (hkf : kf = "barkod" ∨ kf = "stokKodu")
    (hs : sroot.tag = "urunler") (hq : suproot.tag = "urunler")
    (hfin : allFin (buildPMap kf (findall sroot "urun"))
      (buildPMap kf (findall suproot "urun")) = true)
    (hen : alookup (buildPMap kf (findall sroot "urun")) k = some en)
    (ha : en.stok = .fin a)
    (hb : supStok (buildPMap kf (findall suproot "urun")) k = .fin b)
    (hnn : 0 ≤ (addDmag a b).m)
    (hfit : addExactFits a b = true) :
    ∃ out rows,
      (Stok.merge_xml_feeds (.doc sroot) (.doc suproot) kf).1 = .ok (out, rows) ∧
      (∃ d, reloadStok out kf k = some (.fin d) ∧ dmagQ d = dmagQ a + dmagQ b) ∧
      (∃ r ∈ rows, r.key = k ∧ r.stok_magaza = finNum a ∧
        r.stok_tedarikci = finNum b ∧
        r.stok_toplam = finNum (addDmag a b) ∧
        (isIntegralDmag (addDmag a b) = true →
          ∃ z : ℤ, r.stok_toplam = .int z ∧ (z : ℚ) = dmagQ a + dmagQ b)) := by
  have hcan := stok_merge_eq_ok sroot suproot kf hkf hs hq hfin
  have htot : totalF a b = addDmag a b := by
    unfold totalF
    rw [if_neg (not_lt.mpr hnn)]
  refine ⟨_, _, hcan, ?_, ?_⟩
  · obtain ⟨en', halk, _, d', hstok', hval⟩ :=
      (reload_of_mutate sroot kf (buildPMap kf (findall suproot "urun")) hkf).2 k en hen
    refine ⟨d', ?_, ?_⟩
    · rw [reloadStok_eq _ _ _ (by
        show (mutateTree kf ((buildPMap kf (findall sroot "urun")).map
          (fun p => (p.1, keyText (buildPMap kf (findall suproot "urun")) p)))
            sroot).tag = "urunler"
        rw [mutateTree_tag]
        exact hs)]
      show (alookup (buildPMap kf (findall (mutateTree kf
          ((buildPMap kf (findall sroot "urun")).map
            (fun p => (p.1, keyText (buildPMap kf (findall suproot "urun")) p)))
          sroot) "urun")) k).map (fun en => en.stok) = some (.fin d')
      rw [halk]
      show some en'.stok = some (.fin d')
      rw [hstok']
    · have hval2 : dmagQ d' = dmagQ (totalF a b) := by
        rw [ha, hb] at hval
        exact hval
      rw [hval2, htot]
      exact addDmag_exact a b hfit
  · refine ⟨keyRow (buildPMap kf (findall suproot "urun")) (k, en),
      List.mem_map_of_mem _ (mem_of_alookup _ _ _ hen), rfl, ?_, ?_, ?_, ?_⟩
    · show finNum en.stok.finPart = finNum a
      rw [ha]
      rfl
    · show finNum (supStok (buildPMap kf (findall suproot "urun")) k).finPart = finNum b
      rw [hb]
      rfl
    · show finNum (totalF en.stok.finPart
        (supStok (buildPMap kf (findall suproot "urun")) k).finPart) =
          finNum (addDmag a b)
      rw [ha, hb]
      show finNum (totalF a b) = finNum (addDmag a b)
      rw [htot]
    · intro hI
      refine ⟨intOfDmag (addDmag a b), ?_, ?_⟩
      · show finNum (totalF en.stok.finPart
          (supStok (buildPMap kf (findall suproot "urun")) k).finPart) =
            .int (intOfDmag (addDmag a b))
        rw [ha, hb]
        show finNum (totalF a b) = .int (intOfDmag (addDmag a b))
        rw [htot]
        unfold finNum
        rw [if_pos hI]
      · rw [← addDmag_exact a b hfit]
        exact intOfDmag_q hI

/-- C1 witness: the amended exactness statement evaluated on the concrete
scenario — store stock `"12,5"` plus supplier `"0,5"`, whose total 13 is
integral, so both the XML text and the row's total are exact. -/
theorem c1_amended_witness :
    ∃ out rows,
      (Stok.merge_xml_feeds (.doc (.mk "urunler" [] none [sampleProd "X" "12,5"]))
        (.doc (.mk "urunler" [] none [sampleProd "X" "0,5"])) "barkod").1 =
          .ok (out, rows) ∧
      (∃ d, reloadStok out "barkod" "X" = some (.fin d) ∧
        dmagQ d = dmagQ ⟨125, -1⟩ + dmagQ ⟨5, -1⟩) ∧
      (∃ r ∈ rows, r.key = "X" ∧ r.stok_magaza = finNum ⟨125, -1⟩ ∧
        r.stok_tedarikci = finNum ⟨5, -1⟩ ∧
        r.stok_toplam = finNum (addDmag ⟨125, -1⟩ ⟨5, -1⟩) ∧
        (isIntegralDmag (addDmag ⟨125, -1⟩ ⟨5, -1⟩) = true →
          ∃ z : ℤ, r.stok_toplam = .int z ∧
            (z : ℚ) = dmagQ ⟨125, -1⟩ + dmagQ ⟨5, -1⟩)) :=
  c1_amended (.mk "urunler" [] none [sampleProd "X" "12,5"])
    (.mk "urunler" [] none [sampleProd "X" "0,5"]) "barkod" "X"
    ⟨sampleProd "X" "12,5", .fin ⟨125, -1⟩⟩ ⟨125, -1⟩ ⟨5, -1⟩
    (Or.inl rfl) rfl rfl (by rfl) (by rfl) rfl (by rfl) (by decide) (by decide)
